import Mathlib

/-!
# Ricochet Rage: physics step, animation update, buttons, camera and pathfinding

A shallow embedding of `src/physics_system.cpp` (`get_bounding_box`, `collides`,
`PhysicsSystem::step`) and of `RenderSystem::updateAnimations`,
`RenderSystem::flipActiveButtions`, `RenderSystem::createCameraMatrix` and
`RenderSystem::calculatePosInCamera` from `src/render_system.cpp`. The search
`AISystem::astar_pathfinding`, of which the sources at hand only hold the
declaration (`src/ai_system.hpp`), is modelled from the specification.

Conventions of the embedding.

* `float` values are exact rationals (`ℚ`): the arithmetic of the source is
  modelled without rounding, infinities or NaN. Where the rounding decides a
  property of the overlap test, `collides32` rounds every operation to
  binary32 (`fl32`).
* The loop counters of the source are `uint`; a container holds fewer than
  `2^32` components, so the counters never wrap and are natural numbers here.
* A `for` loop over `0 .. n-1` is a left fold over `List.range n`, and a loop
  over `i+1 .. n-1` a left fold over `List.range' (i+1) (n - (i+1))`.
-/

/-- Entity identifier: the `unsigned int` id wrapped by the class `Entity`. -/
abbrev Entity := Nat

/-- Two-dimensional vector, the `vec2` of the source with exact components. -/
structure vec2 where
  x : ℚ
  y : ℚ
deriving DecidableEq, Repr

namespace vec2

/-- Component-wise sum, the `+` (and `+=`) of `vec2`. -/
def add (a b : vec2) : vec2 := ⟨a.x + b.x, a.y + b.y⟩

/-- Product of a vector with a scalar, the `vec2 * float` of the source. -/
def smul (a : vec2) (s : ℚ) : vec2 := ⟨a.x * s, a.y * s⟩

end vec2

/-- Modelled from the spec: the component `Motion` (declared in `components.hpp`,
which is not part of the sources at hand): position, velocity, scale and
angle. -/
structure Motion where
  position : vec2
  angle : ℚ
  velocity : vec2
  scale : vec2
deriving DecidableEq, Repr

/-- Modelled from the spec: the component `Collision` (declared in
`components.hpp`): the second entity of a collision event, the first one being
the entity the component is attached to. -/
structure Collision where
  other : Entity
deriving DecidableEq, Repr

/-- Modelled from the spec: the container `ComponentContainer` of `tiny_ecs.hpp`
(not part of the sources at hand). The parallel vectors `entities` and
`components` of equal length are one list of slots, in insertion order;
slot `i` holds `entities[i]` and `components[i]`. -/
structure ComponentContainer (α : Type) where
  slots : List (Entity × α)
deriving DecidableEq, Repr

namespace ComponentContainer

variable {α : Type}

/-- The vector `entities` of the container. -/
def entities (c : ComponentContainer α) : List Entity := c.slots.map Prod.fst

/-- The vector `components` of the container. -/
def components (c : ComponentContainer α) : List α := c.slots.map Prod.snd

/-- Number of components, `size()`. -/
def size (c : ComponentContainer α) : Nat := c.components.length

/-- Membership test by entity, `has(e)`. -/
def has (c : ComponentContainer α) (e : Entity) : Bool := c.slots.any (fun s => s.1 == e)

/-- Lookup by entity, `get(e)`; `none` stands for the failed assertion of the
source when the entity has no such component. -/
def get (c : ComponentContainer α) (e : Entity) : Option α :=
  (c.slots.find? (fun s => s.1 == e)).map Prod.snd

/-- Append of a component without the uniqueness check,
`emplace_with_duplicates(e, args...)`. -/
def emplace_with_duplicates (c : ComponentContainer α) (e : Entity) (a : α) :
    ComponentContainer α :=
  ⟨c.slots ++ [(e, a)]⟩

/-- In-place update of `components[i]` through a reference. -/
def modifyAt (c : ComponentContainer α) (i : Nat) (f : α → α) : ComponentContainer α :=
  ⟨c.slots.modify (fun s => (s.1, f s.2)) i⟩

/-- Write through the reference returned by `get(e)`: the component of the
slot that `e` is mapped to is replaced. -/
def set (c : ComponentContainer α) (e : Entity) (a : α) : ComponentContainer α :=
  ⟨c.slots.modify (fun s => (s.1, a)) (c.slots.findIdx (fun s => s.1 == e))⟩

end ComponentContainer

/-- Returns the local bounding coordinates scaled by the current size of the
entity; the absolute value avoids a negative scale due to the facing
direction. -/
def get_bounding_box (motion : Motion) : vec2 :=
  ⟨|motion.scale.x|, |motion.scale.y|⟩

/-- Checks for collision between two bounding boxes (lines 14-27 of
`physics_system.cpp`). -/
def collides (motion1 motion2 : Motion) : Bool :=
  let motion1_left := motion1.position.x - motion1.scale.x / 2
  let motion1_right := motion1.position.x + motion1.scale.x / 2
  let motion1_up := motion1.position.y - motion1.scale.y / 2
  let motion1_down := motion1.position.y + motion1.scale.y / 2
  let motion2_left := motion2.position.x - motion2.scale.x / 2
  let motion2_right := motion2.position.x + motion2.scale.x / 2
  let motion2_up := motion2.position.y - motion2.scale.y / 2
  let motion2_down := motion2.position.y + motion2.scale.y / 2
  decide (motion1_right > motion2_left) && decide (motion2_up < motion1_down) &&
    decide (motion1_left < motion2_right) && decide (motion1_up < motion2_down)

/-- Modelled from the spec: the component `Animation` (declared in
`components.hpp`), with the fields `render_system.cpp` reads and writes. The
frame counters are `int`; they are exact integers here, a signed overflow being
undefined in the source. -/
structure Animation where
  current_time : ℚ
  frame_time : ℚ
  current_frame : Int
  num_frames : Int
  sprite_width : Int
  loop : Bool
  is_playing : Bool
deriving DecidableEq, Repr

/-- Modelled from the spec: the enumeration `EnemyState` (declared in
`components.hpp`); `updateAnimations` only compares a state with `ROAMING`. -/
inductive EnemyState where
  | ROAMING
  | AGGRO
  | ATTACKING
  | FLEEING
  | TELEPORTING
deriving DecidableEq, Repr

/-- Modelled from the spec: the component `Enemy` (declared in `components.hpp`),
of which the renderer reads the field `enemyState`. -/
structure Enemy where
  enemyState : EnemyState
deriving DecidableEq, Repr

/-- Modelled from the spec: the component `Player` (declared in
`components.hpp`); only its presence on an entity is tested. -/
structure Player where
deriving DecidableEq, Repr

/-- Modelled from the spec: the part of the global `registry` (declared in
`tiny_ecs_registry.hpp`) that the physics step and the animation update use. -/
structure Registry where
  motions : ComponentContainer Motion := ⟨[]⟩
  collisions : ComponentContainer Collision := ⟨[]⟩
  animations : ComponentContainer Animation := ⟨[]⟩
  enemyMotions : ComponentContainer Motion := ⟨[]⟩
  wallMotions : ComponentContainer Motion := ⟨[]⟩
  projectileMotions : ComponentContainer Motion := ⟨[]⟩
  players : ComponentContainer Player := ⟨[]⟩
  enemies : ComponentContainer Enemy := ⟨[]⟩
deriving DecidableEq, Repr

namespace PhysicsSystem

/-- Body of the first loop of `step` (line 39):
`motion.position += motion.velocity * step_seconds`. -/
def move (step_seconds : ℚ) (motion : Motion) : Motion :=
  { motion with position := motion.position.add (motion.velocity.smul step_seconds) }

/-- First loop of `step` (lines 36-40): every component of the motion registry
is moved in place, by index. -/
def integrate (step_seconds : ℚ) (motion_registry : ComponentContainer Motion) :
    ComponentContainer Motion :=
  (List.range motion_registry.size).foldl
    (fun mr i => mr.modifyAt i (move step_seconds)) motion_registry

/-- Inner loop of the collision sweep (lines 51-62), for a fixed `i`: `j` runs
from `i+1` to the last index, and a colliding pair appends two events. -/
def sweepFrom (motion_container : ComponentContainer Motion) (i : Nat) (entity_i : Entity)
    (motion_i : Motion) (collisions : ComponentContainer Collision) :
    ComponentContainer Collision :=
  (List.range' (i + 1) (motion_container.size - (i + 1))).foldl
    (fun q j =>
      match motion_container.slots[j]? with
      | none => q
      | some (entity_j, motion_j) =>
        if collides motion_i motion_j then
          (q.emplace_with_duplicates entity_i ⟨entity_j⟩).emplace_with_duplicates
            entity_j ⟨entity_i⟩
        else q)
    collisions

/-- Outer loop of the collision sweep (lines 44-63). -/
def sweep (motion_container : ComponentContainer Motion)
    (collisions : ComponentContainer Collision) : ComponentContainer Collision :=
  (List.range motion_container.size).foldl
    (fun q i =>
      match motion_container.slots[i]? with
      | none => q
      | some (entity_i, motion_i) => sweepFrom motion_container i entity_i motion_i q)
    collisions

/-- The physics step `PhysicsSystem::step(elapsed_ms)`: integration of all
positions, then the all-pairs collision sweep on the moved components. -/
def step (elapsed_ms : ℚ) (registry : Registry) : Registry :=
  let step_seconds := elapsed_ms / 1000
  let motion_container := integrate step_seconds registry.motions
  { registry with
    motions := motion_container
    collisions := sweep motion_container registry.collisions }

/-- The two ordered events of the pair of slots `x`, `y`, when they collide:
`(x, y)` immediately followed by `(y, x)`. -/
def pairEvents (x y : Entity × Motion) : List (Entity × Collision) :=
  if collides x.2 y.2 then [(x.1, ⟨y.1⟩), (y.1, ⟨x.1⟩)] else []

/-- The events of all index pairs `i < j` of a list of slots, scanned with `i`
ascending and then `j` ascending. -/
def allEvents : List (Entity × Motion) → List (Entity × Collision)
  | [] => []
  | x :: xs => xs.flatMap (pairEvents x) ++ allEvents xs

/-- A registry with two boxes of scale (10,10): entity 1 at (0,0) moving right
at 1000 units per second, entity 2 at rest at (20,0). -/
def approachingBoxes : Registry :=
  { motions := ⟨[(1, ⟨⟨0, 0⟩, 0, ⟨1000, 0⟩, ⟨10, 10⟩⟩), (2, ⟨⟨20, 0⟩, 0, ⟨0, 0⟩, ⟨10, 10⟩⟩)]⟩ }

/-- A registry in which entity 1 has the position and velocity it has in
`approachingBoxes`, but another slot, scale and angle, next to other entities
and a collision queue that is not empty. -/
def crowdedBoxes : Registry :=
  { motions := ⟨[(5, ⟨⟨3, 4⟩, 1, ⟨-7, 2⟩, ⟨1, 1⟩⟩), (1, ⟨⟨0, 0⟩, 2, ⟨1000, 0⟩, ⟨-3, 8⟩⟩),
      (9, ⟨⟨16, 0⟩, 0, ⟨0, 0⟩, ⟨4, 4⟩⟩)]⟩
    collisions := ⟨[(5, ⟨9⟩)]⟩ }

end PhysicsSystem

namespace RenderSystem

/-- Lines 76-88 of `updateAnimations`: the motion of an entity is looked up in
the enemy, wall and projectile motions, and otherwise in `registry.motions`. -/
def motionOf (registry : Registry) (entity : Entity) : Option Motion :=
  if registry.enemyMotions.has entity then registry.enemyMotions.get entity
  else if registry.wallMotions.has entity then registry.wallMotions.get entity
  else if registry.projectileMotions.has entity then registry.projectileMotions.get entity
  else registry.motions.get entity

/-- The condition of lines 91-94: a player that moves, or an enemy whose state
is not `ROAMING`. -/
def isActive (registry : Registry) (entity : Entity) (motion : Motion) : Bool :=
  (registry.players.has entity && (motion.velocity.x != 0 || motion.velocity.y != 0)) ||
  (registry.enemies.has entity &&
    (match registry.enemies.get entity with
     | some enemy => enemy.enemyState != EnemyState.ROAMING
     | none => false))

/-- Lines 89-112 of `updateAnimations`, on one animation. -/
def advance (elapsed_seconds : ℚ) (active : Bool) (anim : Animation) : Animation :=
  if !anim.is_playing then anim
  else if active then
    let anim := { anim with current_time := anim.current_time + elapsed_seconds }
    if anim.current_time >= anim.frame_time then
      let anim := { anim with current_time := 0, current_frame := anim.current_frame + 1 }
      if anim.current_frame >= anim.num_frames then
        if anim.loop then { anim with current_frame := 0 }
        else { anim with current_frame := anim.num_frames - 1, is_playing := false }
      else anim
    else anim
  else { anim with current_time := 0, current_frame := 0 }

/-- One iteration of the loop of `updateAnimations` (lines 74-112), for the
entity `entity`; `none` when a lookup by `get` fails. -/
def updateAnimation (elapsed_seconds : ℚ) (registry : Registry) (entity : Entity) :
    Option Registry :=
  match registry.animations.get entity with
  | none => none
  | some anim =>
    match motionOf registry entity with
    | none => none
    | some motion =>
      some { registry with
        animations := registry.animations.set entity
          (advance elapsed_seconds (isActive registry entity motion) anim) }

/-- The animation update `RenderSystem::updateAnimations(elapsed_ms)`: the loop
over `registry.animations.entities`. -/
def updateAnimations (elapsed_ms : ℚ) (registry : Registry) : Option Registry :=
  let elapsed_seconds := elapsed_ms / 1000
  registry.animations.entities.foldlM (updateAnimation elapsed_seconds) registry

/-- The part of a slot of the animation container that `updateAnimations` does
not write: its entity and the fields `frame_time`, `num_frames`,
`sprite_width` and `loop` of its component. -/
def fixedPart (s : Entity × Animation) : Entity × ℚ × Int × Int × Bool :=
  (s.1, s.2.frame_time, s.2.num_frames, s.2.sprite_width, s.2.loop)

/-- Two registries that differ at most in the fields `current_time`,
`current_frame` and `is_playing` of their Animation components. -/
def SameUpToAnimationState (r r' : Registry) : Prop :=
  r'.motions = r.motions ∧ r'.collisions = r.collisions ∧
  r'.enemyMotions = r.enemyMotions ∧ r'.wallMotions = r.wallMotions ∧
  r'.projectileMotions = r.projectileMotions ∧ r'.players = r.players ∧
  r'.enemies = r.enemies ∧
  r'.animations.slots.map fixedPart = r.animations.slots.map fixedPart

/-- A registry with one entity, a player that moves to the right and whose
animation of four frames plays with a frame time of a tenth of a second. -/
def walkingPlayer : Registry :=
  { motions := ⟨[(1, ⟨⟨0, 0⟩, 0, ⟨100, 0⟩, ⟨50, 50⟩⟩)]⟩
    players := ⟨[(1, ⟨⟩)]⟩
    animations := ⟨[(1, ⟨0, 1 / 10, 0, 4, 32, true, true⟩)]⟩ }

end RenderSystem

namespace PhysicsSystem

/-- The index pairs `(i, j)` with `i < j < n`, with `i` ascending and then `j`
ascending. -/
def indexPairs (n : Nat) : List (Nat × Nat) :=
  (List.range n).flatMap (fun i => (List.range' (i + 1) (n - (i + 1))).map (fun j => (i, j)))

/-- Whether the Motions of the slots `p.1` and `p.2` of `l` collide. -/
def collidesAt (l : List (Entity × Motion)) (p : Nat × Nat) : Bool :=
  match l[p.1]?, l[p.2]? with
  | some x, some y => collides x.2 y.2
  | _, _ => false

/-- The events of the index pair `p` of `l`: when the two Motions collide,
`(entity_i, entity_j)` immediately followed by `(entity_j, entity_i)`. -/
def eventsAt (l : List (Entity × Motion)) (p : Nat × Nat) : List (Entity × Collision) :=
  match l[p.1]?, l[p.2]? with
  | some x, some y => if collides x.2 y.2 then [(x.1, ⟨y.1⟩), (y.1, ⟨x.1⟩)] else []
  | _, _ => []

/-- The sequence of events in the words of the specification: the index pairs
`i < j` are scanned in insertion order and every colliding pair emits its two
ordered events. -/
def scanEvents (l : List (Entity × Motion)) : List (Entity × Collision) :=
  (indexPairs l.length).flatMap (eventsAt l)

/-- A registry with two overlapping boxes at rest, entities 1 and 2. -/
def restingBoxes : Registry :=
  { motions := ⟨[(1, ⟨⟨0, 0⟩, 0, ⟨0, 0⟩, ⟨10, 10⟩⟩), (2, ⟨⟨9, 0⟩, 0, ⟨0, 0⟩, ⟨10, 10⟩⟩)]⟩ }

end PhysicsSystem

/-- The overlap test in the words of the specification (standard AABB test):
the distance of the centres is less than the sum of the half extents, on both
axes. -/
def standardAABB (m1 m2 : Motion) : Bool :=
  decide (|m1.position.x - m2.position.x| < (m1.scale.x + m2.scale.x) / 2) &&
    decide (|m1.position.y - m2.position.y| < (m1.scale.y + m2.scale.y) / 2)

namespace RenderSystem

/-- The condition of lines 91-94 for an entity, on the motion that lines 76-88
look up for it. -/
def activeOf (registry : Registry) (entity : Entity) : Bool :=
  match motionOf registry entity with
  | some motion => isActive registry entity motion
  | none => false

/-- Consecutive calls of `updateAnimations`, one for each elapsed time of the
list. -/
def updateAnimationsSeq (elapsed : List ℚ) (registry : Registry) : Option Registry :=
  elapsed.foldlM (fun r ms => updateAnimations ms r) registry

/-- A registry with three animated entities: the moving player 1, on the last
frame of an animation that does not loop; the wall 3, on frame 2 of a looping
animation; the enemy 4 in state `AGGRO`, on frame 1 of a looping animation. -/
def animatedScene : Registry :=
  { motions := ⟨[(1, ⟨⟨0, 0⟩, 0, ⟨100, 0⟩, ⟨50, 50⟩⟩)]⟩
    wallMotions := ⟨[(3, ⟨⟨200, 0⟩, 0, ⟨0, 0⟩, ⟨50, 50⟩⟩)]⟩
    enemyMotions := ⟨[(4, ⟨⟨0, 300⟩, 0, ⟨0, -10⟩, ⟨50, 50⟩⟩)]⟩
    players := ⟨[(1, ⟨⟩)]⟩
    enemies := ⟨[(4, ⟨EnemyState.AGGRO⟩)]⟩
    animations := ⟨[(1, ⟨0, 1 / 10, 3, 4, 32, false, true⟩),
      (3, ⟨1 / 20, 1 / 10, 2, 4, 32, true, true⟩),
      (4, ⟨0, 1 / 10, 1, 4, 32, true, true⟩)]⟩ }

end RenderSystem

/-- Modelled from the spec: the component `Clickable` (declared in
`components.hpp`), with the fields `flipActiveButtions` reads and writes. -/
structure Clickable where
  screenTiedTo : Int
  textureID : Int
  isActive : Bool
deriving DecidableEq, Repr

/-- Modelled from the spec: the component `RenderRequest` (declared in
`components.hpp`); `flipActiveButtions` only tests its presence and removes
it. -/
structure RenderRequest where
  used_texture : Int
  used_effect : Int
  used_geometry : Int
deriving DecidableEq, Repr

/-- Modelled from the spec: the part of the global `registry` that
`flipActiveButtions` uses. -/
structure ScreenRegistry where
  clickables : ComponentContainer Clickable := ⟨[]⟩
  renderRequests : ComponentContainer RenderRequest := ⟨[]⟩
deriving DecidableEq, Repr

/-- Modelled from the spec: `remove(e)` of `ComponentContainer` (in
`tiny_ecs.hpp`), which deletes the component keyed by the entity `e`. -/
def ComponentContainer.remove {α : Type} (c : ComponentContainer α) (e : Entity) :
    ComponentContainer α :=
  ⟨c.slots.filter (fun s => !(s.1 == e))⟩

namespace RenderSystem

/-- Lines 999-1008 of `flipActiveButtions`: the new value of a clickable. The
texture ids `PLAY_BUTTON` and `CONTINUE_BUTTON` (enumerators of
`TEXTURE_ASSET_ID`, declared in `components.hpp`) and the member
`saveFileExists` are parameters. -/
def flipClickable (PLAY_BUTTON CONTINUE_BUTTON : Int) (saveFileExists : Bool)
    (activeScreen : Int) (c : Clickable) : Clickable :=
  let shouldBeActive := c.screenTiedTo == activeScreen
  if shouldBeActive && c.textureID == PLAY_BUTTON then
    { c with isActive := !saveFileExists }
  else if shouldBeActive && c.textureID == CONTINUE_BUTTON then
    { c with isActive := saveFileExists }
  else
    { c with isActive := shouldBeActive }

/-- One iteration of the loop of `flipActiveButtions` (lines 998-1012), for the
entity `e`; `none` when the lookup by `get` fails. -/
def flipActiveButton (PLAY_BUTTON CONTINUE_BUTTON : Int) (saveFileExists : Bool)
    (activeScreen : Int) (registry : ScreenRegistry) (e : Entity) : Option ScreenRegistry :=
  match registry.clickables.get e with
  | none => none
  | some c =>
    let c := flipClickable PLAY_BUTTON CONTINUE_BUTTON saveFileExists activeScreen c
    let clickables := registry.clickables.set e c
    if !c.isActive && registry.renderRequests.has e then
      some { clickables := clickables, renderRequests := registry.renderRequests.remove e }
    else
      some { clickables := clickables, renderRequests := registry.renderRequests }

/-- The activation of the buttons, `RenderSystem::flipActiveButtions(activeScreen)`:
the loop over `registry.clickables.entities`. -/
def flipActiveButtions (PLAY_BUTTON CONTINUE_BUTTON : Int) (saveFileExists : Bool)
    (activeScreen : Int) (registry : ScreenRegistry) : Option ScreenRegistry :=
  registry.clickables.entities.foldlM
    (flipActiveButton PLAY_BUTTON CONTINUE_BUTTON saveFileExists activeScreen) registry

/-- A main menu (screen 0) with a PLAY button (texture 7, entity 1) and a
CONTINUE button (texture 8, entity 2), and a button of another screen
(entity 3); all three have a render request. -/
def mainMenu : ScreenRegistry :=
  { clickables := ⟨[(1, ⟨0, 7, false⟩), (2, ⟨0, 8, true⟩), (3, ⟨2, 5, true⟩)]⟩
    renderRequests := ⟨[(1, ⟨7, 0, 0⟩), (3, ⟨5, 0, 0⟩), (2, ⟨8, 0, 0⟩)]⟩ }

end RenderSystem

/-- Modelled from the spec: a cell of the path grid, by its column and row. -/
abbrev Cell := Int × Int

/-- Modelled from the spec: a node of the path grid (`GridNode`, declared in a
header that is not part of the sources at hand): traversability flag, visited
flag, cumulative cost (`none` while the node has not been reached) and
back-pointer. -/
structure GridNode where
  traversable : Bool
  visited : Bool
  cost : Option Nat
  parent : Option Cell

/-- Modelled from the spec: the path grid `GridMap`, a uniform grid of
`width` times `height` nodes. -/
structure GridMap where
  width : Nat
  height : Nat
  nodes : Cell → GridNode

namespace AISystem

/-- Modelled from the spec: whether a cell lies within the grid bounds. -/
def inBounds (grid : GridMap) (c : Cell) : Bool :=
  decide (0 ≤ c.1) && decide (c.1 < grid.width) && decide (0 ≤ c.2) &&
    decide (c.2 < grid.height)

/-- Modelled from the spec: the neighbours of a cell, 4-connected, or
8-connected when `eight` is set (the spec leaves the choice open). -/
def neighbours (eight : Bool) (c : Cell) : List Cell :=
  [(c.1 + 1, c.2), (c.1 - 1, c.2), (c.1, c.2 + 1), (c.1, c.2 - 1)] ++
    (if eight then
      [(c.1 + 1, c.2 + 1), (c.1 + 1, c.2 - 1), (c.1 - 1, c.2 + 1), (c.1 - 1, c.2 - 1)]
    else [])

/-- Modelled from the spec: `reset_grid`, which clears the visited flag, the
cost and the back-pointer of every node before a search. -/
def reset_grid (gridMap : GridMap) : GridMap :=
  { gridMap with
    nodes := fun c => { gridMap.nodes c with visited := false, cost := none, parent := none } }

/-- Modelled from the spec: the cells of the grid, column by column. -/
def cells (grid : GridMap) : List Cell :=
  (List.range grid.width).flatMap
    (fun (x : Nat) => (List.range grid.height).map (fun (y : Nat) => ((x : Int), (y : Int))))

/-- Modelled from the spec: a node of the open set is reached (it has a cost)
and not visited. -/
def isOpen (grid : GridMap) (c : Cell) : Bool :=
  (grid.nodes c).cost.isSome && !(grid.nodes c).visited

/-- Modelled from the spec: the priority `f = g + h` of a node, cumulative cost
plus heuristic distance to the goal. -/
def priority (heuristic : Cell → Cell → Nat) (grid : GridMap) (goal c : Cell) : Nat :=
  (grid.nodes c).cost.getD 0 + heuristic c goal

/-- Modelled from the spec: the better of the best open node so far and the
open node `c`, which is `c` when its priority is strictly less. -/
def pickStep (heuristic : Cell → Cell → Nat) (grid : GridMap) (goal : Cell)
    (best : Option Cell) (c : Cell) : Option Cell :=
  match best with
  | none => some c
  | some b =>
    if priority heuristic grid goal c < priority heuristic grid goal b then some c
    else some b

/-- Modelled from the spec: the node of the open set with the least priority
(the first one in grid order among equals), if the open set is not empty. -/
def pickOpen (heuristic : Cell → Cell → Nat) (grid : GridMap) (goal : Cell) : Option Cell :=
  ((cells grid).filter (isOpen grid)).foldl (pickStep heuristic grid goal) none

/-- Modelled from the spec: relaxation of the neighbour `n` of the node `cur`.
A traversable node in bounds that is not visited takes `cur` as back-pointer
when this lowers its cumulative cost (or gives it its first cost). -/
def relax (stepCost : Cell → Cell → Nat) (grid : GridMap) (cur n : Cell) : GridMap :=
  match (grid.nodes cur).cost with
  | none => grid
  | some g =>
    if inBounds grid n && (grid.nodes n).traversable && !(grid.nodes n).visited &&
        (match (grid.nodes n).cost with
         | none => true
         | some old => decide (g + stepCost cur n < old)) then
      { grid with
        nodes := fun c =>
          if c = n then { grid.nodes n with cost := some (g + stepCost cur n), parent := some cur }
          else grid.nodes c }
    else grid

/-- Modelled from the spec: the node `cur` is marked visited. -/
def markVisited (grid : GridMap) (cur : Cell) : GridMap :=
  { grid with
    nodes := fun c => if c = cur then { grid.nodes cur with visited := true } else grid.nodes c }

/-- Modelled from the spec: expansion of the node `cur`, which is marked
visited and whose neighbours are relaxed. -/
def expand (eight : Bool) (stepCost : Cell → Cell → Nat) (grid : GridMap) (cur : Cell) :
    GridMap :=
  (neighbours eight cur).foldl (fun g n => relax stepCost g cur n) (markVisited grid cur)

/-- Modelled from the spec: walk along the back-pointers from `c` to `start`;
the cells are listed from `c` on. -/
def walkBack (grid : GridMap) (start : Cell) : Nat → Cell → Option (List Cell)
  | 0, _ => none
  | fuel + 1, c =>
    if c = start then some [c]
    else
      match (grid.nodes c).parent with
      | none => none
      | some p => (walkBack grid start fuel p).map (fun l => c :: l)

/-- Modelled from the spec: the main loop of the search. The open node of least
priority is taken; the goal ends the search with the reversed walk along the
back-pointers, any other node is expanded; an empty open set reports failure.
Every iteration visits one more node, so `width * height + 1` iterations
suffice. -/
def search (eight : Bool) (heuristic stepCost : Cell → Cell → Nat) (start goal : Cell) :
    Nat → GridMap → Option (List Cell)
  | 0, _ => none
  | fuel + 1, grid =>
    match pickOpen heuristic grid goal with
    | none => none
    | some cur =>
      if cur = goal then
        (walkBack grid start ((grid.nodes goal).cost.getD 0 + 1) goal).map List.reverse
      else search eight heuristic stepCost start goal fuel (expand eight stepCost grid cur)

/-- Modelled from the spec: the start node enters the open set with cost 0. -/
def seedStart (grid : GridMap) (startNode : Cell) : GridMap :=
  { grid with
    nodes := fun c =>
      if c = startNode then { grid.nodes startNode with cost := some 0 } else grid.nodes c }

/-- Modelled from the spec: `AISystem::astar_pathfinding` (only declared in
`ai_system.hpp`): standard A* over the grid nodes, with the neighbourhood, the
heuristic and the cost of a move as parameters. The result is the path from
the start cell to the goal cell, or `none` when no path is reported. -/
def astar_pathfinding (eight : Bool) (heuristic stepCost : Cell → Cell → Nat)
    (grid : GridMap) (startNode endNode : Cell) : Option (List Cell) :=
  let grid := reset_grid grid
  if inBounds grid startNode && inBounds grid endNode &&
      (grid.nodes startNode).traversable && (grid.nodes endNode).traversable then
    search eight heuristic stepCost startNode endNode (grid.width * grid.height + 1)
      (seedStart grid startNode)
  else none

/-- A grid with one vertical wall in column `k`, with a gap in row `gap` when
there is one; all other cells are traversable. -/
def wallGrid (width height : Nat) (k : Int) (gap : Option Int) : GridMap :=
  { width := width
    height := height
    nodes := fun c =>
      { traversable := decide (c.1 ≠ k) || decide (gap = some c.2)
        visited := false
        cost := none
        parent := none } }

/-- The Manhattan distance of two cells. -/
def manhattan (a b : Cell) : Nat := (a.1 - b.1).natAbs + (a.2 - b.2).natAbs

end AISystem

namespace AISystem

/-- A move of the search: from `a` to a neighbour `b` that is in bounds and
traversable. -/
def Step (eight : Bool) (grid : GridMap) (a b : Cell) : Prop :=
  b ∈ neighbours eight a ∧ inBounds grid b = true ∧ (grid.nodes b).traversable = true

/-- The cell `b` can be reached from `a` by moves through traversable cells. -/
def Reachable (eight : Bool) (grid : GridMap) (a b : Cell) : Prop :=
  Relation.ReflTransGen (Step eight grid) a b

/-- A path from `start` to `goal`: it begins at `start`, ends at `goal`, all
its cells are in bounds and traversable, and each cell is a neighbour of the
one before. -/
def ValidPath (eight : Bool) (grid : GridMap) (start goal : Cell) (path : List Cell) : Prop :=
  path.head? = some start ∧ path.getLast? = some goal ∧
    (∀ c ∈ path, inBounds grid c = true ∧ (grid.nodes c).traversable = true) ∧
    path.Chain' (fun a b => b ∈ neighbours eight a)

/-- The invariant of the search, but for the closure of the visited set: the
static part of the grid `g0` is kept, the start has cost 0, every reached node
is in bounds and traversable and (the start apart) has a visited back-pointer
one move away that accounts for its cost, every visited node is reached, and
the goal is not visited. -/
structure Core (eight : Bool) (stepCost : Cell → Cell → Nat) (g0 : GridMap)
    (start goal : Cell) (g : GridMap) : Prop where
  width_eq : g.width = g0.width
  height_eq : g.height = g0.height
  trav_eq : ∀ c, (g.nodes c).traversable = (g0.nodes c).traversable
  start_cost : (g.nodes start).cost = some 0
  reached_ok : ∀ c, (g.nodes c).cost.isSome = true →
    inBounds g0 c = true ∧ (g0.nodes c).traversable = true
  link : ∀ c gc, (g.nodes c).cost = some gc → c ≠ start →
    ∃ p gp, (g.nodes c).parent = some p ∧ (g.nodes p).visited = true ∧
      (g.nodes p).cost = some gp ∧ gc = gp + stepCost p c ∧ c ∈ neighbours eight p
  visited_reached : ∀ c, (g.nodes c).visited = true → (g.nodes c).cost.isSome = true
  goal_open : (g.nodes goal).visited = false

/-- The visited node `c` is closed: all its traversable neighbours in bounds
are reached. -/
def Closed (eight : Bool) (g0 g : GridMap) (c : Cell) : Prop :=
  ∀ n ∈ neighbours eight c, inBounds g0 n = true → (g0.nodes n).traversable = true →
    (g.nodes n).cost.isSome = true

/-- The number of cells of the grid that are not visited. -/
def unvisited (g : GridMap) : Nat :=
  ((cells g).filter (fun c => !(g.nodes c).visited)).length

end AISystem

/-- Three-dimensional vector, the `vec3` of the source with exact components. -/
structure vec3 where
  x : ℚ
  y : ℚ
  z : ℚ
deriving DecidableEq, Repr

/-- Matrix of three columns, the `mat3` of the source (column-major): the
initialiser `{{a, b, c}, {d, e, f}, {g, h, i}}` lists the columns. -/
structure mat3 where
  col0 : vec3
  col1 : vec3
  col2 : vec3
deriving DecidableEq, Repr

/-- Product of a matrix with a column vector, the `mat3 * vec3` of the
source. -/
def mat3.mulVec (m : mat3) (v : vec3) : vec3 :=
  ⟨m.col0.x * v.x + m.col1.x * v.y + m.col2.x * v.z,
   m.col0.y * v.x + m.col1.y * v.y + m.col2.y * v.z,
   m.col0.z * v.x + m.col1.z * v.y + m.col2.z * v.z⟩

namespace RenderSystem

/-- The camera matrix `RenderSystem::createCameraMatrix()` (lines 629-650). The
framebuffer size `w`, `h` that `glfwGetFramebufferSize` returns is a parameter;
`w/2` and `h/2` are the truncating divisions of `int`. The result is `none`
when there is no player or the player has no Motion. -/
def createCameraMatrix (w h : Int) (registry : Registry) : Option mat3 :=
  match registry.players.entities[0]? with
  | none => none
  | some p =>
    match registry.motions.get p with
    | none => none
    | some m =>
      let left : ℚ := m.position.x - ((Int.tdiv w 2 : Int) : ℚ)
      let top : ℚ := m.position.y - ((Int.tdiv h 2 : Int) : ℚ)
      let right : ℚ := m.position.x + ((Int.tdiv w 2 : Int) : ℚ)
      let bottom : ℚ := m.position.y + ((Int.tdiv h 2 : Int) : ℚ)
      let sx : ℚ := 2 / (right - left)
      let sy : ℚ := 2 / (top - bottom)
      let tx : ℚ := -(right + left) / (right - left)
      let ty : ℚ := -(top + bottom) / (top - bottom)
      some ⟨⟨sx, 0, 0⟩, ⟨0, sy, 0⟩, ⟨tx, ty, 1⟩⟩

/-- The position on screen `RenderSystem::calculatePosInCamera(position)`
(lines 1016-1024). The framebuffer size `fbw`, `fbh` and the window size `w`,
`h` that `glfwGetWindowSize` returns are parameters. -/
def calculatePosInCamera (fbw fbh w h : Int) (registry : Registry) (position : vec2) :
    Option vec2 :=
  match createCameraMatrix fbw fbh registry with
  | none => none
  | some cameraMatrix =>
    let updatedPosition := cameraMatrix.mulVec ⟨position.x, position.y, 1⟩
    let standardizedPosition : vec2 :=
      ⟨(updatedPosition.x + 1) / 2, (updatedPosition.y + 1) / 2⟩
    some ⟨(w : ℚ) * standardizedPosition.x, (h : ℚ) - (h : ℚ) * standardizedPosition.y⟩

/-- A registry whose player, entity 1, is at (120, -40). -/
def cameraScene : Registry :=
  { motions := ⟨[(7, ⟨⟨5, 5⟩, 0, ⟨0, 0⟩, ⟨10, 10⟩⟩), (1, ⟨⟨120, -40⟩, 0, ⟨0, 0⟩, ⟨50, 50⟩⟩)]⟩
    players := ⟨[(1, ⟨⟩)]⟩ }

end RenderSystem

/-- Rounding of a rational to the nearest integer, ties to the even one. -/
def roundHalfEven (r : ℚ) : Int :=
  let f := ⌊r⌋
  if r - f < 1 / 2 then f
  else if 1 / 2 < r - f then f + 1
  else if f % 2 = 0 then f else f + 1

/-- The `float` nearest to a rational: IEEE 754 binary32 rounding, to nearest
with ties to even, with a significand of 24 bits and subnormals below
`2^-126`. The overflow to infinity (magnitudes from `2^128` on) is not
modelled. -/
def fl32 (q : ℚ) : ℚ :=
  if q = 0 then 0
  else
    let e := max (Int.log 2 |q|) (-126)
    (roundHalfEven (q / (2 : ℚ) ^ (e - 23)) : ℚ) * (2 : ℚ) ^ (e - 23)

/-- Checks for collision between two bounding boxes (lines 14-27 of
`physics_system.cpp`), every `float` operation being rounded to binary32. -/
def collides32 (motion1 motion2 : Motion) : Bool :=
  let motion1_left := fl32 (motion1.position.x - fl32 (motion1.scale.x / 2))
  let motion1_right := fl32 (motion1.position.x + fl32 (motion1.scale.x / 2))
  let motion1_up := fl32 (motion1.position.y - fl32 (motion1.scale.y / 2))
  let motion1_down := fl32 (motion1.position.y + fl32 (motion1.scale.y / 2))
  let motion2_left := fl32 (motion2.position.x - fl32 (motion2.scale.x / 2))
  let motion2_right := fl32 (motion2.position.x + fl32 (motion2.scale.x / 2))
  let motion2_up := fl32 (motion2.position.y - fl32 (motion2.scale.y / 2))
  let motion2_down := fl32 (motion2.position.y + fl32 (motion2.scale.y / 2))
  decide (motion1_right > motion2_left) && decide (motion2_up < motion1_down) &&
    decide (motion1_left < motion2_right) && decide (motion1_up < motion2_down)

/-! ## Auxiliary facts on the two loops of the physics step -/

section Loops

variable {α : Type}

theorem List.foldl_modify_range (f : α → α) (l : List α) (n : Nat) :
    (List.range n).foldl (fun l i => l.modify f i) l = (l.take n).map f ++ l.drop n := by
  induction n with
  | zero => simp
  | succ n ih =>
    rw [List.range_succ, List.foldl_append, ih]
    simp only [List.foldl_cons, List.foldl_nil]
    apply List.ext_getElem?
    intro m
    rw [List.getElem?_modify]
    rcases Nat.lt_trichotomy m n with h | h | h
    · have hne : ¬ n = m := by omega
      simp only [hne, if_false]
      by_cases hl : m < l.length
      · rw [List.getElem?_append_left (by simp; omega),
          List.getElem?_append_left (by simp; omega)]
        simp [List.getElem?_map, List.getElem?_take, h, Nat.lt_succ_of_lt h]
      · have h1 : ((List.take n l).map f ++ List.drop n l).length ≤ m := by simp; omega
        have h2 : ((List.take (n + 1) l).map f ++ List.drop (n + 1) l).length ≤ m := by
          simp; omega
        rw [List.getElem?_eq_none h1, List.getElem?_eq_none h2]; rfl
    · subst h
      by_cases hl : m < l.length
      · rw [List.getElem?_append_right (by simp),
          List.getElem?_append_left (by simp; omega)]
        simp [List.getElem?_map, List.getElem?_take, Nat.min_eq_left (Nat.le_of_lt hl)]
      · have h1 : ((List.take m l).map f ++ List.drop m l).length ≤ m := by simp; omega
        have h2 : ((List.take (m + 1) l).map f ++ List.drop (m + 1) l).length ≤ m := by
          simp; omega
        rw [List.getElem?_eq_none h1, List.getElem?_eq_none h2]; rfl
    · have hne : ¬ n = m := by omega
      simp only [hne, if_false]
      by_cases hl : m < l.length
      · rw [List.getElem?_append_right (by simp; omega),
          List.getElem?_append_right (by simp; omega)]
        simp only [List.length_map, List.length_take, List.getElem?_drop,
          Nat.min_eq_left (show n ≤ l.length by omega),
          Nat.min_eq_left (show n + 1 ≤ l.length by omega)]
        have e1 : n + (m - n) = m := by omega
        have e2 : n + 1 + (m - (n + 1)) = m := by omega
        rw [e1, e2]; simp
      · have h1 : ((List.take n l).map f ++ List.drop n l).length ≤ m := by simp; omega
        have h2 : ((List.take (n + 1) l).map f ++ List.drop (n + 1) l).length ≤ m := by
          simp; omega
        rw [List.getElem?_eq_none h1, List.getElem?_eq_none h2]; rfl

end Loops

namespace PhysicsSystem

theorem foldl_modifyAt_slots (f : Motion → Motion) (L : List Nat)
    (mc : ComponentContainer Motion) :
    (L.foldl (fun mr i => mr.modifyAt i f) mc).slots =
      L.foldl (fun l i => l.modify (fun s => (s.1, f s.2)) i) mc.slots := by
  induction L generalizing mc with
  | nil => rfl
  | cons i L ih => simp only [List.foldl_cons]; rw [ih]; rfl

/-- The first loop of `step` moves every slot and keeps its entity. -/
theorem integrate_slots (s : ℚ) (mc : ComponentContainer Motion) :
    (integrate s mc).slots = mc.slots.map (fun p => (p.1, move s p.2)) := by
  unfold integrate
  rw [foldl_modifyAt_slots, List.foldl_modify_range]
  have h : mc.size = mc.slots.length := by
    simp [ComponentContainer.size, ComponentContainer.components]
  rw [h, List.take_length, List.drop_length, List.append_nil]

theorem size_eq_length (mc : ComponentContainer Motion) : mc.size = mc.slots.length := by
  simp [ComponentContainer.size, ComponentContainer.components]

/-- The inner loop from index `s` on appends the events of `x` with the slots
`s, s+1, ...` in this order. -/
theorem sweepFrom_aux (mc : ComponentContainer Motion) (x : Entity × Motion) (k : Nat) :
    ∀ (s : Nat) (q : ComponentContainer Collision), s + k = mc.slots.length →
      ((List.range' s k).foldl
        (fun q j =>
          match mc.slots[j]? with
          | none => q
          | some (entity_j, motion_j) =>
            if collides x.2 motion_j then
              (q.emplace_with_duplicates x.1 ⟨entity_j⟩).emplace_with_duplicates
                entity_j ⟨x.1⟩
            else q) q).slots = q.slots ++ (mc.slots.drop s).flatMap (pairEvents x) := by
  induction k with
  | zero =>
    intro s q h
    have : mc.slots.drop s = [] := List.drop_eq_nil_of_le (by omega)
    simp [this]
  | succ k ih =>
    intro s q h
    have hs : s < mc.slots.length := by omega
    rw [List.range'_succ, List.foldl_cons, ih (s + 1) _ (by omega),
      List.drop_eq_getElem_cons hs, List.flatMap_cons, List.getElem?_eq_getElem hs]
    rcases hy : mc.slots[s] with ⟨e, m⟩
    simp only [pairEvents]
    by_cases hc : collides x.2 m = true
    · simp [hc, ComponentContainer.emplace_with_duplicates]
    · simp [hc]

theorem sweepFrom_slots (mc : ComponentContainer Motion) (i : Nat) (e : Entity) (m : Motion)
    (q : ComponentContainer Collision) (hi : i < mc.slots.length) :
    (sweepFrom mc i e m q).slots =
      q.slots ++ (mc.slots.drop (i + 1)).flatMap (pairEvents (e, m)) := by
  unfold sweepFrom
  exact sweepFrom_aux mc (e, m) (mc.size - (i + 1)) (i + 1) q
    (by rw [size_eq_length]; omega)

theorem sweep_aux (mc : ComponentContainer Motion) (k : Nat) :
    ∀ (s : Nat) (q : ComponentContainer Collision), s + k = mc.slots.length →
      ((List.range' s k).foldl
        (fun q i =>
          match mc.slots[i]? with
          | none => q
          | some (entity_i, motion_i) => sweepFrom mc i entity_i motion_i q) q).slots =
        q.slots ++ allEvents (mc.slots.drop s) := by
  induction k with
  | zero =>
    intro s q h
    have : mc.slots.drop s = [] := List.drop_eq_nil_of_le (by omega)
    simp [this, allEvents]
  | succ k ih =>
    intro s q h
    have hs : s < mc.slots.length := by omega
    rw [List.range'_succ, List.foldl_cons, ih (s + 1) _ (by omega),
      List.drop_eq_getElem_cons hs, allEvents, List.getElem?_eq_getElem hs]
    rcases hy : mc.slots[s] with ⟨e, m⟩
    simp only []
    rw [sweepFrom_slots mc s e m q hs, List.append_assoc]

/-- The collision sweep appends to the queue the events of all index pairs
`i < j`, in scan order. -/
theorem sweep_slots (mc : ComponentContainer Motion) (q : ComponentContainer Collision) :
    (sweep mc q).slots = q.slots ++ allEvents mc.slots := by
  unfold sweep
  rw [List.range_eq_range']
  have h := sweep_aux mc mc.size 0 q (by rw [size_eq_length]; omega)
  simpa using h

theorem step_motions_slots (ms : ℚ) (r : Registry) :
    (step ms r).motions.slots = r.motions.slots.map (fun p => (p.1, move (ms / 1000) p.2)) := by
  simp [step, integrate_slots]

theorem step_collisions_slots (ms : ℚ) (r : Registry) :
    (step ms r).collisions.slots =
      r.collisions.slots ++ allEvents (step ms r).motions.slots := by
  simp [step, sweep_slots]

end PhysicsSystem

/-! ## Auxiliary facts on `collides` and on the events of a list of slots -/

theorem List.count_eq_one_of_nodup_of_mem {β : Type} [BEq β] [LawfulBEq β] {a : β}
    {l : List β} (hnd : l.Nodup) (h : a ∈ l) : l.count a = 1 := by
  induction l with
  | nil => cases h
  | cons b l ih =>
    rw [List.nodup_cons] at hnd
    rw [List.count_cons]
    by_cases hb : b = a
    · subst hb
      simp [List.count_eq_zero.mpr hnd.1]
    · have hm : a ∈ l := by
        rcases List.mem_cons.mp h with h | h
        · exact absurd h.symm hb
        · exact h
      simp [ih hnd.2 hm, hb]

theorem collides_iff (m1 m2 : Motion) :
    collides m1 m2 = true ↔
      (m1.position.x + m1.scale.x / 2 > m2.position.x - m2.scale.x / 2 ∧
       m2.position.y - m2.scale.y / 2 < m1.position.y + m1.scale.y / 2 ∧
       m1.position.x - m1.scale.x / 2 < m2.position.x + m2.scale.x / 2 ∧
       m1.position.y - m1.scale.y / 2 < m2.position.y + m2.scale.y / 2) := by
  simp [collides, and_assoc]

theorem collides_swap (m1 m2 : Motion) : collides m1 m2 = collides m2 m1 := by
  rw [Bool.eq_iff_iff, collides_iff, collides_iff]
  constructor <;> rintro ⟨h1, h2, h3, h4⟩ <;> exact ⟨h3, h4, h1, h2⟩

namespace PhysicsSystem

theorem mem_pairEvents (x y : Entity × Motion) (ev : Entity × Collision) :
    ev ∈ pairEvents x y ↔
      collides x.2 y.2 = true ∧ (ev = (x.1, ⟨y.1⟩) ∨ ev = (y.1, ⟨x.1⟩)) := by
  unfold pairEvents
  by_cases hc : collides x.2 y.2 = true <;> simp [hc]

/-- Every event of `allEvents l` comes from two slots `i < j` that collide. -/
theorem allEvents_sound (l : List (Entity × Motion)) (ev : Entity × Collision)
    (h : ev ∈ allEvents l) :
    ∃ (i j : Nat) (x y : Entity × Motion), i < j ∧ l[i]? = some x ∧ l[j]? = some y ∧
      collides x.2 y.2 = true ∧ (ev = (x.1, ⟨y.1⟩) ∨ ev = (y.1, ⟨x.1⟩)) := by
  induction l with
  | nil => simp [allEvents] at h
  | cons x xs ih =>
    rw [allEvents, List.mem_append] at h
    rcases h with h | h
    · rw [List.mem_flatMap] at h
      obtain ⟨y, hy, hev⟩ := h
      obtain ⟨j, hj⟩ := List.mem_iff_getElem?.mp hy
      rw [mem_pairEvents] at hev
      exact ⟨0, j + 1, x, y, Nat.succ_pos j, by simp, by simpa using hj, hev.1, hev.2⟩
    · obtain ⟨i, j, a, b, hij, hi, hj, hc, hev⟩ := ih h
      exact ⟨i + 1, j + 1, a, b, by omega, by simpa using hi, by simpa using hj, hc, hev⟩

/-- Two slots `i < j` that collide give both ordered events. -/
theorem allEvents_complete (l : List (Entity × Motion)) :
    ∀ (i j : Nat) (x y : Entity × Motion), i < j → l[i]? = some x → l[j]? = some y →
      collides x.2 y.2 = true →
      (x.1, (⟨y.1⟩ : Collision)) ∈ allEvents l ∧ (y.1, (⟨x.1⟩ : Collision)) ∈ allEvents l := by
  induction l with
  | nil => intro i j x y _ hi; simp at hi
  | cons a xs ih =>
    intro i j x y hij hi hj hc
    obtain ⟨j', rfl⟩ : ∃ j', j = j' + 1 := ⟨j - 1, by omega⟩
    rw [List.getElem?_cons_succ] at hj
    rw [allEvents]
    cases i with
    | zero =>
      simp only [List.getElem?_cons_zero, Option.some.injEq] at hi
      subst hi
      have hy : y ∈ xs := List.mem_iff_getElem?.mpr ⟨j', hj⟩
      constructor
      · exact List.mem_append_left _
          (List.mem_flatMap.mpr ⟨y, hy, (mem_pairEvents _ _ _).mpr ⟨hc, Or.inl rfl⟩⟩)
      · exact List.mem_append_left _
          (List.mem_flatMap.mpr ⟨y, hy, (mem_pairEvents _ _ _).mpr ⟨hc, Or.inr rfl⟩⟩)
    | succ i' =>
      rw [List.getElem?_cons_succ] at hi
      obtain ⟨h1, h2⟩ := ih i' j' x y (by omega) hi hj hc
      exact ⟨List.mem_append_right _ h1, List.mem_append_right _ h2⟩

/-- Both entities of an event of `allEvents l` are entities of `l`. -/
theorem allEvents_entities (l : List (Entity × Motion)) (ev : Entity × Collision)
    (h : ev ∈ allEvents l) : ev.1 ∈ l.map Prod.fst ∧ ev.2.other ∈ l.map Prod.fst := by
  obtain ⟨i, j, x, y, _, hi, hj, _, hev⟩ := allEvents_sound l ev h
  have hx : x ∈ l := List.mem_iff_getElem?.mpr ⟨i, hi⟩
  have hy : y ∈ l := List.mem_iff_getElem?.mpr ⟨j, hj⟩
  have hx1 : x.1 ∈ l.map Prod.fst := List.mem_map_of_mem _ hx
  have hy1 : y.1 ∈ l.map Prod.fst := List.mem_map_of_mem _ hy
  rcases hev with rfl | rfl
  · exact ⟨hx1, hy1⟩
  · exact ⟨hy1, hx1⟩

/-- With pairwise distinct entities no event is emitted twice. -/
theorem allEvents_nodup (l : List (Entity × Motion)) (hnd : (l.map Prod.fst).Nodup) :
    (allEvents l).Nodup := by
  induction l with
  | nil => simp [allEvents]
  | cons x xs ih =>
    rw [List.map_cons, List.nodup_cons] at hnd
    obtain ⟨hx, hxs⟩ := hnd
    have hne : ∀ y ∈ xs, x.1 ≠ y.1 := by
      intro y hy he
      exact hx (he ▸ List.mem_map_of_mem _ hy)
    rw [allEvents, List.nodup_append]
    refine ⟨?_, ih hxs, ?_⟩
    · rw [List.nodup_flatMap]
      constructor
      · intro y hy
        unfold pairEvents
        by_cases hc : collides x.2 y.2 = true
        · have := hne y hy
          simp [hc, this]
        · simp [hc]
      · have hp : xs.Pairwise (fun a b => a.1 ≠ b.1) := by
          have := List.pairwise_map.mp hxs
          exact this
        refine List.Pairwise.imp_of_mem ?_ hp
        intro a b ha hb hab
        rw [Function.onFun, List.disjoint_left]
        intro ev h1 h2
        rw [mem_pairEvents] at h1 h2
        have hxa := hne a ha
        rcases h1.2 with rfl | rfl <;> rcases h2.2 with h | h
        · simp only [Prod.mk.injEq, Collision.mk.injEq] at h; exact hab h.2
        · simp only [Prod.mk.injEq, Collision.mk.injEq] at h; exact hxa h.2.symm
        · simp only [Prod.mk.injEq, Collision.mk.injEq] at h; exact hxa h.1.symm
        · simp only [Prod.mk.injEq, Collision.mk.injEq] at h; exact hab h.1
    · rw [List.disjoint_left]
      intro ev h1 h2
      rw [List.mem_flatMap] at h1
      obtain ⟨y, hy, hev⟩ := h1
      rw [mem_pairEvents] at hev
      have he := allEvents_entities xs ev h2
      rcases hev.2 with rfl | rfl
      · exact hx he.1
      · exact hx he.2

end PhysicsSystem

/-! ## The physics step and the overlap predicate -/

/-- C1. After `step(elapsed_ms)` every slot of the motion container holds the
same entity as before and a position equal to the old position plus the
velocity times `elapsed_ms / 1000`, component-wise in x and y (exact
arithmetic). -/
theorem PhysicsSystem.step_integrates_positions (elapsed_ms : ℚ) (registry : Registry) :
    (PhysicsSystem.step elapsed_ms registry).motions.slots.map
        (fun s => (s.1, s.2.position)) =
      registry.motions.slots.map (fun s =>
        (s.1, (⟨s.2.position.x + s.2.velocity.x * (elapsed_ms / 1000),
                s.2.position.y + s.2.velocity.y * (elapsed_ms / 1000)⟩ : vec2))) := by
  rw [PhysicsSystem.step_motions_slots, List.map_map]
  rfl

/-- C2. The predicate `collides(m1, m2)` holds exactly when
`right_1 > left_2`, `top_2 < bottom_1`, `left_1 < right_2` and
`top_1 < bottom_2`, where left and right are `position.x` minus and plus
`scale.x/2`, and top and bottom are `position.y` minus and plus `scale.y/2`; the
four comparisons are strict. -/
theorem collides_four_strict_inequalities (m1 m2 : Motion) :
    collides m1 m2 = true ↔
      (m1.position.x + m1.scale.x / 2 > m2.position.x - m2.scale.x / 2 ∧
       m2.position.y - m2.scale.y / 2 < m1.position.y + m1.scale.y / 2 ∧
       m1.position.x - m1.scale.x / 2 < m2.position.x + m2.scale.x / 2 ∧
       m1.position.y - m1.scale.y / 2 < m2.position.y + m2.scale.y / 2) :=
  collides_iff m1 m2

/-- C3. The code at a failing input: two boxes of scale (10,10) at (0,0) and
(9,0) collide, and `get_bounding_box` is the same for the scale (-10,10) as for
(10,10), but `collides` on the first box with `scale.x` negated is false: the
overlap test uses the signed scale. -/
theorem collides_depends_on_scale_sign :
    get_bounding_box ⟨⟨0, 0⟩, 0, ⟨0, 0⟩, ⟨-10, 10⟩⟩ =
        get_bounding_box ⟨⟨0, 0⟩, 0, ⟨0, 0⟩, ⟨10, 10⟩⟩ ∧
      collides ⟨⟨0, 0⟩, 0, ⟨0, 0⟩, ⟨10, 10⟩⟩ ⟨⟨9, 0⟩, 0, ⟨0, 0⟩, ⟨10, 10⟩⟩ = true ∧
      collides ⟨⟨0, 0⟩, 0, ⟨0, 0⟩, ⟨-10, 10⟩⟩ ⟨⟨9, 0⟩, 0, ⟨0, 0⟩, ⟨10, 10⟩⟩ = false := by
  refine ⟨?_, ?_, ?_⟩
  · simp [get_bounding_box]
  · rw [collides_iff]; norm_num
  · rw [Bool.eq_false_iff, Ne, collides_iff]; norm_num

/-- C4. From an empty collision queue and a motion container with pairwise
distinct entities, after one step two distinct entities `A` (slot `i`) and `B`
(slot `j`) whose moved boxes collide have the event `(A, B)` exactly once and
the event `(B, A)` exactly once in the queue. -/
theorem PhysicsSystem.step_emits_both_orders_once (elapsed_ms : ℚ) (registry : Registry)
    (hempty : registry.collisions.slots = [])
    (hdistinct : registry.motions.entities.Nodup)
    (i j : Nat) (A B : Entity) (mA mB : Motion)
    (hA : (PhysicsSystem.step elapsed_ms registry).motions.slots[i]? = some (A, mA))
    (hB : (PhysicsSystem.step elapsed_ms registry).motions.slots[j]? = some (B, mB))
    (hAB : A ≠ B) (hcol : collides mA mB = true) :
    (PhysicsSystem.step elapsed_ms registry).collisions.slots.count (A, ⟨B⟩) = 1 ∧
      (PhysicsSystem.step elapsed_ms registry).collisions.slots.count (B, ⟨A⟩) = 1 := by
  have hent : ((PhysicsSystem.step elapsed_ms registry).motions.slots.map Prod.fst).Nodup := by
    rw [PhysicsSystem.step_motions_slots, List.map_map]
    exact hdistinct
  have hnd := PhysicsSystem.allEvents_nodup _ hent
  rw [PhysicsSystem.step_collisions_slots, hempty, List.nil_append]
  have hij : i ≠ j := by
    rintro rfl
    rw [hA] at hB
    exact hAB (by simpa using congrArg Prod.fst (Option.some.inj hB))
  rcases Nat.lt_or_gt_of_ne hij with h | h
  · obtain ⟨h1, h2⟩ := PhysicsSystem.allEvents_complete _ i j (A, mA) (B, mB) h hA hB hcol
    exact ⟨List.count_eq_one_of_nodup_of_mem hnd h1, List.count_eq_one_of_nodup_of_mem hnd h2⟩
  · obtain ⟨h1, h2⟩ := PhysicsSystem.allEvents_complete _ j i (B, mB) (A, mA) h hB hA
      (by rw [collides_swap]; exact hcol)
    exact ⟨List.count_eq_one_of_nodup_of_mem hnd h2, List.count_eq_one_of_nodup_of_mem hnd h1⟩

/-- Witness of C4: in `approachingBoxes` the two boxes overlap after a step of
16 ms, and the events (1,2) and (2,1) are in the queue exactly once each. -/
theorem PhysicsSystem.step_emits_both_orders_once_witness :
    PhysicsSystem.approachingBoxes.collisions.slots = [] ∧
      PhysicsSystem.approachingBoxes.motions.entities.Nodup ∧
      (PhysicsSystem.step 16 PhysicsSystem.approachingBoxes).collisions.slots.count
        (1, ⟨2⟩) = 1 ∧
      (PhysicsSystem.step 16 PhysicsSystem.approachingBoxes).collisions.slots.count
        (2, ⟨1⟩) = 1 :=
  ⟨rfl, by simp [PhysicsSystem.approachingBoxes, ComponentContainer.entities],
    PhysicsSystem.step_emits_both_orders_once 16 PhysicsSystem.approachingBoxes rfl
      (by simp [PhysicsSystem.approachingBoxes, ComponentContainer.entities])
      0 1 1 2 ⟨⟨16, 0⟩, 0, ⟨1000, 0⟩, ⟨10, 10⟩⟩ ⟨⟨20, 0⟩, 0, ⟨0, 0⟩, ⟨10, 10⟩⟩
      (by norm_num [PhysicsSystem.step_motions_slots, PhysicsSystem.approachingBoxes,
        PhysicsSystem.move, vec2.add, vec2.smul])
      (by norm_num [PhysicsSystem.step_motions_slots, PhysicsSystem.approachingBoxes,
        PhysicsSystem.move, vec2.add, vec2.smul])
      (by decide)
      (by rw [collides_iff]; norm_num)⟩

/-- C5. The events that `step` appends to the collision queue are all between
two different slots of the motion container whose moved Motions satisfy
`collides`; a pair of entities none of whose Motions collide is not appended,
in either order. -/
theorem PhysicsSystem.step_no_spurious_events (elapsed_ms : ℚ) (registry : Registry) :
    ∃ appended : List (Entity × Collision),
      (PhysicsSystem.step elapsed_ms registry).collisions.slots =
        registry.collisions.slots ++ appended ∧
      (∀ X Y : Entity, (X, (⟨Y⟩ : Collision)) ∈ appended →
        ∃ (i j : Nat) (mX mY : Motion), i ≠ j ∧
          (PhysicsSystem.step elapsed_ms registry).motions.slots[i]? = some (X, mX) ∧
          (PhysicsSystem.step elapsed_ms registry).motions.slots[j]? = some (Y, mY) ∧
          collides mX mY = true) ∧
      (∀ X Y : Entity,
        (∀ (i j : Nat) (mX mY : Motion),
          (PhysicsSystem.step elapsed_ms registry).motions.slots[i]? = some (X, mX) →
          (PhysicsSystem.step elapsed_ms registry).motions.slots[j]? = some (Y, mY) →
          collides mX mY = false) →
        (X, (⟨Y⟩ : Collision)) ∉ appended ∧ (Y, (⟨X⟩ : Collision)) ∉ appended) := by
  have key : ∀ X Y : Entity, (X, (⟨Y⟩ : Collision)) ∈
      PhysicsSystem.allEvents (PhysicsSystem.step elapsed_ms registry).motions.slots →
      ∃ (i j : Nat) (mX mY : Motion), i ≠ j ∧
        (PhysicsSystem.step elapsed_ms registry).motions.slots[i]? = some (X, mX) ∧
        (PhysicsSystem.step elapsed_ms registry).motions.slots[j]? = some (Y, mY) ∧
        collides mX mY = true := by
    intro X Y h
    obtain ⟨i, j, x, y, hij, hi, hj, hc, hev⟩ := PhysicsSystem.allEvents_sound _ _ h
    rcases hev with hev | hev
    · simp only [Prod.mk.injEq, Collision.mk.injEq] at hev
      obtain ⟨rfl, rfl⟩ := hev
      exact ⟨i, j, x.2, y.2, by omega, hi, hj, hc⟩
    · simp only [Prod.mk.injEq, Collision.mk.injEq] at hev
      obtain ⟨rfl, rfl⟩ := hev
      exact ⟨j, i, y.2, x.2, by omega, hj, hi, by rw [collides_swap]; exact hc⟩
  refine ⟨_, PhysicsSystem.step_collisions_slots elapsed_ms registry, key, ?_⟩
  intro X Y hno
  constructor
  · intro h
    obtain ⟨i, j, mX, mY, _, hi, hj, hc⟩ := key X Y h
    rw [hno i j mX mY hi hj] at hc
    exact Bool.false_ne_true hc
  · intro h
    obtain ⟨i, j, mY, mX, _, hi, hj, hc⟩ := key Y X h
    rw [collides_swap, hno j i mX mY hj hi] at hc
    exact Bool.false_ne_true hc

/-- C6. Touching boxes do not collide: when the right edge of `A` equals the
left edge of `B`, both `collides(A, B)` and `collides(B, A)` are false, whatever
the other coordinates are. -/
theorem collides_touching_edge (A B : Motion)
    (htouch : A.position.x + A.scale.x / 2 = B.position.x - B.scale.x / 2) :
    collides A B = false ∧ collides B A = false := by
  have h : collides A B = false := by
    rw [Bool.eq_false_iff, Ne, collides_iff]
    rintro ⟨h1, -⟩
    rw [htouch] at h1
    exact lt_irrefl _ h1
  exact ⟨h, by rw [collides_swap]; exact h⟩

/-- Witness of C6, the literal case: `A` at (0,0) and `B` at (10,0), both of
scale (10,10), do not collide. -/
theorem collides_touching_edge_witness :
    collides ⟨⟨0, 0⟩, 0, ⟨0, 0⟩, ⟨10, 10⟩⟩ ⟨⟨10, 0⟩, 0, ⟨0, 0⟩, ⟨10, 10⟩⟩ = false ∧
      collides ⟨⟨10, 0⟩, 0, ⟨0, 0⟩, ⟨10, 10⟩⟩ ⟨⟨0, 0⟩, 0, ⟨0, 0⟩, ⟨10, 10⟩⟩ = false :=
  collides_touching_edge ⟨⟨0, 0⟩, 0, ⟨0, 0⟩, ⟨10, 10⟩⟩ ⟨⟨10, 0⟩, 0, ⟨0, 0⟩, ⟨10, 10⟩⟩
    (by norm_num)

/-- C7, refuted as stated: there are no Motions `A` and `B` for which
`collides(A, B)` and `collides(B, A)` differ. -/
theorem collides_no_asymmetric_pair : ¬ ∃ A B : Motion, collides A B ≠ collides B A := by
  rintro ⟨A, B, h⟩
  exact h (collides_swap A B)

/-- C7, amended. The overlap predicate is symmetric in its two arguments:
`collides(A, B)` equals `collides(B, A)` for all Motions `A` and `B`. -/
theorem collides_symmetric (A B : Motion) : collides A B = collides B A :=
  collides_swap A B

/-- C9. Frame of the physics step: the motion container has the same number of
slots after `step` as before, and every slot keeps its entity, velocity, scale
and angle, in the same order; all the other containers of the registry except
the collision queue are unchanged. -/
theorem PhysicsSystem.step_frame (elapsed_ms : ℚ) (registry : Registry) :
    (PhysicsSystem.step elapsed_ms registry).motions.size = registry.motions.size ∧
      (PhysicsSystem.step elapsed_ms registry).motions.entities = registry.motions.entities ∧
      (PhysicsSystem.step elapsed_ms registry).motions.slots.map
          (fun s => (s.1, s.2.velocity, s.2.scale, s.2.angle)) =
        registry.motions.slots.map (fun s => (s.1, s.2.velocity, s.2.scale, s.2.angle)) ∧
      (PhysicsSystem.step elapsed_ms registry).animations = registry.animations ∧
      (PhysicsSystem.step elapsed_ms registry).enemyMotions = registry.enemyMotions ∧
      (PhysicsSystem.step elapsed_ms registry).wallMotions = registry.wallMotions ∧
      (PhysicsSystem.step elapsed_ms registry).projectileMotions =
        registry.projectileMotions ∧
      (PhysicsSystem.step elapsed_ms registry).players = registry.players ∧
      (PhysicsSystem.step elapsed_ms registry).enemies = registry.enemies := by
  refine ⟨?_, ?_, ?_, rfl, rfl, rfl, rfl, rfl, rfl⟩
  · rw [PhysicsSystem.size_eq_length, PhysicsSystem.size_eq_length,
      PhysicsSystem.step_motions_slots, List.length_map]
  · unfold ComponentContainer.entities
    rw [PhysicsSystem.step_motions_slots, List.map_map]
    rfl
  · rw [PhysicsSystem.step_motions_slots, List.map_map]
    rfl

/-- C10. Integration is deterministic and independent of the rest of the
state: when entity `E` has the same position and velocity in two registries
(in slot `i1` of the first and slot `i2` of the second), two steps with the
same `elapsed_ms` leave `E` in its slot with the same new position, whatever
the other entities, the scales, the angles and the collision queues are. -/
theorem PhysicsSystem.step_position_independent (elapsed_ms : ℚ) (r1 r2 : Registry)
    (i1 i2 : Nat) (E : Entity) (m1 m2 : Motion)
    (h1 : r1.motions.slots[i1]? = some (E, m1))
    (h2 : r2.motions.slots[i2]? = some (E, m2))
    (hpos : m1.position = m2.position) (hvel : m1.velocity = m2.velocity) :
    ∃ m1' m2' : Motion,
      (PhysicsSystem.step elapsed_ms r1).motions.slots[i1]? = some (E, m1') ∧
      (PhysicsSystem.step elapsed_ms r2).motions.slots[i2]? = some (E, m2') ∧
      m1'.position = m2'.position := by
  refine ⟨PhysicsSystem.move (elapsed_ms / 1000) m1, PhysicsSystem.move (elapsed_ms / 1000) m2,
    ?_, ?_, ?_⟩
  · rw [PhysicsSystem.step_motions_slots, List.getElem?_map, h1]; rfl
  · rw [PhysicsSystem.step_motions_slots, List.getElem?_map, h2]; rfl
  · simp [PhysicsSystem.move, hpos, hvel]

/-- Witness of C10: entity 1 has position (0,0) and velocity (1000,0) in slot 0
of `approachingBoxes` and in slot 1 of `crowdedBoxes`; after a step of 16 ms it
is at the same position in both. -/
theorem PhysicsSystem.step_position_independent_witness :
    ∃ m1' m2' : Motion,
      (PhysicsSystem.step 16 PhysicsSystem.approachingBoxes).motions.slots[0]? =
        some (1, m1') ∧
      (PhysicsSystem.step 16 PhysicsSystem.crowdedBoxes).motions.slots[1]? = some (1, m2') ∧
      m1'.position = m2'.position :=
  PhysicsSystem.step_position_independent 16 PhysicsSystem.approachingBoxes
    PhysicsSystem.crowdedBoxes 0 1 1 ⟨⟨0, 0⟩, 0, ⟨1000, 0⟩, ⟨10, 10⟩⟩
    ⟨⟨0, 0⟩, 2, ⟨1000, 0⟩, ⟨-3, 8⟩⟩ rfl rfl rfl rfl

/-! ## The animation update -/

theorem List.map_modify_findIdx {β γ : Type} (proj : β → γ) (p : β → Bool) (g : β → β)
    (l : List β) (h : ∀ s, l.find? p = some s → proj (g s) = proj s) :
    (l.modify g (l.findIdx p)).map proj = l.map proj := by
  induction l with
  | nil => simp
  | cons x xs ih =>
    by_cases hx : p x = true
    · have h0 : (x :: xs).findIdx p = 0 := by simp [List.findIdx_cons, hx]
      rw [h0]
      have := h x (by simp [List.find?_cons, hx])
      simp [this]
    · have h1 : (x :: xs).findIdx p = xs.findIdx p + 1 := by simp [List.findIdx_cons, hx]
      rw [h1]
      have hx' : p x = false := by simpa using hx
      have := ih (fun s hs => h s (by simp [List.find?_cons, hx', hs]))
      simp [this]

namespace RenderSystem

theorem advance_fixed (s : ℚ) (active : Bool) (e : Entity) (anim : Animation) :
    fixedPart (e, advance s active anim) = fixedPart (e, anim) := by
  unfold advance fixedPart
  simp only []
  split_ifs <;> rfl

theorem SameUpToAnimationState.refl (r : Registry) : SameUpToAnimationState r r :=
  ⟨rfl, rfl, rfl, rfl, rfl, rfl, rfl, rfl⟩

theorem SameUpToAnimationState.trans {r1 r2 r3 : Registry}
    (h12 : SameUpToAnimationState r1 r2) (h23 : SameUpToAnimationState r2 r3) :
    SameUpToAnimationState r1 r3 := by
  obtain ⟨a1, a2, a3, a4, a5, a6, a7, a8⟩ := h12
  obtain ⟨b1, b2, b3, b4, b5, b6, b7, b8⟩ := h23
  exact ⟨b1.trans a1, b2.trans a2, b3.trans a3, b4.trans a4, b5.trans a5, b6.trans a6,
    b7.trans a7, b8.trans a8⟩

theorem SameUpToAnimationState.motionOf {r r' : Registry} (h : SameUpToAnimationState r r')
    (e : Entity) : motionOf r' e = motionOf r e := by
  obtain ⟨a1, -, a3, a4, a5, -, -, -⟩ := h
  simp [RenderSystem.motionOf, a1, a3, a4, a5]

theorem SameUpToAnimationState.entities {r r' : Registry} (h : SameUpToAnimationState r r') :
    r'.animations.entities = r.animations.entities := by
  have h8 := congrArg (List.map Prod.fst) h.2.2.2.2.2.2.2
  simpa [ComponentContainer.entities, List.map_map, Function.comp_def, fixedPart] using h8

theorem get_isSome_of_mem (c : ComponentContainer Animation) (e : Entity)
    (h : e ∈ c.entities) : ∃ a, c.get e = some a := by
  unfold ComponentContainer.entities at h
  obtain ⟨s, hs, rfl⟩ := List.mem_map.mp h
  unfold ComponentContainer.get
  cases hf : c.slots.find? (fun t => t.1 == s.1) with
  | none =>
    have := List.find?_eq_none.mp hf s hs
    simp at this
  | some t => exact ⟨t.2, rfl⟩

/-- One iteration of the loop succeeds on an animated entity that has a Motion,
and writes only the animation state. -/
theorem updateAnimation_frame (s : ℚ) (r : Registry) (e : Entity)
    (he : e ∈ r.animations.entities) (hm : (motionOf r e).isSome = true) :
    ∃ r', updateAnimation s r e = some r' ∧ SameUpToAnimationState r r' := by
  obtain ⟨anim, ha⟩ := get_isSome_of_mem r.animations e he
  obtain ⟨motion, hmo⟩ := Option.isSome_iff_exists.mp hm
  have hr : updateAnimation s r e = some { r with
      animations := r.animations.set e (advance s (isActive r e motion) anim) } := by
    simp only [updateAnimation, ha, hmo]
  refine ⟨_, hr, ?_⟩
  refine ⟨rfl, rfl, rfl, rfl, rfl, rfl, rfl, ?_⟩
  simp only [ComponentContainer.set]
  apply List.map_modify_findIdx
  intro t ht
  have : t.2 = anim := by
    simpa [ComponentContainer.get, ht] using ha
  rw [← this]
  exact advance_fixed s _ t.1 t.2

theorem foldlM_updateAnimation_frame (s : ℚ) (L : List Entity) :
    ∀ r : Registry, (∀ e ∈ L, e ∈ r.animations.entities ∧ (motionOf r e).isSome = true) →
      ∃ r', L.foldlM (updateAnimation s) r = some r' ∧ SameUpToAnimationState r r' := by
  induction L with
  | nil => intro r _; exact ⟨r, rfl, SameUpToAnimationState.refl r⟩
  | cons e L ih =>
    intro r h
    obtain ⟨he, hm⟩ := h e (List.mem_cons_self e L)
    obtain ⟨r1, h1, f1⟩ := updateAnimation_frame s r e he hm
    obtain ⟨r2, h2, f2⟩ := ih r1 (fun e2 he2 => by
      obtain ⟨a, b⟩ := h e2 (List.mem_cons_of_mem e he2)
      exact ⟨by rw [f1.entities]; exact a, by rw [f1.motionOf]; exact b⟩)
    refine ⟨r2, ?_, f1.trans f2⟩
    rw [List.foldlM_cons, h1]
    exact h2

end RenderSystem

/-- C8, refuted as stated: on `walkingPlayer` an update of 200 ms returns a
registry in which the Animation of entity 1 has `current_frame` 1, while it
was 0 before the call. -/
theorem RenderSystem.updateAnimations_writes_animation :
    ∃ r', RenderSystem.updateAnimations 200 RenderSystem.walkingPlayer = some r' ∧
      (r'.animations.get 1).map Animation.current_frame = some 1 ∧
      (RenderSystem.walkingPlayer.animations.get 1).map Animation.current_frame = some 0 := by
  refine ⟨{ RenderSystem.walkingPlayer with
    animations := ⟨[(1, ⟨0, 1 / 10, 1, 4, 32, true, true⟩)]⟩ }, ?_, ?_, ?_⟩
  · norm_num [RenderSystem.updateAnimations, RenderSystem.updateAnimation,
      RenderSystem.walkingPlayer, ComponentContainer.entities, ComponentContainer.get,
      ComponentContainer.has, ComponentContainer.set, RenderSystem.motionOf,
      RenderSystem.isActive, RenderSystem.advance, List.modify, List.modifyHead]
  · simp [ComponentContainer.get]
  · simp [RenderSystem.walkingPlayer, ComponentContainer.get]

/-- C8, amended. When every animated entity has a Motion, `updateAnimations`
returns, and it writes no Motion and no enemy state: the motion containers, the
enemies, the players and the collision queue are equal to their value before
the call, and in the animation container every slot keeps its entity and the
fields `frame_time`, `num_frames`, `sprite_width` and `loop` of its Animation
(only `current_time`, `current_frame` and `is_playing` are written). -/
theorem RenderSystem.updateAnimations_frame (elapsed_ms : ℚ) (registry : Registry)
    (hmotion : ∀ e ∈ registry.animations.entities,
      (RenderSystem.motionOf registry e).isSome = true) :
    ∃ r', RenderSystem.updateAnimations elapsed_ms registry = some r' ∧
      r'.motions = registry.motions ∧ r'.enemyMotions = registry.enemyMotions ∧
      r'.wallMotions = registry.wallMotions ∧
      r'.projectileMotions = registry.projectileMotions ∧
      r'.enemies = registry.enemies ∧ r'.players = registry.players ∧
      r'.collisions = registry.collisions ∧
      r'.animations.slots.map
          (fun s => (s.1, s.2.frame_time, s.2.num_frames, s.2.sprite_width, s.2.loop)) =
        registry.animations.slots.map
          (fun s => (s.1, s.2.frame_time, s.2.num_frames, s.2.sprite_width, s.2.loop)) := by
  obtain ⟨r', h, a1, a2, a3, a4, a5, a6, a7, a8⟩ :=
    RenderSystem.foldlM_updateAnimation_frame (elapsed_ms / 1000)
      registry.animations.entities registry (fun e he => ⟨he, hmotion e he⟩)
  exact ⟨r', h, a1, a3, a4, a5, a7, a6, a2, a8⟩

/-- Witness of C8 (amended): `walkingPlayer`, whose only animated entity has a
Motion. -/
theorem RenderSystem.updateAnimations_frame_witness :
    ∃ r', RenderSystem.updateAnimations 200 RenderSystem.walkingPlayer = some r' ∧
      r'.motions = RenderSystem.walkingPlayer.motions ∧
      r'.enemies = RenderSystem.walkingPlayer.enemies := by
  obtain ⟨r', h, a1, -, -, -, a5, -⟩ :=
    RenderSystem.updateAnimations_frame 200 RenderSystem.walkingPlayer
      (by simp [RenderSystem.walkingPlayer, ComponentContainer.entities,
        RenderSystem.motionOf, ComponentContainer.has, ComponentContainer.get])
  exact ⟨r', h, a1, a5⟩

/-! ## Order and number of the emitted events -/

theorem List.flatMap_drop_eq_range' {β γ : Type} (l : List β) (f : β → List γ) (k : Nat) :
    ∀ s : Nat, s + k = l.length →
      (l.drop s).flatMap f =
        (List.range' s k).flatMap (fun j => match l[j]? with | some y => f y | none => []) := by
  induction k with
  | zero =>
    intro s h
    have : l.drop s = [] := List.drop_eq_nil_of_le (by omega)
    simp [this]
  | succ k ih =>
    intro s h
    have hs : s < l.length := by omega
    rw [List.range'_succ, List.flatMap_cons, List.drop_eq_getElem_cons hs, List.flatMap_cons,
      ih (s + 1) (by omega), List.getElem?_eq_getElem hs]

namespace PhysicsSystem

theorem allEvents_drop_eq (l : List (Entity × Motion)) (k : Nat) :
    ∀ s : Nat, s + k = l.length →
      allEvents (l.drop s) =
        (List.range' s k).flatMap (fun i =>
          (List.range' (i + 1) (l.length - (i + 1))).flatMap (fun j => eventsAt l (i, j))) := by
  induction k with
  | zero =>
    intro s h
    have : l.drop s = [] := List.drop_eq_nil_of_le (by omega)
    simp [this, allEvents]
  | succ k ih =>
    intro s h
    have hs : s < l.length := by omega
    rw [List.range'_succ, List.flatMap_cons, List.drop_eq_getElem_cons hs, allEvents,
      ih (s + 1) (by omega),
      List.flatMap_drop_eq_range' l (pairEvents l[s]) (l.length - (s + 1)) (s + 1) (by omega)]
    congr 1
    apply List.flatMap_congr
    intro j _
    simp only [eventsAt, List.getElem?_eq_getElem hs, pairEvents]
    cases l[j]? <;> rfl

/-- The recursive scan of the slots and the scan by index pairs give the same
sequence of events. -/
theorem allEvents_eq_scanEvents (l : List (Entity × Motion)) :
    allEvents l = scanEvents l := by
  have h := allEvents_drop_eq l l.length 0 (by omega)
  rw [List.drop_zero] at h
  rw [h, scanEvents, indexPairs, List.range_eq_range', List.flatMap_assoc]
  apply List.flatMap_congr
  intro i _
  rw [List.flatMap_map]

theorem length_eventsAt (l : List (Entity × Motion)) (p : Nat × Nat) :
    (eventsAt l p).length = if collidesAt l p then 2 else 0 := by
  unfold eventsAt collidesAt
  rcases l[p.1]? with _ | x <;> rcases l[p.2]? with _ | y <;> simp
  by_cases hc : collides x.2 y.2 = true <;> simp [hc]

theorem length_flatMap_eventsAt (l : List (Entity × Motion)) (ps : List (Nat × Nat)) :
    (ps.flatMap (eventsAt l)).length = 2 * (ps.filter (collidesAt l)).length := by
  induction ps with
  | nil => rfl
  | cons p ps ih =>
    rw [List.flatMap_cons, List.length_append, ih, length_eventsAt, List.filter_cons]
    by_cases hc : collidesAt l p = true
    · simp [hc]; omega
    · simp [hc]

end PhysicsSystem

/-- C13. The sequence of events appended by one step is the sequence obtained
by scanning the index pairs `(i, j)`, `i < j`, of the motion container in
insertion order (`i` ascending, then `j` ascending) and emitting, for every
pair whose moved Motions collide, `(entity_i, entity_j)` immediately followed
by `(entity_j, entity_i)`; the number of appended events is twice the number
of colliding index pairs. -/
theorem PhysicsSystem.step_events_in_scan_order (elapsed_ms : ℚ) (registry : Registry) :
    (PhysicsSystem.step elapsed_ms registry).collisions.slots =
        registry.collisions.slots ++
          PhysicsSystem.scanEvents (PhysicsSystem.step elapsed_ms registry).motions.slots ∧
      (PhysicsSystem.scanEvents (PhysicsSystem.step elapsed_ms registry).motions.slots).length =
        2 * ((PhysicsSystem.indexPairs
              (PhysicsSystem.step elapsed_ms registry).motions.slots.length).filter
            (PhysicsSystem.collidesAt
              (PhysicsSystem.step elapsed_ms registry).motions.slots)).length := by
  constructor
  · rw [← PhysicsSystem.allEvents_eq_scanEvents]
    exact PhysicsSystem.step_collisions_slots elapsed_ms registry
  · exact PhysicsSystem.length_flatMap_eventsAt _ _

/-! ## Events of consecutive steps and of moved boxes -/

namespace PhysicsSystem

theorem step_slot (ms : ℚ) (r : Registry) (i : Nat) (e : Entity) (m : Motion)
    (h : r.motions.slots[i]? = some (e, m)) :
    (step ms r).motions.slots[i]? = some (e, move (ms / 1000) m) := by
  rw [step_motions_slots, List.getElem?_map, h]; rfl

theorem step_slot_inv (ms : ℚ) (r : Registry) (i : Nat) (e : Entity) (m' : Motion)
    (h : (step ms r).motions.slots[i]? = some (e, m')) :
    ∃ m, r.motions.slots[i]? = some (e, m) ∧ m' = move (ms / 1000) m := by
  rw [step_motions_slots, List.getElem?_map] at h
  cases hs : r.motions.slots[i]? with
  | none => rw [hs] at h; simp at h
  | some s =>
    rw [hs] at h
    simp only [Option.map_some', Option.some.injEq, Prod.mk.injEq] at h
    exact ⟨s.2, by rw [← h.1], h.2.symm⟩

theorem step_entities_nodup (ms : ℚ) (r : Registry) (h : r.motions.entities.Nodup) :
    ((step ms r).motions.slots.map Prod.fst).Nodup := by
  rw [step_motions_slots, List.map_map]
  exact h

theorem move_of_velocity_zero (s : ℚ) (m : Motion) (h : m.velocity = ⟨0, 0⟩) :
    move s m = m := by
  rcases m with ⟨⟨px, py⟩, a, v, sc⟩
  simp only at h
  subst h
  simp [move, vec2.add, vec2.smul]

/-- With pairwise distinct entities, two different slots whose Motions collide
have each of their two ordered events exactly once among the events. -/
theorem allEvents_count_pair (l : List (Entity × Motion)) (hnd : (l.map Prod.fst).Nodup)
    (i j : Nat) (A B : Entity) (mA mB : Motion) (hA : l[i]? = some (A, mA))
    (hB : l[j]? = some (B, mB)) (hAB : A ≠ B) (hcol : collides mA mB = true) :
    (allEvents l).count (A, ⟨B⟩) = 1 ∧ (allEvents l).count (B, ⟨A⟩) = 1 := by
  have hev := allEvents_nodup l hnd
  have hij : i ≠ j := by
    rintro rfl
    rw [hA] at hB
    exact hAB (by simpa using congrArg Prod.fst (Option.some.inj hB))
  rcases Nat.lt_or_gt_of_ne hij with h | h
  · obtain ⟨h1, h2⟩ := allEvents_complete l i j (A, mA) (B, mB) h hA hB hcol
    exact ⟨List.count_eq_one_of_nodup_of_mem hev h1, List.count_eq_one_of_nodup_of_mem hev h2⟩
  · obtain ⟨h1, h2⟩ := allEvents_complete l j i (B, mB) (A, mA) h hB hA
      (by rw [collides_swap]; exact hcol)
    exact ⟨List.count_eq_one_of_nodup_of_mem hev h2, List.count_eq_one_of_nodup_of_mem hev h1⟩

end PhysicsSystem

/-- C14. Collision events are appended without deduplication: the collision
queue before `step` is a prefix of the queue after `step`; and two consecutive
steps, the queue not being cleared, on two overlapping entities `A` and `B` at
rest (in a motion container with pairwise distinct entities) add two
occurrences of `(A, B)` and two of `(B, A)` to those the queue had, so each
occurs exactly twice when the queue was empty. -/
theorem PhysicsSystem.step_appends_without_dedup :
    (∀ (elapsed_ms : ℚ) (registry : Registry),
      registry.collisions.slots <+: (PhysicsSystem.step elapsed_ms registry).collisions.slots) ∧
    (∀ (ms1 ms2 : ℚ) (registry : Registry) (i j : Nat) (A B : Entity) (mA mB : Motion),
      registry.motions.entities.Nodup →
      registry.motions.slots[i]? = some (A, mA) →
      registry.motions.slots[j]? = some (B, mB) →
      A ≠ B → mA.velocity = ⟨0, 0⟩ → mB.velocity = ⟨0, 0⟩ → collides mA mB = true →
      (PhysicsSystem.step ms2 (PhysicsSystem.step ms1 registry)).collisions.slots.count
          (A, ⟨B⟩) = registry.collisions.slots.count (A, ⟨B⟩) + 2 ∧
        (PhysicsSystem.step ms2 (PhysicsSystem.step ms1 registry)).collisions.slots.count
          (B, ⟨A⟩) = registry.collisions.slots.count (B, ⟨A⟩) + 2) := by
  constructor
  · intro ms r
    exact ⟨_, (PhysicsSystem.step_collisions_slots ms r).symm⟩
  · intro ms1 ms2 r i j A B mA mB hnd hA hB hAB hvA hvB hcol
    have hA1 := PhysicsSystem.step_slot ms1 r i A mA hA
    have hB1 := PhysicsSystem.step_slot ms1 r j B mB hB
    rw [PhysicsSystem.move_of_velocity_zero _ _ hvA] at hA1
    rw [PhysicsSystem.move_of_velocity_zero _ _ hvB] at hB1
    have hA2 := PhysicsSystem.step_slot ms2 _ i A mA hA1
    have hB2 := PhysicsSystem.step_slot ms2 _ j B mB hB1
    rw [PhysicsSystem.move_of_velocity_zero _ _ hvA] at hA2
    rw [PhysicsSystem.move_of_velocity_zero _ _ hvB] at hB2
    have hnd1 := PhysicsSystem.step_entities_nodup ms1 r hnd
    have hnd2 := PhysicsSystem.step_entities_nodup ms2 (PhysicsSystem.step ms1 r) hnd1
    obtain ⟨c1, c1'⟩ := PhysicsSystem.allEvents_count_pair _ hnd1 i j A B mA mB hA1 hB1 hAB hcol
    obtain ⟨c2, c2'⟩ := PhysicsSystem.allEvents_count_pair _ hnd2 i j A B mA mB hA2 hB2 hAB hcol
    rw [PhysicsSystem.step_collisions_slots ms2, PhysicsSystem.step_collisions_slots ms1]
    rw [List.count_append, List.count_append, List.count_append, List.count_append,
      c1, c1', c2, c2']
    exact ⟨rfl, rfl⟩

/-- Witness of C14: two steps of 16 ms on `restingBoxes`, whose queue is empty,
leave the events (1,2) and (2,1) exactly twice each. -/
theorem PhysicsSystem.step_appends_without_dedup_witness :
    (PhysicsSystem.step 16 (PhysicsSystem.step 16 PhysicsSystem.restingBoxes)).collisions.slots.count
        (1, ⟨2⟩) = 2 ∧
      (PhysicsSystem.step 16 (PhysicsSystem.step 16 PhysicsSystem.restingBoxes)).collisions.slots.count
        (2, ⟨1⟩) = 2 :=
  PhysicsSystem.step_appends_without_dedup.2 16 16 PhysicsSystem.restingBoxes 0 1 1 2
    ⟨⟨0, 0⟩, 0, ⟨0, 0⟩, ⟨10, 10⟩⟩ ⟨⟨9, 0⟩, 0, ⟨0, 0⟩, ⟨10, 10⟩⟩
    (by simp [PhysicsSystem.restingBoxes, ComponentContainer.entities]) rfl rfl (by decide)
    rfl rfl (by rw [collides_iff]; norm_num)

/-- C15. Collisions are detected on the positions after integration: the
events appended by `step` are decided by `collides` on the Motions moved by
`position += velocity * elapsed_ms / 1000`. Two different slots whose moved
Motions collide have their event appended, whether or not they overlapped
before the step, and every appended event comes from two different slots whose
moved Motions collide. -/
theorem PhysicsSystem.step_detects_after_integration (elapsed_ms : ℚ) (registry : Registry) :
    ∃ appended : List (Entity × Collision),
      (PhysicsSystem.step elapsed_ms registry).collisions.slots =
        registry.collisions.slots ++ appended ∧
      (∀ (i j : Nat) (A B : Entity) (mA mB : Motion), i ≠ j →
        registry.motions.slots[i]? = some (A, mA) →
        registry.motions.slots[j]? = some (B, mB) →
        collides (PhysicsSystem.move (elapsed_ms / 1000) mA)
          (PhysicsSystem.move (elapsed_ms / 1000) mB) = true →
        (A, (⟨B⟩ : Collision)) ∈ appended) ∧
      (∀ A B : Entity, (A, (⟨B⟩ : Collision)) ∈ appended →
        ∃ (i j : Nat) (mA mB : Motion), i ≠ j ∧
          registry.motions.slots[i]? = some (A, mA) ∧
          registry.motions.slots[j]? = some (B, mB) ∧
          collides (PhysicsSystem.move (elapsed_ms / 1000) mA)
            (PhysicsSystem.move (elapsed_ms / 1000) mB) = true) := by
  refine ⟨_, PhysicsSystem.step_collisions_slots elapsed_ms registry, ?_, ?_⟩
  · intro i j A B mA mB hij hA hB hcol
    have hA1 := PhysicsSystem.step_slot elapsed_ms registry i A mA hA
    have hB1 := PhysicsSystem.step_slot elapsed_ms registry j B mB hB
    rcases Nat.lt_or_gt_of_ne hij with h | h
    · exact (PhysicsSystem.allEvents_complete _ i j _ _ h hA1 hB1 hcol).1
    · exact (PhysicsSystem.allEvents_complete _ j i _ _ h hB1 hA1
        (by rw [collides_swap]; exact hcol)).2
  · intro A B hmem
    obtain ⟨i, j, x, y, hij, hi, hj, hc, hev⟩ := PhysicsSystem.allEvents_sound _ _ hmem
    obtain ⟨mx, hx, hmx⟩ := PhysicsSystem.step_slot_inv elapsed_ms registry i x.1 x.2 hi
    obtain ⟨my, hy, hmy⟩ := PhysicsSystem.step_slot_inv elapsed_ms registry j y.1 y.2 hj
    rw [hmx, hmy] at hc
    rcases hev with hev | hev
    · simp only [Prod.mk.injEq, Collision.mk.injEq] at hev
      obtain ⟨rfl, rfl⟩ := hev
      exact ⟨i, j, mx, my, by omega, hx, hy, hc⟩
    · simp only [Prod.mk.injEq, Collision.mk.injEq] at hev
      obtain ⟨rfl, rfl⟩ := hev
      exact ⟨j, i, my, mx, by omega, hy, hx, by rw [collides_swap]; exact hc⟩

/-- Witness of C15: the two boxes of `approachingBoxes` do not overlap before
the step, the first one moves by 16 units in 16 ms, and the event (1,2) is in
the queue after that step. -/
theorem PhysicsSystem.step_detects_after_integration_witness :
    collides ⟨⟨0, 0⟩, 0, ⟨1000, 0⟩, ⟨10, 10⟩⟩ ⟨⟨20, 0⟩, 0, ⟨0, 0⟩, ⟨10, 10⟩⟩ = false ∧
      (1, (⟨2⟩ : Collision)) ∈
        (PhysicsSystem.step 16 PhysicsSystem.approachingBoxes).collisions.slots := by
  obtain ⟨appended, happ, hin, -⟩ :=
    PhysicsSystem.step_detects_after_integration 16 PhysicsSystem.approachingBoxes
  refine ⟨by rw [Bool.eq_false_iff, Ne, collides_iff]; norm_num, ?_⟩
  rw [happ]
  exact List.mem_append_right _
    (hin 0 1 1 2 ⟨⟨0, 0⟩, 0, ⟨1000, 0⟩, ⟨10, 10⟩⟩ ⟨⟨20, 0⟩, 0, ⟨0, 0⟩, ⟨10, 10⟩⟩ (by decide)
      rfl rfl (by rw [collides_iff]; norm_num [PhysicsSystem.move, vec2.add, vec2.smul]))

/-! ## The overlap predicate as the standard test -/

theorem collides_eq_standardAABB (m1 m2 : Motion) : collides m1 m2 = standardAABB m1 m2 := by
  rw [Bool.eq_iff_iff, collides_iff]
  simp only [standardAABB, Bool.and_eq_true, decide_eq_true_eq, abs_lt]
  constructor
  · rintro ⟨h1, h2, h3, h4⟩
    refine ⟨⟨by linarith, by linarith⟩, ⟨by linarith, by linarith⟩⟩
  · rintro ⟨⟨h1, h2⟩, ⟨h3, h4⟩⟩
    refine ⟨by linarith, by linarith, by linarith, by linarith⟩

theorem open_intervals_meet_iff (a b c d : ℚ) (hab : a < b) (hcd : c < d) :
    (∃ t, a < t ∧ t < b ∧ c < t ∧ t < d) ↔ c < b ∧ a < d := by
  constructor
  · rintro ⟨t, h1, h2, h3, h4⟩
    exact ⟨lt_trans h3 h2, lt_trans h1 h4⟩
  · rintro ⟨h1, h2⟩
    refine ⟨(max a c + min b d) / 2, ?_, ?_, ?_, ?_⟩
    · have hm : max a c < min b d := by
        rw [max_lt_iff, lt_min_iff, lt_min_iff]; exact ⟨⟨hab, h2⟩, ⟨h1, hcd⟩⟩
      have := le_max_left a c
      linarith
    · have hm : max a c < min b d := by
        rw [max_lt_iff, lt_min_iff, lt_min_iff]; exact ⟨⟨hab, h2⟩, ⟨h1, hcd⟩⟩
      have := min_le_left b d
      linarith
    · have hm : max a c < min b d := by
        rw [max_lt_iff, lt_min_iff, lt_min_iff]; exact ⟨⟨hab, h2⟩, ⟨h1, hcd⟩⟩
      have := le_max_right a c
      linarith
    · have hm : max a c < min b d := by
        rw [max_lt_iff, lt_min_iff, lt_min_iff]; exact ⟨⟨hab, h2⟩, ⟨h1, hcd⟩⟩
      have := min_le_right b d
      linarith

/-- C16, amended. In exact arithmetic (the `float` operations of `collides`
taken without rounding), for two Motions with strictly positive scale
components, `collides(m1, m2)` holds exactly when the open x-intervals
`(position.x - scale.x/2, position.x + scale.x/2)` of the two boxes intersect
and their open y-intervals intersect, and it equals the standard test
`|x1 - x2| < (scale.x1 + scale.x2)/2` and `|y1 - y2| < (scale.y1 + scale.y2)/2`. -/
theorem collides_is_standard_AABB (m1 m2 : Motion)
    (h1x : 0 < m1.scale.x) (h1y : 0 < m1.scale.y)
    (h2x : 0 < m2.scale.x) (h2y : 0 < m2.scale.y) :
    (collides m1 m2 = true ↔
      (∃ x : ℚ, m1.position.x - m1.scale.x / 2 < x ∧ x < m1.position.x + m1.scale.x / 2 ∧
        m2.position.x - m2.scale.x / 2 < x ∧ x < m2.position.x + m2.scale.x / 2) ∧
      (∃ y : ℚ, m1.position.y - m1.scale.y / 2 < y ∧ y < m1.position.y + m1.scale.y / 2 ∧
        m2.position.y - m2.scale.y / 2 < y ∧ y < m2.position.y + m2.scale.y / 2)) ∧
    (collides m1 m2 = true ↔
      |m1.position.x - m2.position.x| < (m1.scale.x + m2.scale.x) / 2 ∧
      |m1.position.y - m2.position.y| < (m1.scale.y + m2.scale.y) / 2) := by
  constructor
  · rw [open_intervals_meet_iff _ _ _ _ (by linarith) (by linarith),
      open_intervals_meet_iff _ _ _ _ (by linarith) (by linarith), collides_iff]
    constructor
    · rintro ⟨h1, h2, h3, h4⟩
      exact ⟨⟨h1, h3⟩, ⟨h2, h4⟩⟩
    · rintro ⟨⟨h1, h3⟩, ⟨h2, h4⟩⟩
      exact ⟨h1, h2, h3, h4⟩
  · rw [collides_eq_standardAABB]
    simp [standardAABB]

/-- Witness of C16 (amended), the literal case: `A` at (0,0) and `B` at (9,0),
both of scale (10,10), collide. -/
theorem collides_is_standard_AABB_witness :
    collides ⟨⟨0, 0⟩, 0, ⟨0, 0⟩, ⟨10, 10⟩⟩ ⟨⟨9, 0⟩, 0, ⟨0, 0⟩, ⟨10, 10⟩⟩ = true :=
  (collides_is_standard_AABB ⟨⟨0, 0⟩, 0, ⟨0, 0⟩, ⟨10, 10⟩⟩ ⟨⟨9, 0⟩, 0, ⟨0, 0⟩, ⟨10, 10⟩⟩
    (by norm_num) (by norm_num) (by norm_num) (by norm_num)).2.mpr
    ⟨by norm_num [abs_lt], by norm_num⟩

/-! ## Auxiliary facts on lookups and writes by entity -/

section ByEntity

variable {β : Type}

theorem List.getElem?_findIdx_of_find? (p : β → Bool) (l : List β) (s : β)
    (h : l.find? p = some s) : l[l.findIdx p]? = some s := by
  induction l with
  | nil => simp at h
  | cons x xs ih =>
    by_cases hx : p x = true
    · have h0 : (x :: xs).findIdx p = 0 := by simp [List.findIdx_cons, hx]
      rw [h0]
      simpa [List.find?_cons, hx] using h
    · have hx' : p x = false := by simpa using hx
      have h1 : (x :: xs).findIdx p = xs.findIdx p + 1 := by simp [List.findIdx_cons, hx']
      rw [h1, List.getElem?_cons_succ]
      exact ih (by simpa [List.find?_cons, hx'] using h)

/-- In a list of slots `pre ++ t :: rest` in which no slot of `pre` has the
entity of `t`, the lookup by that entity finds `t`. -/
theorem List.find?_entity_append (pre rest : List (Entity × β)) (t : Entity × β)
    (hpre : t.1 ∉ pre.map Prod.fst) :
    (pre ++ t :: rest).find? (fun s => s.1 == t.1) = some t := by
  induction pre with
  | nil => simp
  | cons x pre ih =>
    rw [List.map_cons, List.mem_cons, not_or] at hpre
    have hx : (x.1 == t.1) = false := by
      simpa using fun h : x.1 = t.1 => hpre.1 h.symm
    rw [List.cons_append, List.find?_cons, hx]
    exact ih hpre.2

/-- In the same situation, the write through the reference replaces the
component of `t` and nothing else. -/
theorem List.modify_findIdx_entity_append (pre rest : List (Entity × β)) (t : Entity × β)
    (a : β) (hpre : t.1 ∉ pre.map Prod.fst) :
    (pre ++ t :: rest).modify (fun s => (s.1, a))
        ((pre ++ t :: rest).findIdx (fun s => s.1 == t.1)) =
      pre ++ (t.1, a) :: rest := by
  induction pre with
  | nil => simp [List.findIdx_cons]
  | cons x pre ih =>
    rw [List.map_cons, List.mem_cons, not_or] at hpre
    have hx : (x.1 == t.1) = false := by
      simpa using fun h : x.1 = t.1 => hpre.1 h.symm
    rw [List.cons_append, List.findIdx_cons, hx]
    simp only [cond_false, List.modify_succ_cons, List.cons_append, List.cons.injEq, true_and]
    exact ih hpre.2

end ByEntity

/-! ## Effect of the animation update on one slot -/

namespace RenderSystem

/-- One iteration of the loop keeps the entity of every slot of the animation
container, and a property of Animations that `advance` preserves. -/
theorem updateAnimation_slot (P : Animation → Prop)
    (hP : ∀ (s : ℚ) (active : Bool) (a : Animation), P a → P (advance s active a))
    (s : ℚ) (r r' : Registry) (e : Entity) (h : updateAnimation s r e = some r')
    (i : Nat) (e0 : Entity) (a : Animation)
    (hs : r.animations.slots[i]? = some (e0, a)) (ha : P a) :
    ∃ a', r'.animations.slots[i]? = some (e0, a') ∧ P a' := by
  unfold updateAnimation at h
  cases hg : r.animations.get e with
  | none => rw [hg] at h; simp at h
  | some anim =>
    cases hm : motionOf r e with
    | none => rw [hg, hm] at h; simp at h
    | some motion =>
      rw [hg, hm] at h
      simp only [Option.some.injEq] at h
      subst h
      simp only [ComponentContainer.set, List.getElem?_modify, hs, Option.map_eq_map,
        Option.map_some']
      by_cases hi : List.findIdx (fun t => t.1 == e) r.animations.slots = i
      · simp only [hi, if_true]
        have hfind : ∃ t, r.animations.slots.find? (fun t => t.1 == e) = some t ∧
            t.2 = anim := by
          unfold ComponentContainer.get at hg
          cases hf : r.animations.slots.find? (fun t => t.1 == e) with
          | none => rw [hf] at hg; simp at hg
          | some t => rw [hf] at hg; exact ⟨t, rfl, by simpa using hg⟩
        obtain ⟨t, ht, hta⟩ := hfind
        have := List.getElem?_findIdx_of_find? _ _ _ ht
        rw [hi, hs] at this
        have hta' : a = anim := by
          rw [← hta, ← Option.some.inj this]
        exact ⟨_, rfl, by rw [← hta']; exact hP _ _ _ ha⟩
      · simp only [hi, if_false]
        exact ⟨a, rfl, ha⟩

theorem foldlM_updateAnimation_slot (P : Animation → Prop)
    (hP : ∀ (s : ℚ) (active : Bool) (a : Animation), P a → P (advance s active a))
    (s : ℚ) (L : List Entity) :
    ∀ (r r' : Registry), L.foldlM (updateAnimation s) r = some r' →
      ∀ (i : Nat) (e0 : Entity) (a : Animation),
        r.animations.slots[i]? = some (e0, a) → P a →
        ∃ a', r'.animations.slots[i]? = some (e0, a') ∧ P a' := by
  induction L with
  | nil =>
    intro r r' h i e0 a hs ha
    simp only [List.foldlM_nil] at h
    cases h
    exact ⟨a, hs, ha⟩
  | cons e L ih =>
    intro r r' h i e0 a hs ha
    rw [List.foldlM_cons] at h
    cases h1 : updateAnimation s r e with
    | none => rw [h1] at h; simp at h
    | some r1 =>
      rw [h1] at h
      obtain ⟨a1, hs1, ha1⟩ := updateAnimation_slot P hP s r r1 e h1 i e0 a hs ha
      exact ih r1 r' h i e0 a1 hs1 ha1

theorem advance_in_range (s : ℚ) (active : Bool) (n : Int) (a : Animation)
    (h : a.num_frames = n ∧ 1 ≤ a.num_frames ∧ 0 ≤ a.current_frame ∧
      a.current_frame < a.num_frames) :
    (advance s active a).num_frames = n ∧ 1 ≤ (advance s active a).num_frames ∧
      0 ≤ (advance s active a).current_frame ∧
      (advance s active a).current_frame < (advance s active a).num_frames := by
  obtain ⟨h0, h1, h2, h3⟩ := h
  unfold advance
  simp only []
  split_ifs with c1 c2 c3 c4 c5 <;> (try dsimp only at *) <;> refine ⟨h0, h1, ?_, ?_⟩ <;> omega

theorem advance_of_not_playing (s : ℚ) (active : Bool) (a : Animation)
    (h : a.is_playing = false) : advance s active a = a := by
  simp [advance, h]

end RenderSystem

/-- C17. The frame index stays in range: when every animated entity has a
Motion, `updateAnimations` returns, and every slot of the animation container
whose Animation has `num_frames >= 1` and `0 <= current_frame < num_frames`
holds afterwards the same entity and an Animation with the same `num_frames`
and `0 <= current_frame < num_frames`, for any elapsed time, any kind of
entity, looping or not. -/
theorem RenderSystem.updateAnimations_frame_in_range (elapsed_ms : ℚ) (registry : Registry)
    (hmotion : ∀ e ∈ registry.animations.entities,
      (RenderSystem.motionOf registry e).isSome = true) :
    ∃ r', RenderSystem.updateAnimations elapsed_ms registry = some r' ∧
      ∀ (i : Nat) (e : Entity) (a : Animation),
        registry.animations.slots[i]? = some (e, a) →
        1 ≤ a.num_frames → 0 ≤ a.current_frame → a.current_frame < a.num_frames →
        ∃ a', r'.animations.slots[i]? = some (e, a') ∧ a'.num_frames = a.num_frames ∧
          0 ≤ a'.current_frame ∧ a'.current_frame < a'.num_frames := by
  obtain ⟨r', h, -⟩ := RenderSystem.foldlM_updateAnimation_frame (elapsed_ms / 1000)
    registry.animations.entities registry (fun e he => ⟨he, hmotion e he⟩)
  refine ⟨r', h, ?_⟩
  intro i e a hs h1 h2 h3
  obtain ⟨a', hs', h0', -, h2', h3'⟩ := RenderSystem.foldlM_updateAnimation_slot
    (fun b => b.num_frames = a.num_frames ∧ 1 ≤ b.num_frames ∧ 0 ≤ b.current_frame ∧
      b.current_frame < b.num_frames)
    (fun s active b hb => RenderSystem.advance_in_range s active a.num_frames b hb)
    (elapsed_ms / 1000) registry.animations.entities registry r' h i e a hs ⟨rfl, h1, h2, h3⟩
  exact ⟨a', hs', h0', h2', h3'⟩

/-- Witness of C17: in `animatedScene` the player is on frame 3 of 4 before an
update of 200 ms, and on a frame between 0 and 3 after it. -/
theorem RenderSystem.updateAnimations_frame_in_range_witness :
    ∃ r' a', RenderSystem.updateAnimations 200 RenderSystem.animatedScene = some r' ∧
      r'.animations.slots[0]? = some (1, a') ∧ a'.num_frames = 4 ∧
      0 ≤ a'.current_frame ∧ a'.current_frame < a'.num_frames := by
  obtain ⟨r', h, hall⟩ := RenderSystem.updateAnimations_frame_in_range 200
    RenderSystem.animatedScene
    (by simp [RenderSystem.animatedScene, ComponentContainer.entities,
      RenderSystem.motionOf, ComponentContainer.has, ComponentContainer.get])
  obtain ⟨a', h1, h2, h3, h4⟩ := hall 0 1 ⟨0, 1 / 10, 3, 4, 32, false, true⟩ rfl
    (by decide) (by decide) (by decide)
  exact ⟨r', a', h, h1, h2, h3, h4⟩

/-! ## Closed form of the animation update -/

namespace RenderSystem

theorem foldlM_updateAnimation_closed (s : ℚ) (r0 : Registry) :
    ∀ (suf pre : List (Entity × Animation)),
      (∀ t ∈ suf, t.1 ∉ pre.map Prod.fst) → (suf.map Prod.fst).Nodup →
      (∀ t ∈ suf, (motionOf r0 t.1).isSome = true) →
      (suf.map Prod.fst).foldlM (updateAnimation s) { r0 with animations := ⟨pre ++ suf⟩ } =
        some { r0 with animations :=
          ⟨pre ++ suf.map (fun t => (t.1, advance s (activeOf r0 t.1) t.2))⟩ } := by
  intro suf
  induction suf with
  | nil => intro pre _ _ _; rfl
  | cons t rest ih =>
    intro pre hpre hnd hm
    rw [List.map_cons, List.nodup_cons] at hnd
    obtain ⟨motion, hmo⟩ := Option.isSome_iff_exists.mp (hm t (List.mem_cons_self t rest))
    have hstep : updateAnimation s { r0 with animations := ⟨pre ++ t :: rest⟩ } t.1 =
        some { r0 with animations :=
          ⟨(pre ++ [(t.1, advance s (activeOf r0 t.1) t.2)]) ++ rest⟩ } := by
      have hget : ({ r0 with animations := ⟨pre ++ t :: rest⟩ } : Registry).animations.get t.1 =
          some t.2 := by
        simp only [ComponentContainer.get,
          List.find?_entity_append pre rest t (hpre t (List.mem_cons_self t rest)),
          Option.map_some']
      have hmo' : motionOf { r0 with animations := ⟨pre ++ t :: rest⟩ } t.1 = some motion := hmo
      have hact : activeOf r0 t.1 = isActive r0 t.1 motion := by
        simp only [activeOf, hmo]
      simp only [updateAnimation, hget, hmo']
      rw [hact]
      simp only [ComponentContainer.set,
        List.modify_findIdx_entity_append pre rest t _ (hpre t (List.mem_cons_self t rest)),
        List.append_assoc, List.singleton_append]
      rfl
    rw [List.map_cons, List.foldlM_cons, hstep]
    have := ih (pre ++ [(t.1, advance s (activeOf r0 t.1) t.2)])
      (by
        intro u hu
        rw [List.map_append, List.mem_append, not_or]
        refine ⟨hpre u (List.mem_cons_of_mem t hu), ?_⟩
        simp only [List.map_cons, List.map_nil, List.mem_singleton]
        intro heq
        exact hnd.1 (heq ▸ List.mem_map_of_mem Prod.fst hu))
      hnd.2 (fun u hu => hm u (List.mem_cons_of_mem t hu))
    simp only [Option.bind_eq_bind, Option.some_bind]
    rw [this]
    simp

/-- With pairwise distinct animated entities that all have a Motion,
`updateAnimations` applies `advance` once to every Animation. -/
theorem updateAnimations_closed (ms : ℚ) (r : Registry)
    (hnd : r.animations.entities.Nodup)
    (hmotion : ∀ e ∈ r.animations.entities, (motionOf r e).isSome = true) :
    updateAnimations ms r =
      some { r with animations :=
        ⟨r.animations.slots.map (fun t => (t.1, advance (ms / 1000) (activeOf r t.1) t.2))⟩ } := by
  have h := foldlM_updateAnimation_closed (ms / 1000) r r.animations.slots [] (by simp) hnd
    (fun t ht => hmotion t.1 (List.mem_map_of_mem Prod.fst ht))
  simpa [updateAnimations, ComponentContainer.entities] using h

theorem updateAnimations_closed_slot (ms : ℚ) (r : Registry)
    (hnd : r.animations.entities.Nodup)
    (hmotion : ∀ e ∈ r.animations.entities, (motionOf r e).isSome = true)
    (i : Nat) (e : Entity) (a : Animation) (hs : r.animations.slots[i]? = some (e, a)) :
    ∃ r', updateAnimations ms r = some r' ∧
      r'.animations.slots[i]? = some (e, advance (ms / 1000) (activeOf r e) a) := by
  refine ⟨_, updateAnimations_closed ms r hnd hmotion, ?_⟩
  simp only [List.getElem?_map, hs, Option.map_some']

/-- A slot whose Animation does not play survives any sequence of calls. -/
theorem updateAnimationsSeq_of_not_playing (later : List ℚ) :
    ∀ (r : Registry), (∀ e ∈ r.animations.entities, (motionOf r e).isSome = true) →
      ∀ (i : Nat) (e : Entity) (a : Animation),
        r.animations.slots[i]? = some (e, a) → a.is_playing = false →
        ∃ r'', updateAnimationsSeq later r = some r'' ∧
          r''.animations.slots[i]? = some (e, a) := by
  induction later with
  | nil => intro r _ i e a hs _; exact ⟨r, rfl, hs⟩
  | cons ms later ih =>
    intro r hmotion i e a hs hp
    obtain ⟨r1, h1, f1⟩ := foldlM_updateAnimation_frame (ms / 1000)
      r.animations.entities r (fun e he => ⟨he, hmotion e he⟩)
    obtain ⟨a1, hs1, ha1⟩ := foldlM_updateAnimation_slot (fun b => b = a)
      (fun s active b hb => by rw [hb]; exact advance_of_not_playing s active a hp)
      (ms / 1000) r.animations.entities r r1 h1 i e a hs rfl
    subst ha1
    obtain ⟨r2, h2, hs2⟩ := ih r1
      (fun e2 he2 => by
        rw [f1.motionOf]
        exact hmotion e2 (by rw [← f1.entities]; exact he2))
      i e a1 hs1 hp
    refine ⟨r2, ?_, hs2⟩
    have h1' : updateAnimations ms r = some r1 := h1
    simp only [updateAnimationsSeq, List.foldlM_cons, h1', Option.bind_eq_bind,
      Option.some_bind]
    exact h2

end RenderSystem

/-! ## Stopped, idle and active animations -/

namespace RenderSystem

theorem isActive_iff (r : Registry) (e : Entity) (m : Motion) :
    isActive r e m = true ↔
      (r.players.has e = true ∧ (m.velocity.x ≠ 0 ∨ m.velocity.y ≠ 0)) ∨
      (r.enemies.has e = true ∧
        ∃ enemy, r.enemies.get e = some enemy ∧ enemy.enemyState ≠ EnemyState.ROAMING) := by
  unfold isActive
  cases hg : r.enemies.get e with
  | none => simp
  | some enemy => simp

theorem advance_last_frame (s : ℚ) (a : Animation) (hp : a.is_playing = true)
    (hl : a.loop = false) (ht : a.frame_time ≤ a.current_time + s)
    (hf : a.num_frames ≤ a.current_frame + 1) :
    advance s true a =
      { a with current_time := 0, current_frame := a.num_frames - 1, is_playing := false } := by
  simp [advance, hp, hl, ht, hf]

theorem advance_idle (s : ℚ) (a : Animation) (hp : a.is_playing = true) :
    advance s false a = { a with current_time := 0, current_frame := 0 } := by
  simp [advance, hp]

theorem advance_active (s : ℚ) (a : Animation) :
    ((advance s true a).current_frame = a.current_frame ∨
      (advance s true a).current_frame = a.current_frame + 1 ∨
      (a.num_frames ≤ a.current_frame + 1 ∧
        ((advance s true a).current_frame = 0 ∨
          (advance s true a).current_frame = a.num_frames - 1))) ∧
    (0 ≤ a.current_frame → (advance s true a).current_frame ≤ a.current_frame + 1) ∧
    ((advance s true a).current_frame ≠ a.current_frame →
      a.frame_time ≤ a.current_time + s) := by
  unfold advance
  simp only []
  split_ifs with c1 c2 c3 c4 <;> (try dsimp only at *) <;> refine ⟨?_, ?_, ?_⟩
  all_goals first
    | (intro h; omega)
    | (intro _; assumption)
    | omega

end RenderSystem

/-- C18. A stopped animation is not touched: when every animated entity has a
Motion, `updateAnimations` returns and leaves every slot whose Animation has
`is_playing` false as it was. And, the animated entities being pairwise
distinct, a playing Animation that does not loop, of an active entity, whose
frame time has elapsed and whose incremented frame counter reaches
`num_frames`, is set to `current_frame = num_frames - 1` with `is_playing`
false, and keeps this value through any sequence of later calls. -/
theorem RenderSystem.stopped_animation_stays :
    (∀ (elapsed_ms : ℚ) (registry : Registry),
      (∀ e ∈ registry.animations.entities,
        (RenderSystem.motionOf registry e).isSome = true) →
      ∃ r', RenderSystem.updateAnimations elapsed_ms registry = some r' ∧
        ∀ (i : Nat) (e : Entity) (a : Animation),
          registry.animations.slots[i]? = some (e, a) → a.is_playing = false →
          r'.animations.slots[i]? = some (e, a)) ∧
    (∀ (elapsed_ms : ℚ) (registry : Registry) (i : Nat) (e : Entity) (a : Animation)
      (motion : Motion),
      registry.animations.entities.Nodup →
      (∀ e ∈ registry.animations.entities,
        (RenderSystem.motionOf registry e).isSome = true) →
      registry.animations.slots[i]? = some (e, a) →
      RenderSystem.motionOf registry e = some motion →
      RenderSystem.isActive registry e motion = true →
      a.is_playing = true → a.loop = false →
      a.frame_time ≤ a.current_time + elapsed_ms / 1000 →
      a.num_frames ≤ a.current_frame + 1 →
      ∃ r' a', RenderSystem.updateAnimations elapsed_ms registry = some r' ∧
        r'.animations.slots[i]? = some (e, a') ∧
        a'.current_frame = a.num_frames - 1 ∧ a'.is_playing = false ∧
        ∀ later : List ℚ, ∃ r'', RenderSystem.updateAnimationsSeq later r' = some r'' ∧
          r''.animations.slots[i]? = some (e, a')) := by
  constructor
  · intro ms r hmotion
    obtain ⟨r', h, -⟩ := RenderSystem.foldlM_updateAnimation_frame (ms / 1000)
      r.animations.entities r (fun e he => ⟨he, hmotion e he⟩)
    refine ⟨r', h, ?_⟩
    intro i e a hs hp
    obtain ⟨a1, hs1, ha1⟩ := RenderSystem.foldlM_updateAnimation_slot (fun b => b = a)
      (fun s active b hb => by rw [hb]; exact RenderSystem.advance_of_not_playing s active a hp)
      (ms / 1000) r.animations.entities r r' h i e a hs rfl
    rw [← ha1]; exact hs1
  · intro ms r i e a motion hnd hmotion hs hmo hact hp hl ht hf
    obtain ⟨r', h, hs'⟩ := RenderSystem.updateAnimations_closed_slot ms r hnd hmotion i e a hs
    obtain ⟨r1, h1, f1⟩ := RenderSystem.foldlM_updateAnimation_frame (ms / 1000)
      r.animations.entities r (fun e he => ⟨he, hmotion e he⟩)
    have hr : r1 = r' := Option.some.inj (h1.symm.trans h)
    subst hr
    have hactive : RenderSystem.activeOf r e = true := by
      simp only [RenderSystem.activeOf, hmo, hact]
    rw [hactive, RenderSystem.advance_last_frame _ a hp hl ht hf] at hs'
    refine ⟨r1, _, h, hs', rfl, rfl, ?_⟩
    intro later
    exact RenderSystem.updateAnimationsSeq_of_not_playing later r1
      (fun e2 he2 => by
        rw [f1.motionOf]
        exact hmotion e2 (by rw [← f1.entities]; exact he2))
      i e _ hs' rfl

/-- Witness of C18: in `animatedScene` the moving player is on the last frame
(3 of 4) of an animation that does not loop; an update of 200 ms stops it on
frame 3, where it stays through two later calls. -/
theorem RenderSystem.stopped_animation_stays_witness :
    ∃ r' a', RenderSystem.updateAnimations 200 RenderSystem.animatedScene = some r' ∧
      r'.animations.slots[0]? = some (1, a') ∧
      a'.current_frame = 3 ∧ a'.is_playing = false ∧
      ∃ r'', RenderSystem.updateAnimationsSeq [200, 50] r' = some r'' ∧
        r''.animations.slots[0]? = some (1, a') := by
  obtain ⟨r', a', h, hs, hf, hp, hlater⟩ :=
    RenderSystem.stopped_animation_stays.2 200 RenderSystem.animatedScene 0 1
      ⟨0, 1 / 10, 3, 4, 32, false, true⟩ ⟨⟨0, 0⟩, 0, ⟨100, 0⟩, ⟨50, 50⟩⟩
      (by simp [RenderSystem.animatedScene, ComponentContainer.entities])
      (by simp [RenderSystem.animatedScene, ComponentContainer.entities,
        RenderSystem.motionOf, ComponentContainer.has, ComponentContainer.get])
      rfl
      (by simp [RenderSystem.animatedScene, RenderSystem.motionOf, ComponentContainer.has,
        ComponentContainer.get])
      (by simp [RenderSystem.animatedScene, RenderSystem.isActive, ComponentContainer.has])
      rfl rfl (by norm_num) (by decide)
  exact ⟨r', a', h, hs, hf, hp, hlater [200, 50]⟩

/-- C19. Idle entities are reset to the first frame, active ones advance by at
most one frame. The animated entities being pairwise distinct and each having
a Motion, `updateAnimations` returns, and for the Animation `a` of entity `e`:
when `a` plays and `e` is neither a player with non-zero velocity nor an enemy
whose state differs from `ROAMING` (in particular when `e` is neither a player
nor an enemy), `current_frame` and `current_time` are 0 afterwards, whatever
`elapsed_ms` is; when `e` is active, `current_frame` is unchanged, or
incremented by one, or, the incremented counter reaching `num_frames`, wrapped
to 0 or clamped to `num_frames - 1` (so it grows by at most one when it was
not negative), and it changes only when
`current_time + elapsed_ms/1000 >= frame_time`. -/
theorem RenderSystem.updateAnimations_idle_and_active (elapsed_ms : ℚ) (registry : Registry)
    (hdistinct : registry.animations.entities.Nodup)
    (hmotion : ∀ e ∈ registry.animations.entities,
      (RenderSystem.motionOf registry e).isSome = true)
    (i : Nat) (e : Entity) (a : Animation) (motion : Motion)
    (hslot : registry.animations.slots[i]? = some (e, a))
    (hmo : RenderSystem.motionOf registry e = some motion) :
    ∃ r' a', RenderSystem.updateAnimations elapsed_ms registry = some r' ∧
      r'.animations.slots[i]? = some (e, a') ∧
      (a.is_playing = true →
        ¬ (registry.players.has e = true ∧
            (motion.velocity.x ≠ 0 ∨ motion.velocity.y ≠ 0)) →
        ¬ (registry.enemies.has e = true ∧
            ∃ enemy, registry.enemies.get e = some enemy ∧
              enemy.enemyState ≠ EnemyState.ROAMING) →
        a'.current_frame = 0 ∧ a'.current_time = 0) ∧
      (a.is_playing = true → registry.players.has e = false →
        registry.enemies.has e = false →
        a'.current_frame = 0 ∧ a'.current_time = 0) ∧
      ((registry.players.has e = true ∧
            (motion.velocity.x ≠ 0 ∨ motion.velocity.y ≠ 0)) ∨
          (registry.enemies.has e = true ∧
            ∃ enemy, registry.enemies.get e = some enemy ∧
              enemy.enemyState ≠ EnemyState.ROAMING) →
        (a'.current_frame = a.current_frame ∨ a'.current_frame = a.current_frame + 1 ∨
          (a.num_frames ≤ a.current_frame + 1 ∧
            (a'.current_frame = 0 ∨ a'.current_frame = a.num_frames - 1))) ∧
        (0 ≤ a.current_frame → a'.current_frame ≤ a.current_frame + 1) ∧
        (a'.current_frame ≠ a.current_frame →
          a.frame_time ≤ a.current_time + elapsed_ms / 1000)) := by
  obtain ⟨r', h, hs'⟩ :=
    RenderSystem.updateAnimations_closed_slot elapsed_ms registry hdistinct hmotion i e a hslot
  have hact : RenderSystem.activeOf registry e = RenderSystem.isActive registry e motion := by
    simp only [RenderSystem.activeOf, hmo]
  rw [hact] at hs'
  have hidle : a.is_playing = true →
      ¬ (registry.players.has e = true ∧
          (motion.velocity.x ≠ 0 ∨ motion.velocity.y ≠ 0)) →
      ¬ (registry.enemies.has e = true ∧
          ∃ enemy, registry.enemies.get e = some enemy ∧
            enemy.enemyState ≠ EnemyState.ROAMING) →
      (RenderSystem.advance (elapsed_ms / 1000)
          (RenderSystem.isActive registry e motion) a).current_frame = 0 ∧
        (RenderSystem.advance (elapsed_ms / 1000)
          (RenderSystem.isActive registry e motion) a).current_time = 0 := by
    intro hp h1 h2
    have hfalse : RenderSystem.isActive registry e motion = false := by
      rw [Bool.eq_false_iff, Ne, RenderSystem.isActive_iff]
      rintro (h | h)
      · exact h1 h
      · exact h2 h
    rw [hfalse, RenderSystem.advance_idle _ a hp]
    exact ⟨rfl, rfl⟩
  refine ⟨r', _, h, hs', hidle, ?_, ?_⟩
  · intro hp h1 h2
    exact hidle hp (by rw [h1]; simp) (by rw [h2]; simp)
  · intro hactive
    rw [(RenderSystem.isActive_iff registry e motion).mpr hactive]
    exact RenderSystem.advance_active (elapsed_ms / 1000) a

/-- Witness of C19: in `animatedScene` the wall 3, neither a player nor an
enemy, plays frame 2 before an update of 200 ms and is on frame 0 with time 0
after it. -/
theorem RenderSystem.updateAnimations_idle_and_active_witness :
    ∃ r' a', RenderSystem.updateAnimations 200 RenderSystem.animatedScene = some r' ∧
      r'.animations.slots[1]? = some (3, a') ∧
      a'.current_frame = 0 ∧ a'.current_time = 0 := by
  obtain ⟨r', a', h, hs, -, hidle, -⟩ :=
    RenderSystem.updateAnimations_idle_and_active 200 RenderSystem.animatedScene
      (by simp [RenderSystem.animatedScene, ComponentContainer.entities])
      (by simp [RenderSystem.animatedScene, ComponentContainer.entities,
        RenderSystem.motionOf, ComponentContainer.has, ComponentContainer.get])
      1 3 ⟨1 / 20, 1 / 10, 2, 4, 32, true, true⟩ ⟨⟨200, 0⟩, 0, ⟨0, 0⟩, ⟨50, 50⟩⟩ rfl
      (by simp [RenderSystem.animatedScene, RenderSystem.motionOf, ComponentContainer.has,
        ComponentContainer.get])
  obtain ⟨h1, h2⟩ := hidle rfl
    (by simp [RenderSystem.animatedScene, ComponentContainer.has])
    (by simp [RenderSystem.animatedScene, ComponentContainer.has])
  exact ⟨r', a', h, hs, h1, h2⟩

/-! ## Activation of the buttons -/

theorem ComponentContainer.has_remove_self {α : Type} (c : ComponentContainer α) (e : Entity) :
    (c.remove e).has e = false := by
  simp only [ComponentContainer.has, ComponentContainer.remove, List.any_filter]
  rw [List.any_eq_false]
  intro x _
  cases h : (x.1 == e) <;> simp

theorem ComponentContainer.has_remove_of_has_eq_false {α : Type} (c : ComponentContainer α)
    (e e' : Entity) (h : c.has e' = false) : (c.remove e).has e' = false := by
  simp only [ComponentContainer.has, ComponentContainer.remove, List.any_filter]
  simp only [ComponentContainer.has] at h
  rw [List.any_eq_false] at h ⊢
  intro x hx
  have := h x hx
  simp only [Bool.not_eq_true] at this
  simp [this]

namespace RenderSystem

theorem flipClickable_isActive (P C : Int) (hPC : P ≠ C) (save : Bool) (screen : Int)
    (c : Clickable) :
    (flipClickable P C save screen c).isActive = true ↔
      c.screenTiedTo = screen ∧ (c.textureID ≠ P ∨ save = false) ∧
        (c.textureID ≠ C ∨ save = true) := by
  unfold flipClickable
  simp only []
  by_cases h1 : c.screenTiedTo = screen
  · by_cases h2 : c.textureID = P
    · have h3 : c.textureID ≠ C := fun h => hPC (h2.symm.trans h)
      cases save <;> simp [h1, h2, hPC]
    · by_cases h3 : c.textureID = C
      · cases save <;> simp [h1, h2, h3, Ne.symm hPC]
      · simp [h1, h2, h3]
  · simp [h1]

theorem flipClickable_fixed (P C : Int) (save : Bool) (screen : Int) (c : Clickable) :
    (flipClickable P C save screen c).screenTiedTo = c.screenTiedTo ∧
      (flipClickable P C save screen c).textureID = c.textureID := by
  unfold flipClickable
  simp only []
  split_ifs <;> exact ⟨rfl, rfl⟩

theorem foldlM_flipActiveButton_closed (P C : Int) (save : Bool) (screen : Int) :
    ∀ (suf pre : List (Entity × Clickable)) (rr : ComponentContainer RenderRequest),
      (∀ t ∈ suf, t.1 ∉ pre.map Prod.fst) → (suf.map Prod.fst).Nodup →
      (∀ t ∈ pre, t.2.isActive = false → rr.has t.1 = false) →
      ∃ rr' : ComponentContainer RenderRequest,
        (suf.map Prod.fst).foldlM (flipActiveButton P C save screen)
            { clickables := ⟨pre ++ suf⟩, renderRequests := rr } =
          some { renderRequests := rr', clickables :=
              ⟨pre ++ suf.map (fun t => (t.1, flipClickable P C save screen t.2))⟩ } ∧
        (∀ t ∈ pre ++ suf.map (fun t => (t.1, flipClickable P C save screen t.2)),
          t.2.isActive = false → rr'.has t.1 = false) := by
  intro suf
  induction suf with
  | nil =>
    intro pre rr _ _ hinv
    exact ⟨rr, rfl, by simpa using hinv⟩
  | cons t rest ih =>
    intro pre rr hpre hnd hinv
    rw [List.map_cons, List.nodup_cons] at hnd
    have ht := hpre t (List.mem_cons_self t rest)
    have hstep : ∃ rr1 : ComponentContainer RenderRequest,
        flipActiveButton P C save screen
            { clickables := ⟨pre ++ t :: rest⟩, renderRequests := rr } t.1 =
          some { renderRequests := rr1, clickables :=
              ⟨(pre ++ [(t.1, flipClickable P C save screen t.2)]) ++ rest⟩ } ∧
        (∀ u ∈ pre ++ [(t.1, flipClickable P C save screen t.2)],
          u.2.isActive = false → rr1.has u.1 = false) := by
      have hget : (⟨pre ++ t :: rest⟩ : ComponentContainer Clickable).get t.1 = some t.2 := by
        simp only [ComponentContainer.get, List.find?_entity_append pre rest t ht,
          Option.map_some']
      have hset : (⟨pre ++ t :: rest⟩ : ComponentContainer Clickable).set t.1
          (flipClickable P C save screen t.2) =
          ⟨(pre ++ [(t.1, flipClickable P C save screen t.2)]) ++ rest⟩ := by
        simp only [ComponentContainer.set,
          List.modify_findIdx_entity_append pre rest t _ ht,
          List.append_assoc, List.singleton_append]
      simp only [flipActiveButton, hget, hset]
      by_cases hc : (!(flipClickable P C save screen t.2).isActive && rr.has t.1) = true
      · refine ⟨rr.remove t.1, by simp only [hc, if_true], ?_⟩
        intro u hu hua
        rcases List.mem_append.mp hu with hu | hu
        · exact ComponentContainer.has_remove_of_has_eq_false rr t.1 u.1 (hinv u hu hua)
        · rw [List.mem_singleton.mp hu]
          exact ComponentContainer.has_remove_self rr t.1
      · refine ⟨rr, by simp only [hc, Bool.false_eq_true, if_false], ?_⟩
        intro u hu hua
        rcases List.mem_append.mp hu with hu | hu
        · exact hinv u hu hua
        · rw [List.mem_singleton.mp hu] at hua ⊢
          have hua' : (flipClickable P C save screen t.2).isActive = false := hua
          rw [hua'] at hc
          simpa using hc
    obtain ⟨rr1, h1, hinv1⟩ := hstep
    obtain ⟨rr', h2, hinv2⟩ := ih (pre ++ [(t.1, flipClickable P C save screen t.2)]) rr1
      (by
        intro u hu
        rw [List.map_append, List.mem_append, not_or]
        refine ⟨hpre u (List.mem_cons_of_mem t hu), ?_⟩
        simp only [List.map_cons, List.map_nil, List.mem_singleton]
        intro heq
        exact hnd.1 (heq ▸ List.mem_map_of_mem Prod.fst hu))
      hnd.2 hinv1
    refine ⟨rr', ?_, ?_⟩
    · rw [List.map_cons, List.foldlM_cons, h1]
      simp only [Option.bind_eq_bind, Option.some_bind]
      rw [h2]
      simp
    · simpa using hinv2

end RenderSystem

/-- C20. Button activation. The texture ids of the PLAY and the CONTINUE button
being different and the clickable entities pairwise distinct,
`flipActiveButtions(activeScreen)` returns, and afterwards: every clickable
keeps its slot, entity, screen and texture, and is active if and only if it is
tied to the active screen, is not the PLAY button or no save file exists, and
is not the CONTINUE button or a save file exists; of a PLAY button and a
CONTINUE button tied to the active screen exactly one is active; and every
clickable left inactive has no render request. -/
theorem RenderSystem.flipActiveButtions_spec (PLAY_BUTTON CONTINUE_BUTTON : Int)
    (hids : PLAY_BUTTON ≠ CONTINUE_BUTTON) (saveFileExists : Bool) (activeScreen : Int)
    (registry : ScreenRegistry) (hdistinct : registry.clickables.entities.Nodup) :
    ∃ r', RenderSystem.flipActiveButtions PLAY_BUTTON CONTINUE_BUTTON saveFileExists
        activeScreen registry = some r' ∧
      (∀ (i : Nat) (e : Entity) (c : Clickable),
        registry.clickables.slots[i]? = some (e, c) →
        ∃ c', r'.clickables.slots[i]? = some (e, c') ∧
          c'.screenTiedTo = c.screenTiedTo ∧ c'.textureID = c.textureID ∧
          (c'.isActive = true ↔
            c'.screenTiedTo = activeScreen ∧
            (c'.textureID ≠ PLAY_BUTTON ∨ saveFileExists = false) ∧
            (c'.textureID ≠ CONTINUE_BUTTON ∨ saveFileExists = true))) ∧
      (∀ (e1 e2 : Entity) (c1 c2 : Clickable),
        (e1, c1) ∈ r'.clickables.slots → (e2, c2) ∈ r'.clickables.slots →
        c1.textureID = PLAY_BUTTON → c2.textureID = CONTINUE_BUTTON →
        c1.screenTiedTo = activeScreen → c2.screenTiedTo = activeScreen →
        (c1.isActive = true ∧ c2.isActive = false) ∨
          (c1.isActive = false ∧ c2.isActive = true)) ∧
      (∀ (e : Entity) (c' : Clickable), (e, c') ∈ r'.clickables.slots →
        c'.isActive = false → r'.renderRequests.has e = false) := by
  obtain ⟨⟨slots⟩, rr⟩ := registry
  obtain ⟨rr', h, hinv⟩ := RenderSystem.foldlM_flipActiveButton_closed PLAY_BUTTON
    CONTINUE_BUTTON saveFileExists activeScreen slots [] rr (by simp) hdistinct (by simp)
  simp only [List.nil_append] at h hinv
  have hslot : ∀ (i : Nat) (e : Entity) (c : Clickable), slots[i]? = some (e, c) →
      ∃ c', (slots.map (fun t => (t.1, RenderSystem.flipClickable PLAY_BUTTON CONTINUE_BUTTON
          saveFileExists activeScreen t.2)))[i]? = some (e, c') ∧
        c'.screenTiedTo = c.screenTiedTo ∧ c'.textureID = c.textureID ∧
        (c'.isActive = true ↔
          c'.screenTiedTo = activeScreen ∧
          (c'.textureID ≠ PLAY_BUTTON ∨ saveFileExists = false) ∧
          (c'.textureID ≠ CONTINUE_BUTTON ∨ saveFileExists = true)) := by
    intro i e c hs
    obtain ⟨f1, f2⟩ := RenderSystem.flipClickable_fixed PLAY_BUTTON CONTINUE_BUTTON
      saveFileExists activeScreen c
    refine ⟨_, by rw [List.getElem?_map, hs]; rfl, f1, f2, ?_⟩
    rw [f1, f2]
    exact RenderSystem.flipClickable_isActive PLAY_BUTTON CONTINUE_BUTTON hids saveFileExists
      activeScreen c
  have hmem : ∀ (e : Entity) (c' : Clickable),
      (e, c') ∈ slots.map (fun t => (t.1, RenderSystem.flipClickable PLAY_BUTTON
        CONTINUE_BUTTON saveFileExists activeScreen t.2)) →
      (c'.isActive = true ↔
        c'.screenTiedTo = activeScreen ∧
        (c'.textureID ≠ PLAY_BUTTON ∨ saveFileExists = false) ∧
        (c'.textureID ≠ CONTINUE_BUTTON ∨ saveFileExists = true)) := by
    intro e c' hm
    obtain ⟨t, _, ht⟩ := List.mem_map.mp hm
    simp only [Prod.mk.injEq] at ht
    obtain ⟨f1, f2⟩ := RenderSystem.flipClickable_fixed PLAY_BUTTON CONTINUE_BUTTON
      saveFileExists activeScreen t.2
    rw [← ht.2, f1, f2]
    exact RenderSystem.flipClickable_isActive PLAY_BUTTON CONTINUE_BUTTON hids saveFileExists
      activeScreen t.2
  refine ⟨_, h, hslot, ?_, fun e c' hm hc => hinv (e, c') hm hc⟩
  intro e1 e2 c1 c2 h1 h2 t1 t2 s1 s2
  have a1 := hmem e1 c1 h1
  have a2 := hmem e2 c2 h2
  have hne1 : c1.textureID ≠ CONTINUE_BUTTON := by rw [t1]; exact hids
  have hne2 : c2.textureID ≠ PLAY_BUTTON := by rw [t2]; exact Ne.symm hids
  cases hsave : saveFileExists with
  | false =>
    left
    refine ⟨a1.mpr ⟨s1, Or.inr hsave, Or.inl hne1⟩, ?_⟩
    rw [Bool.eq_false_iff]
    intro hact
    rcases (a2.mp hact).2.2 with h | h
    · exact h t2
    · rw [hsave] at h; exact Bool.false_ne_true h
  | true =>
    right
    refine ⟨?_, a2.mpr ⟨s2, Or.inl hne2, Or.inr hsave⟩⟩
    rw [Bool.eq_false_iff]
    intro hact
    rcases (a1.mp hact).2.1 with h | h
    · exact h t1
    · rw [hsave] at h; exact Bool.false_ne_true h.symm

/-- Witness of C20: on `mainMenu` with a save file, on screen 0, the PLAY button
(entity 1) is inactive and has lost its render request, and the CONTINUE button
(entity 2) is active. -/
theorem RenderSystem.flipActiveButtions_spec_witness :
    ∃ r' c1 c2, RenderSystem.flipActiveButtions 7 8 true 0 RenderSystem.mainMenu = some r' ∧
      r'.clickables.slots[0]? = some (1, c1) ∧ r'.clickables.slots[1]? = some (2, c2) ∧
      c1.isActive = false ∧ c2.isActive = true ∧ r'.renderRequests.has 1 = false := by
  obtain ⟨r', h, hslot, -, hrr⟩ := RenderSystem.flipActiveButtions_spec 7 8 (by decide) true 0
    RenderSystem.mainMenu (by simp [RenderSystem.mainMenu, ComponentContainer.entities])
  obtain ⟨c1, h1, -, -, a1⟩ := hslot 0 1 ⟨0, 7, false⟩ rfl
  obtain ⟨c2, h2, -, -, a2⟩ := hslot 1 2 ⟨0, 8, true⟩ rfl
  have hs1 := hslot 0 1 ⟨0, 7, false⟩ rfl
  obtain ⟨c1', h1', s1, t1, -⟩ := hs1
  have e1 : c1' = c1 := by
    have := h1'.symm.trans h1
    simpa using this
  subst e1
  obtain ⟨c2', h2', s2, t2, -⟩ := hslot 1 2 ⟨0, 8, true⟩ rfl
  have e2 : c2' = c2 := by
    have := h2'.symm.trans h2
    simpa using this
  subst e2
  have hc1 : c1'.isActive = false := by
    rw [Bool.eq_false_iff]
    intro hact
    rcases (a1.mp hact).2.1 with h | h
    · exact h t1
    · exact Bool.noConfusion h
  have hc2 : c2'.isActive = true :=
    a2.mpr ⟨s2, Or.inl (by rw [t2]; decide), Or.inr rfl⟩
  exact ⟨r', c1', c2', h, h1, h2, hc1, hc2,
    hrr 1 c1' (List.mem_iff_getElem?.mpr ⟨0, h1⟩) hc1⟩


/-! ## Pathfinding: the search invariant -/

namespace AISystem

theorem inBounds_congr (g g0 : GridMap) (hw : g.width = g0.width) (hh : g.height = g0.height)
    (c : Cell) : inBounds g c = inBounds g0 c := by
  simp [inBounds, hw, hh]

theorem relax_width (sc : Cell → Cell → Nat) (g : GridMap) (cur n : Cell) :
    (relax sc g cur n).width = g.width := by
  unfold relax
  split
  · rfl
  · split_ifs <;> rfl

theorem relax_height (sc : Cell → Cell → Nat) (g : GridMap) (cur n : Cell) :
    (relax sc g cur n).height = g.height := by
  unfold relax
  split
  · rfl
  · split_ifs <;> rfl

/-- The effect of a relaxation on a node: nothing, or, for the relaxed
neighbour, a new cost and the back-pointer `cur`. -/
theorem relax_nodes (sc : Cell → Cell → Nat) (g : GridMap) (cur n c : Cell) :
    (relax sc g cur n).nodes c = g.nodes c ∨
      (c = n ∧ inBounds g n = true ∧ (g.nodes n).traversable = true ∧
        (g.nodes n).visited = false ∧
        ∃ gc, (g.nodes cur).cost = some gc ∧
          (∀ old, (g.nodes n).cost = some old → gc + sc cur n < old) ∧
          (relax sc g cur n).nodes c =
            { g.nodes n with cost := some (gc + sc cur n), parent := some cur }) := by
  unfold relax
  cases hc : (g.nodes cur).cost with
  | none => left; rfl
  | some gc =>
    simp only []
    split_ifs with hcond
    · by_cases hcn : c = n
      · right
        simp only [Bool.and_eq_true, Bool.not_eq_true'] at hcond
        refine ⟨hcn, hcond.1.1.1, hcond.1.1.2, hcond.1.2, gc, rfl, ?_, by simp [hcn]⟩
        intro old hold
        have h4 := hcond.2
        rw [hold] at h4
        simpa using h4
      · left; simp [hcn]
    · left; rfl

theorem relax_traversable (sc : Cell → Cell → Nat) (g : GridMap) (cur n c : Cell) :
    ((relax sc g cur n).nodes c).traversable = (g.nodes c).traversable := by
  rcases relax_nodes sc g cur n c with h | ⟨hcn, -, -, -, gc, -, -, h⟩
  · rw [h]
  · rw [h, hcn]

theorem relax_visited (sc : Cell → Cell → Nat) (g : GridMap) (cur n c : Cell) :
    ((relax sc g cur n).nodes c).visited = (g.nodes c).visited := by
  rcases relax_nodes sc g cur n c with h | ⟨hcn, -, -, -, gc, -, -, h⟩
  · rw [h]
  · rw [h, hcn]

theorem relax_reached_mono (sc : Cell → Cell → Nat) (g : GridMap) (cur n c : Cell)
    (h : (g.nodes c).cost.isSome = true) : ((relax sc g cur n).nodes c).cost.isSome = true := by
  rcases relax_nodes sc g cur n c with h1 | ⟨-, -, -, -, gc, -, -, h1⟩
  · rw [h1]; exact h
  · rw [h1]; rfl

/-- A node that is visited keeps its cost and back-pointer. -/
theorem relax_of_visited (sc : Cell → Cell → Nat) (g : GridMap) (cur n c : Cell)
    (h : (g.nodes c).visited = true) : (relax sc g cur n).nodes c = g.nodes c := by
  rcases relax_nodes sc g cur n c with h1 | ⟨hcn, -, -, hv, -⟩
  · exact h1
  · rw [hcn, hv] at h; exact absurd h Bool.false_ne_true

/-- After its relaxation, a traversable neighbour in bounds is reached. -/
theorem relax_reaches (sc : Cell → Cell → Nat) (g : GridMap) (cur n : Cell) (gc : Nat)
    (hcur : (g.nodes cur).cost = some gc)
    (hvr : (g.nodes n).visited = true → (g.nodes n).cost.isSome = true)
    (hb : inBounds g n = true) (ht : (g.nodes n).traversable = true) :
    ((relax sc g cur n).nodes n).cost.isSome = true := by
  unfold relax
  rw [hcur]
  simp only []
  split_ifs with hcond
  · simp
  · simp only [hb, ht, Bool.true_and, Bool.and_eq_true, Bool.not_eq_true', not_and] at hcond
    cases hv : (g.nodes n).visited with
    | true => exact hvr hv
    | false =>
      have := hcond hv
      cases hn : (g.nodes n).cost with
      | none => rw [hn] at this; simp at this
      | some old => rfl

end AISystem

namespace AISystem

theorem relax_core (eight : Bool) (sc : Cell → Cell → Nat) (g0 : GridMap) (start goal : Cell)
    (g : GridMap) (cur n : Cell) (h : Core eight sc g0 start goal g)
    (hcur : (g.nodes cur).visited = true) (hn : n ∈ neighbours eight cur) :
    Core eight sc g0 start goal (relax sc g cur n) := by
  refine ⟨?_, ?_, ?_, ?_, ?_, ?_, ?_, ?_⟩
  · rw [relax_width]; exact h.width_eq
  · rw [relax_height]; exact h.height_eq
  · intro c; rw [relax_traversable]; exact h.trav_eq c
  · rcases relax_nodes sc g cur n start with h1 | ⟨hsn, -, -, -, gc, -, hlt, -⟩
    · rw [h1]; exact h.start_cost
    · have := hlt 0 (by rw [← hsn]; exact h.start_cost)
      exact absurd this (Nat.not_lt_zero _)
  · intro c hc
    rcases relax_nodes sc g cur n c with h1 | ⟨hcn, hb, ht, -, -⟩
    · rw [h1] at hc; exact h.reached_ok c hc
    · rw [hcn]
      exact ⟨by rw [← inBounds_congr g g0 h.width_eq h.height_eq]; exact hb,
        by rw [← h.trav_eq]; exact ht⟩
  · intro c gc hc hcs
    rcases relax_nodes sc g cur n c with h1 | ⟨hcn, -, -, -, gcur, hgcur, -, h1⟩
    · rw [h1] at hc ⊢
      obtain ⟨p, gp, hp, hv, hpc, hgc, hnb⟩ := h.link c gc hc hcs
      exact ⟨p, gp, hp, by rw [relax_of_visited sc g cur n p hv]; exact hv,
        by rw [relax_of_visited sc g cur n p hv]; exact hpc, hgc, hnb⟩
    · rw [h1] at hc ⊢
      simp only [Option.some.injEq] at hc
      refine ⟨cur, gcur, rfl, ?_, ?_, ?_, ?_⟩
      · rw [relax_of_visited sc g cur n cur hcur]; exact hcur
      · rw [relax_of_visited sc g cur n cur hcur]; exact hgcur
      · rw [← hc, hcn]
      · rw [hcn]; exact hn
  · intro c hc
    rw [relax_visited] at hc
    exact relax_reached_mono sc g cur n c (h.visited_reached c hc)
  · rw [relax_visited]; exact h.goal_open

theorem markVisited_nodes (g : GridMap) (cur c : Cell) :
    ((markVisited g cur).nodes c).cost = (g.nodes c).cost ∧
      ((markVisited g cur).nodes c).parent = (g.nodes c).parent ∧
      ((markVisited g cur).nodes c).traversable = (g.nodes c).traversable ∧
      ((markVisited g cur).nodes c).visited = (decide (c = cur) || (g.nodes c).visited) := by
  unfold markVisited
  by_cases h : c = cur
  · subst h; simp
  · simp [h]

theorem markVisited_core (eight : Bool) (sc : Cell → Cell → Nat) (g0 : GridMap)
    (start goal : Cell) (g : GridMap) (cur : Cell) (h : Core eight sc g0 start goal g)
    (hcur : (g.nodes cur).cost.isSome = true) (hgoal : cur ≠ goal) :
    Core eight sc g0 start goal (markVisited g cur) := by
  refine ⟨h.width_eq, h.height_eq, ?_, ?_, ?_, ?_, ?_, ?_⟩
  · intro c; rw [(markVisited_nodes g cur c).2.2.1]; exact h.trav_eq c
  · rw [(markVisited_nodes g cur start).1]; exact h.start_cost
  · intro c hc
    rw [(markVisited_nodes g cur c).1] at hc
    exact h.reached_ok c hc
  · intro c gc hc hcs
    rw [(markVisited_nodes g cur c).1] at hc
    obtain ⟨p, gp, hp, hv, hpc, hgc, hnb⟩ := h.link c gc hc hcs
    refine ⟨p, gp, ?_, ?_, ?_, hgc, hnb⟩
    · rw [(markVisited_nodes g cur c).2.1]; exact hp
    · rw [(markVisited_nodes g cur p).2.2.2, hv, Bool.or_true]
    · rw [(markVisited_nodes g cur p).1]; exact hpc
  · intro c hc
    rw [(markVisited_nodes g cur c).2.2.2] at hc
    rw [(markVisited_nodes g cur c).1]
    by_cases hcc : c = cur
    · rw [hcc]; exact hcur
    · simp only [hcc, decide_False, Bool.false_or] at hc
      exact h.visited_reached c hc
  · rw [(markVisited_nodes g cur goal).2.2.2, h.goal_open]
    simp [Ne.symm hgoal]

/-- Relaxing a list of neighbours of the visited node `cur` keeps the
invariant and the visited flags, loses no reached node and reaches all the
traversable neighbours in bounds of the list. -/
theorem foldl_relax (eight : Bool) (sc : Cell → Cell → Nat) (g0 : GridMap)
    (start goal cur : Cell) (L : List Cell) :
    ∀ g : GridMap, Core eight sc g0 start goal g → (g.nodes cur).visited = true →
      (∀ n ∈ L, n ∈ neighbours eight cur) →
      Core eight sc g0 start goal (L.foldl (fun g n => relax sc g cur n) g) ∧
      (∀ c, ((L.foldl (fun g n => relax sc g cur n) g).nodes c).visited = (g.nodes c).visited) ∧
      (∀ c, (g.nodes c).cost.isSome = true →
        ((L.foldl (fun g n => relax sc g cur n) g).nodes c).cost.isSome = true) ∧
      (∀ n ∈ L, inBounds g0 n = true → (g0.nodes n).traversable = true →
        ((L.foldl (fun g n => relax sc g cur n) g).nodes n).cost.isSome = true) := by
  induction L with
  | nil => intro g h _ _; exact ⟨h, fun _ => rfl, fun _ hc => hc, fun n hn => by cases hn⟩
  | cons n L ih =>
    intro g h hcur hL
    have hn := hL n (List.mem_cons_self n L)
    have h1 := relax_core eight sc g0 start goal g cur n h hcur hn
    have hcur1 : ((relax sc g cur n).nodes cur).visited = true := by
      rw [relax_visited]; exact hcur
    obtain ⟨a1, a2, a3, a4⟩ := ih (relax sc g cur n) h1 hcur1
      (fun m hm => hL m (List.mem_cons_of_mem n hm))
    rw [List.foldl_cons]
    refine ⟨a1, ?_, ?_, ?_⟩
    · intro c; rw [a2, relax_visited]
    · intro c hc; exact a3 c (relax_reached_mono sc g cur n c hc)
    · intro m hm hb ht
      rcases List.mem_cons.mp hm with rfl | hm
      · apply a3
        obtain ⟨gc, hgc⟩ := Option.isSome_iff_exists.mp (h.visited_reached cur hcur)
        exact relax_reaches sc g cur m gc hgc (h.visited_reached m)
          (by rw [inBounds_congr g g0 h.width_eq h.height_eq]; exact hb)
          (by rw [h.trav_eq]; exact ht)
      · exact a4 m hm hb ht

/-- The expansion of an open node other than the goal keeps the invariant and
the closure of the visited set. -/
theorem expand_inv (eight : Bool) (sc : Cell → Cell → Nat) (g0 : GridMap) (start goal : Cell)
    (g : GridMap) (cur : Cell) (h : Core eight sc g0 start goal g)
    (hclosed : ∀ c, (g.nodes c).visited = true → Closed eight g0 g c)
    (hopen : isOpen g cur = true) (hgoal : cur ≠ goal) :
    Core eight sc g0 start goal (expand eight sc g cur) ∧
      (∀ c, ((expand eight sc g cur).nodes c).visited = true →
        Closed eight g0 (expand eight sc g cur) c) ∧
      (∀ c, ((expand eight sc g cur).nodes c).visited =
        (decide (c = cur) || (g.nodes c).visited)) := by
  simp only [isOpen, Bool.and_eq_true, Bool.not_eq_true'] at hopen
  have hm := markVisited_core eight sc g0 start goal g cur h hopen.1 hgoal
  have hmv : ((markVisited g cur).nodes cur).visited = true := by
    rw [(markVisited_nodes g cur cur).2.2.2]; simp
  obtain ⟨a1, a2, a3, a4⟩ := foldl_relax eight sc g0 start goal cur (neighbours eight cur)
    (markVisited g cur) hm hmv (fun n hn => hn)
  have hvis : ∀ c, ((expand eight sc g cur).nodes c).visited =
      (decide (c = cur) || (g.nodes c).visited) := by
    intro c
    unfold expand
    rw [a2, (markVisited_nodes g cur c).2.2.2]
  refine ⟨a1, ?_, hvis⟩
  intro c hc
  rw [hvis] at hc
  by_cases hcc : c = cur
  · rw [hcc]
    intro n hn hb ht
    exact a4 n hn hb ht
  · simp only [hcc, decide_False, Bool.false_or] at hc
    intro n hn hb ht
    apply a3
    rw [(markVisited_nodes g cur n).1]
    exact hclosed c hc n hn hb ht

end AISystem

/-! ## Pathfinding: the open set, the walk along the back-pointers -/

namespace AISystem

theorem mem_cells (g : GridMap) (c : Cell) : c ∈ cells g ↔ inBounds g c = true := by
  unfold cells inBounds
  rw [List.mem_flatMap]
  simp only [Bool.and_eq_true, decide_eq_true_eq]
  constructor
  · rintro ⟨x, hx, hc⟩
    rw [List.mem_map] at hc
    obtain ⟨y, hy, rfl⟩ := hc
    rw [List.mem_range] at hx hy
    simp only
    omega
  · rintro ⟨⟨⟨h1, h2⟩, h3⟩, h4⟩
    refine ⟨c.1.toNat, List.mem_range.mpr (by omega), ?_⟩
    rw [List.mem_map]
    refine ⟨c.2.toNat, List.mem_range.mpr (by omega), ?_⟩
    ext
    · simp only; omega
    · simp only; omega

theorem foldl_pickStep_some (heuristic : Cell → Cell → Nat) (g : GridMap) (goal : Cell)
    (L : List Cell) :
    ∀ (init : Option Cell) (x : Cell),
      L.foldl (pickStep heuristic g goal) init = some x → init = some x ∨ x ∈ L := by
  induction L with
  | nil => intro init x h; left; exact h
  | cons c L ih =>
    intro init x h
    rw [List.foldl_cons] at h
    rcases ih _ x h with h1 | h1
    · cases init with
      | none =>
        simp only [pickStep, Option.some.injEq] at h1
        right; rw [← h1]; exact List.mem_cons_self c L
      | some b =>
        simp only [pickStep] at h1
        split_ifs at h1
        · simp only [Option.some.injEq] at h1
          right; rw [← h1]; exact List.mem_cons_self c L
        · left; exact h1
    · right; exact List.mem_cons_of_mem c h1

theorem foldl_pickStep_none (heuristic : Cell → Cell → Nat) (g : GridMap) (goal : Cell)
    (L : List Cell) :
    ∀ (init : Option Cell),
      L.foldl (pickStep heuristic g goal) init = none → init = none ∧ L = [] := by
  induction L with
  | nil => intro init h; exact ⟨h, rfl⟩
  | cons c L ih =>
    intro init h
    rw [List.foldl_cons] at h
    have := (ih _ h).1
    cases init with
    | none => simp [pickStep] at this
    | some b =>
      simp only [pickStep] at this
      split_ifs at this

theorem pickOpen_some (heuristic : Cell → Cell → Nat) (g : GridMap) (goal cur : Cell)
    (h : pickOpen heuristic g goal = some cur) :
    inBounds g cur = true ∧ isOpen g cur = true := by
  unfold pickOpen at h
  rcases foldl_pickStep_some heuristic g goal _ none cur h with h' | h'
  · cases h'
  · rw [List.mem_filter, mem_cells] at h'
    exact h'

theorem pickOpen_none (heuristic : Cell → Cell → Nat) (g : GridMap) (goal : Cell)
    (h : pickOpen heuristic g goal = none) (c : Cell) (hb : inBounds g c = true) :
    isOpen g c = false := by
  unfold pickOpen at h
  have h' := (foldl_pickStep_none heuristic g goal _ none h).2
  rw [List.filter_eq_nil_iff] at h'
  have := h' c ((mem_cells g c).mpr hb)
  simpa using this

theorem length_filter_lt {β : Type} (p q : β → Bool) (l : List β)
    (hqp : ∀ x, q x = true → p x = true) (x : β) (hx : x ∈ l) (hpx : p x = true)
    (hqx : q x = false) : (l.filter q).length < (l.filter p).length := by
  induction l with
  | nil => cases hx
  | cons a l ih =>
    have hle : (l.filter q).length ≤ (l.filter p).length := by
      clear ih hx
      induction l with
      | nil => simp
      | cons b l ih2 =>
        rw [List.filter_cons, List.filter_cons]
        cases hq : q b with
        | true => simp only [hqp b hq, if_true, List.length_cons]; omega
        | false =>
          simp only [Bool.false_eq_true, if_false]
          split_ifs
          · simp only [List.length_cons]; omega
          · exact ih2
    rw [List.filter_cons, List.filter_cons]
    rcases List.mem_cons.mp hx with rfl | hx
    · simp only [hpx, hqx, if_true, Bool.false_eq_true, if_false, List.length_cons]
      omega
    · have := ih hx
      cases hq : q a with
      | true => simp only [hqp a hq, if_true, List.length_cons]; omega
      | false =>
        simp only [Bool.false_eq_true, if_false]
        split_ifs
        · simp only [List.length_cons]; omega
        · exact this

theorem cells_congr (g g' : GridMap) (hw : g.width = g'.width) (hh : g.height = g'.height) :
    cells g = cells g' := by
  simp [cells, hw, hh]

theorem length_cells (g : GridMap) : (cells g).length = g.width * g.height := by
  simp [cells, List.length_flatMap, Function.comp_def]

/-- The walk along the back-pointers, when it succeeds, lists reached cells
from `c` to the start, each one a neighbour of the next. -/
theorem walkBack_sound (eight : Bool) (sc : Cell → Cell → Nat) (g0 : GridMap)
    (start goal : Cell) (g : GridMap) (h : Core eight sc g0 start goal g) :
    ∀ (fuel : Nat) (c : Cell) (l : List Cell), walkBack g start fuel c = some l →
      (g.nodes c).cost.isSome = true →
      l.head? = some c ∧ l.getLast? = some start ∧
        (∀ x ∈ l, (g.nodes x).cost.isSome = true) ∧
        l.Chain' (fun a b => a ∈ neighbours eight b) := by
  intro fuel
  induction fuel with
  | zero => intro c l hl; simp [walkBack] at hl
  | succ fuel ih =>
    intro c l hl hc
    rw [walkBack] at hl
    by_cases hcs : c = start
    · simp only [hcs, if_true, Option.some.injEq] at hl
      subst hl
      subst hcs
      exact ⟨rfl, rfl, by simpa using hc, List.chain'_singleton _⟩
    · simp only [hcs, if_false] at hl
      obtain ⟨gc, hgc⟩ := Option.isSome_iff_exists.mp hc
      obtain ⟨p, gp, hp, hv, hpc, -, hnb⟩ := h.link c gc hgc hcs
      rw [hp] at hl
      simp only [Option.map_eq_some'] at hl
      obtain ⟨l', hl', rfl⟩ := hl
      obtain ⟨b1, b2, b3, b4⟩ := ih p l' hl' (h.visited_reached p hv)
      refine ⟨rfl, ?_, ?_, ?_⟩
      · cases l' with
        | nil => simp at b1
        | cons y ys => rw [List.getLast?_cons_cons]; exact b2
      · intro x hx
        rcases List.mem_cons.mp hx with rfl | hx
        · exact hc
        · exact b3 x hx
      · rw [List.chain'_cons']
        refine ⟨?_, b4⟩
        intro y hy
        rw [b1] at hy
        cases hy
        exact hnb

/-- With positive costs of the moves, the walk from a reached cell succeeds
with a fuel above its cost. -/
theorem walkBack_complete (eight : Bool) (sc : Cell → Cell → Nat) (g0 : GridMap)
    (start goal : Cell) (g : GridMap) (h : Core eight sc g0 start goal g)
    (hpos : ∀ a b, 0 < sc a b) :
    ∀ (fuel : Nat) (c : Cell) (gc : Nat), (g.nodes c).cost = some gc → gc < fuel →
      ∃ l, walkBack g start fuel c = some l := by
  intro fuel
  induction fuel with
  | zero => intro c gc _ hlt; omega
  | succ fuel ih =>
    intro c gc hgc hlt
    rw [walkBack]
    by_cases hcs : c = start
    · exact ⟨[c], by simp [hcs]⟩
    · obtain ⟨p, gp, hp, -, hpc, hsum, -⟩ := h.link c gc hgc hcs
      have := hpos p c
      obtain ⟨l', hl'⟩ := ih p gp hpc (by omega)
      exact ⟨c :: l', by simp [hcs, hp, hl']⟩

end AISystem

/-! ## Pathfinding: soundness and completeness of the search -/

namespace AISystem

theorem search_sound (eight : Bool) (heuristic sc : Cell → Cell → Nat) (g0 : GridMap)
    (start goal : Cell) :
    ∀ (fuel : Nat) (g : GridMap) (path : List Cell), Core eight sc g0 start goal g →
      (∀ c, (g.nodes c).visited = true → Closed eight g0 g c) →
      search eight heuristic sc start goal fuel g = some path →
      ValidPath eight g0 start goal path := by
  intro fuel
  induction fuel with
  | zero => intro g path _ _ hs; simp [search] at hs
  | succ fuel ih =>
    intro g path h hclosed hs
    rw [search] at hs
    cases hpick : pickOpen heuristic g goal with
    | none => rw [hpick] at hs; simp at hs
    | some cur =>
      rw [hpick] at hs
      simp only at hs
      obtain ⟨-, hopen⟩ := pickOpen_some heuristic g goal cur hpick
      by_cases hcg : cur = goal
      · simp only [hcg, if_true, Option.map_eq_some'] at hs
        obtain ⟨l, hl, rfl⟩ := hs
        have hreached : (g.nodes goal).cost.isSome = true := by
          rw [hcg] at hopen
          simp only [isOpen, Bool.and_eq_true] at hopen
          exact hopen.1
        obtain ⟨b1, b2, b3, b4⟩ := walkBack_sound eight sc g0 start goal g h _ goal l hl hreached
        refine ⟨?_, ?_, ?_, ?_⟩
        · rw [List.head?_reverse]; exact b2
        · rw [List.getLast?_reverse]; exact b1
        · intro c hc
          exact h.reached_ok c (b3 c (List.mem_reverse.mp hc))
        · rw [List.chain'_reverse]
          exact b4
      · simp only [hcg, if_false] at hs
        obtain ⟨a1, a2, -⟩ := expand_inv eight sc g0 start goal g cur h hclosed hopen hcg
        exact ih _ path a1 a2 hs

theorem unvisited_expand_lt (eight : Bool) (sc : Cell → Cell → Nat) (g0 : GridMap)
    (start goal : Cell) (g : GridMap) (cur : Cell) (h : Core eight sc g0 start goal g)
    (hclosed : ∀ c, (g.nodes c).visited = true → Closed eight g0 g c)
    (hb : inBounds g cur = true) (hopen : isOpen g cur = true) (hgoal : cur ≠ goal) :
    unvisited (expand eight sc g cur) < unvisited g := by
  obtain ⟨a1, -, a3⟩ := expand_inv eight sc g0 start goal g cur h hclosed hopen hgoal
  unfold unvisited
  rw [cells_congr (expand eight sc g cur) g (a1.width_eq.trans h.width_eq.symm)
    (a1.height_eq.trans h.height_eq.symm)]
  simp only [isOpen, Bool.and_eq_true, Bool.not_eq_true'] at hopen
  apply length_filter_lt _ _ _ _ cur ((mem_cells g cur).mpr hb)
  · simp [hopen.2]
  · rw [a3]; simp
  · intro x hx
    rw [a3] at hx
    simp only [Bool.not_eq_true', Bool.or_eq_false_iff] at hx
    simp [hx.2]

theorem search_complete (eight : Bool) (heuristic sc : Cell → Cell → Nat) (g0 : GridMap)
    (start goal : Cell) (hpos : ∀ a b, 0 < sc a b)
    (hreach : Reachable eight g0 start goal) :
    ∀ (fuel : Nat) (g : GridMap), Core eight sc g0 start goal g →
      (∀ c, (g.nodes c).visited = true → Closed eight g0 g c) →
      unvisited g < fuel →
      ∃ path, search eight heuristic sc start goal fuel g = some path := by
  intro fuel
  induction fuel with
  | zero => intro g _ _ hlt; omega
  | succ fuel ih =>
    intro g h hclosed hlt
    rw [search]
    cases hpick : pickOpen heuristic g goal with
    | none =>
      exfalso
      have hvis : ∀ c, (g.nodes c).cost.isSome = true → (g.nodes c).visited = true := by
        intro c hc
        have hb := (h.reached_ok c hc).1
        rw [← inBounds_congr g g0 h.width_eq h.height_eq] at hb
        have := pickOpen_none heuristic g goal hpick c hb
        simp only [isOpen, hc, Bool.true_and, Bool.not_eq_false'] at this
        exact this
      have hall : ∀ c, Reachable eight g0 start c → (g.nodes c).visited = true := by
        intro c hc
        induction hc with
        | refl => exact hvis start (by rw [h.start_cost]; rfl)
        | tail _ hstep ihc =>
          exact hvis _ (hclosed _ ihc _ hstep.1 hstep.2.1 hstep.2.2)
      have := hall goal hreach
      rw [h.goal_open] at this
      exact Bool.false_ne_true this
    | some cur =>
      simp only
      obtain ⟨hb, hopen⟩ := pickOpen_some heuristic g goal cur hpick
      by_cases hcg : cur = goal
      · simp only [hcg, if_true]
        have hreached : (g.nodes goal).cost.isSome = true := by
          rw [hcg] at hopen
          simp only [isOpen, Bool.and_eq_true] at hopen
          exact hopen.1
        obtain ⟨gc, hgc⟩ := Option.isSome_iff_exists.mp hreached
        obtain ⟨l, hl⟩ := walkBack_complete eight sc g0 start goal g h hpos
          ((g.nodes goal).cost.getD 0 + 1) goal gc hgc (by rw [hgc]; simp)
        exact ⟨l.reverse, by rw [hl]; rfl⟩
      · simp only [hcg, if_false]
        obtain ⟨a1, a2, -⟩ := expand_inv eight sc g0 start goal g cur h hclosed hopen hcg
        have := unvisited_expand_lt eight sc g0 start goal g cur h hclosed hb hopen hcg
        exact ih _ a1 a2 (by omega)

theorem seedStart_core (eight : Bool) (sc : Cell → Cell → Nat) (grid : GridMap)
    (start goal : Cell) (hb : inBounds grid start = true)
    (ht : (grid.nodes start).traversable = true) :
    Core eight sc grid start goal (seedStart (reset_grid grid) start) ∧
      (∀ c, ((seedStart (reset_grid grid) start).nodes c).visited = false) := by
  have hv : ∀ c, ((seedStart (reset_grid grid) start).nodes c).visited = false := by
    intro c
    unfold seedStart reset_grid
    by_cases hc : c = start <;> simp [hc]
  have hcost : ∀ c, c ≠ start → ((seedStart (reset_grid grid) start).nodes c).cost = none := by
    intro c hc
    unfold seedStart reset_grid
    simp [hc]
  refine ⟨⟨rfl, rfl, ?_, ?_, ?_, ?_, ?_, hv goal⟩, hv⟩
  · intro c
    unfold seedStart reset_grid
    by_cases hc : c = start <;> simp [hc]
  · unfold seedStart reset_grid
    simp
  · intro c hc
    by_cases hcs : c = start
    · rw [hcs]; exact ⟨hb, ht⟩
    · rw [hcost c hcs] at hc; cases hc
  · intro c gc hc hcs
    rw [hcost c hcs] at hc; cases hc
  · intro c hc
    rw [hv c] at hc; cases hc

theorem unvisited_le (g : GridMap) : unvisited g ≤ g.width * g.height := by
  unfold unvisited
  rw [← length_cells]
  exact List.length_filter_le _ _

/-- Soundness of the search: a reported path is a path from the start to the
goal through traversable cells. -/
theorem astar_sound (eight : Bool) (heuristic sc : Cell → Cell → Nat) (grid : GridMap)
    (start goal : Cell) (path : List Cell)
    (h : astar_pathfinding eight heuristic sc grid start goal = some path) :
    ValidPath eight grid start goal path := by
  unfold astar_pathfinding at h
  simp only at h
  split_ifs at h with hcond
  simp only [Bool.and_eq_true] at hcond
  obtain ⟨⟨⟨hb, -⟩, ht⟩, -⟩ := hcond
  obtain ⟨hcore, hv⟩ := seedStart_core eight sc grid start goal hb ht
  exact search_sound eight heuristic sc grid start goal _ _ path hcore
    (fun c hc => by rw [hv c] at hc; cases hc) h

/-- Completeness of the search: when the goal can be reached from the start,
a path is reported. -/
theorem astar_complete (eight : Bool) (heuristic sc : Cell → Cell → Nat) (grid : GridMap)
    (start goal : Cell) (hpos : ∀ a b, 0 < sc a b)
    (hbs : inBounds grid start = true) (hts : (grid.nodes start).traversable = true)
    (hbg : inBounds grid goal = true) (htg : (grid.nodes goal).traversable = true)
    (hreach : Reachable eight grid start goal) :
    ∃ path, astar_pathfinding eight heuristic sc grid start goal = some path := by
  unfold astar_pathfinding
  simp only
  have hcond : (inBounds (reset_grid grid) start && inBounds (reset_grid grid) goal &&
      ((reset_grid grid).nodes start).traversable &&
      ((reset_grid grid).nodes goal).traversable) = true := by
    simp only [Bool.and_eq_true]
    exact ⟨⟨⟨hbs, hbg⟩, hts⟩, htg⟩
  rw [if_pos hcond]
  obtain ⟨hcore, hv⟩ := seedStart_core eight sc grid start goal hbs hts
  exact search_complete eight heuristic sc grid start goal hpos hreach _ _ hcore
    (fun c hc => by rw [hv c] at hc; cases hc)
    (Nat.lt_succ_of_le (unvisited_le _))

end AISystem

/-! ## Pathfinding: walls -/

namespace AISystem

theorem validPath_reachable (eight : Bool) (grid : GridMap) :
    ∀ (l : List Cell) (a b : Cell), l.head? = some a → l.getLast? = some b →
      (∀ c ∈ l, inBounds grid c = true ∧ (grid.nodes c).traversable = true) →
      l.Chain' (fun x y => y ∈ neighbours eight x) → Reachable eight grid a b := by
  intro l
  induction l with
  | nil => intro a b h; simp at h
  | cons x l ih =>
    intro a b ha hb hall hch
    simp only [List.head?_cons, Option.some.injEq] at ha
    subst ha
    cases l with
    | nil =>
      simp only [List.getLast?_singleton, Option.some.injEq] at hb
      subst hb
      exact Relation.ReflTransGen.refl
    | cons y ys =>
      rw [List.getLast?_cons_cons] at hb
      rw [List.chain'_cons] at hch
      have hy := hall y (List.mem_cons_of_mem x (List.mem_cons_self y ys))
      have hrest := ih y b rfl hb (fun c hc => hall c (List.mem_cons_of_mem x hc)) hch.2
      exact Relation.ReflTransGen.head ⟨hch.1, hy.1, hy.2⟩ hrest

theorem neighbours_fst (eight : Bool) (a b : Cell) (h : b ∈ neighbours eight a) :
    b.1 ≤ a.1 + 1 ∧ a.1 ≤ b.1 + 1 := by
  unfold neighbours at h
  cases eight
  · simp at h
    rcases h with rfl | rfl | rfl | rfl <;> simp only <;> omega
  · simp at h
    rcases h with rfl | rfl | rfl | rfl | rfl | rfl | rfl | rfl <;> simp only <;> omega

/-- A column of blocked cells between the start and the goal separates them. -/
theorem not_reachable_of_wall (eight : Bool) (grid : GridMap) (start goal : Cell) (k : Int)
    (hwall : ∀ c, inBounds grid c = true → c.1 = k → (grid.nodes c).traversable = false)
    (hbetween : (start.1 < k ∧ k < goal.1) ∨ (goal.1 < k ∧ k < start.1)) :
    ¬ Reachable eight grid start goal := by
  intro hreach
  rcases hbetween with ⟨hs, hg⟩ | ⟨hg, hs⟩
  · have hall : ∀ c, Reachable eight grid start c → c.1 < k := by
      intro c hc
      induction hc with
      | refl => exact hs
      | @tail a b _ hstep ih =>
        have hn := (neighbours_fst eight a b hstep.1).1
        have hne : b.1 ≠ k := by
          intro hk
          have ht := hstep.2.2
          rw [hwall b hstep.2.1 hk] at ht
          exact Bool.false_ne_true ht
        omega
    have := hall goal hreach
    omega
  · have hall : ∀ c, Reachable eight grid start c → k < c.1 := by
      intro c hc
      induction hc with
      | refl => exact hs
      | @tail a b _ hstep ih =>
        have hn := (neighbours_fst eight a b hstep.1).2
        have hne : b.1 ≠ k := by
          intro hk
          have ht := hstep.2.2
          rw [hwall b hstep.2.1 hk] at ht
          exact Bool.false_ne_true ht
        omega
    have := hall goal hreach
    omega

theorem mem_neighbours_right (eight : Bool) (x y : Int) : (x + 1, y) ∈ neighbours eight (x, y) := by
  simp [neighbours]

theorem mem_neighbours_left (eight : Bool) (x y : Int) : (x - 1, y) ∈ neighbours eight (x, y) := by
  simp [neighbours]

theorem mem_neighbours_up (eight : Bool) (x y : Int) : (x, y + 1) ∈ neighbours eight (x, y) := by
  simp [neighbours]

theorem mem_neighbours_down (eight : Bool) (x y : Int) : (x, y - 1) ∈ neighbours eight (x, y) := by
  simp [neighbours]

/-- Along a row whose cells between the two ends are in bounds and
traversable, each end can be reached from the other. -/
theorem reachable_row (eight : Bool) (grid : GridMap) (y : Int) (n : Nat) :
    ∀ x : Int, (∀ i : Int, x ≤ i → i ≤ x + n →
        inBounds grid (i, y) = true ∧ (grid.nodes (i, y)).traversable = true) →
      Reachable eight grid (x, y) (x + n, y) ∧ Reachable eight grid (x + n, y) (x, y) := by
  induction n with
  | zero =>
    intro x _
    simp only [Nat.cast_zero, add_zero]
    exact ⟨Relation.ReflTransGen.refl, Relation.ReflTransGen.refl⟩
  | succ n ih =>
    intro x hok
    obtain ⟨h1, h2⟩ := ih x (fun i hi1 hi2 => hok i hi1 (by push_cast; omega))
    have hlast := hok (x + n + 1) (by omega) (by push_cast; omega)
    have hprev := hok (x + n) (by omega) (by push_cast; omega)
    have e : x + ((n + 1 : Nat) : Int) = x + n + 1 := by push_cast; omega
    rw [e]
    constructor
    · exact Relation.ReflTransGen.tail h1
        ⟨mem_neighbours_right eight (x + n) y, hlast.1, hlast.2⟩
    · refine Relation.ReflTransGen.head ?_ h2
      have := mem_neighbours_left eight (x + n + 1) y
      rw [show x + n + 1 - 1 = x + n by omega] at this
      exact ⟨this, hprev.1, hprev.2⟩

/-- Along a column whose cells between the two ends are in bounds and
traversable, each end can be reached from the other. -/
theorem reachable_column (eight : Bool) (grid : GridMap) (x : Int) (n : Nat) :
    ∀ y : Int, (∀ i : Int, y ≤ i → i ≤ y + n →
        inBounds grid (x, i) = true ∧ (grid.nodes (x, i)).traversable = true) →
      Reachable eight grid (x, y) (x, y + n) ∧ Reachable eight grid (x, y + n) (x, y) := by
  induction n with
  | zero =>
    intro y _
    simp only [Nat.cast_zero, add_zero]
    exact ⟨Relation.ReflTransGen.refl, Relation.ReflTransGen.refl⟩
  | succ n ih =>
    intro y hok
    obtain ⟨h1, h2⟩ := ih y (fun i hi1 hi2 => hok i hi1 (by push_cast; omega))
    have hlast := hok (y + n + 1) (by omega) (by push_cast; omega)
    have hprev := hok (y + n) (by omega) (by push_cast; omega)
    have e : y + ((n + 1 : Nat) : Int) = y + n + 1 := by push_cast; omega
    rw [e]
    constructor
    · exact Relation.ReflTransGen.tail h1
        ⟨mem_neighbours_up eight x (y + n), hlast.1, hlast.2⟩
    · refine Relation.ReflTransGen.head ?_ h2
      have := mem_neighbours_down eight x (y + n + 1)
      rw [show y + n + 1 - 1 = y + n by omega] at this
      exact ⟨this, hprev.1, hprev.2⟩

theorem reachable_row_between (eight : Bool) (grid : GridMap) (y x1 x2 : Int)
    (hok : ∀ i : Int, min x1 x2 ≤ i → i ≤ max x1 x2 →
      inBounds grid (i, y) = true ∧ (grid.nodes (i, y)).traversable = true) :
    Reachable eight grid (x1, y) (x2, y) := by
  rcases le_total x1 x2 with h | h
  · have := (reachable_row eight grid y (x2 - x1).toNat x1 (fun i h1 h2 =>
      hok i (by rw [min_eq_left h]; exact h1) (by rw [max_eq_right h]; omega))).1
    rw [show x1 + ((x2 - x1).toNat : Int) = x2 by omega] at this
    exact this
  · have := (reachable_row eight grid y (x1 - x2).toNat x2 (fun i h1 h2 =>
      hok i (by rw [min_eq_right h]; exact h1) (by rw [max_eq_left h]; omega))).2
    rw [show x2 + ((x1 - x2).toNat : Int) = x1 by omega] at this
    exact this

theorem reachable_column_between (eight : Bool) (grid : GridMap) (x y1 y2 : Int)
    (hok : ∀ i : Int, min y1 y2 ≤ i → i ≤ max y1 y2 →
      inBounds grid (x, i) = true ∧ (grid.nodes (x, i)).traversable = true) :
    Reachable eight grid (x, y1) (x, y2) := by
  rcases le_total y1 y2 with h | h
  · have := (reachable_column eight grid x (y2 - y1).toNat y1 (fun i h1 h2 =>
      hok i (by rw [min_eq_left h]; exact h1) (by rw [max_eq_right h]; omega))).1
    rw [show y1 + ((y2 - y1).toNat : Int) = y2 by omega] at this
    exact this
  · have := (reachable_column eight grid x (y1 - y2).toNat y2 (fun i h1 h2 =>
      hok i (by rw [min_eq_right h]; exact h1) (by rw [max_eq_left h]; omega))).2
    rw [show y2 + ((y1 - y2).toNat : Int) = y1 by omega] at this
    exact this

theorem inBounds_iff (grid : GridMap) (c : Cell) :
    inBounds grid c = true ↔ 0 ≤ c.1 ∧ c.1 < grid.width ∧ 0 ≤ c.2 ∧ c.2 < grid.height := by
  simp [inBounds, and_assoc]

/-- In a grid whose only blocked cells are those of column `k` outside the
row `gy`, the goal can be reached from the start across the gap. -/
theorem reachable_through_gap (eight : Bool) (grid : GridMap) (start goal : Cell) (k gy : Int)
    (hbs : inBounds grid start = true) (hbg : inBounds grid goal = true)
    (hgy0 : 0 ≤ gy) (hgy1 : gy < grid.height)
    (hs : start.1 ≠ k) (hg : goal.1 ≠ k)
    (hfree : ∀ c, inBounds grid c = true →
      ((grid.nodes c).traversable = true ↔ (c.1 ≠ k ∨ c.2 = gy))) :
    Reachable eight grid start goal := by
  obtain ⟨sx, sy⟩ := start
  obtain ⟨gx, gyy⟩ := goal
  rw [inBounds_iff] at hbs hbg
  simp only at hbs hbg hs hg
  have h1 : Reachable eight grid (sx, sy) (sx, gy) := by
    apply reachable_column_between
    intro i hi1 hi2
    have hb : inBounds grid (sx, i) = true := by
      rw [inBounds_iff]
      simp only
      rcases le_total sy gy with h | h
      · rw [min_eq_left h] at hi1; rw [max_eq_right h] at hi2; omega
      · rw [min_eq_right h] at hi1; rw [max_eq_left h] at hi2; omega
    exact ⟨hb, (hfree _ hb).mpr (Or.inl hs)⟩
  have h2 : Reachable eight grid (sx, gy) (gx, gy) := by
    apply reachable_row_between
    intro i hi1 hi2
    have hb : inBounds grid (i, gy) = true := by
      rw [inBounds_iff]
      simp only
      rcases le_total sx gx with h | h
      · rw [min_eq_left h] at hi1; rw [max_eq_right h] at hi2; omega
      · rw [min_eq_right h] at hi1; rw [max_eq_left h] at hi2; omega
    exact ⟨hb, (hfree _ hb).mpr (Or.inr rfl)⟩
  have h3 : Reachable eight grid (gx, gy) (gx, gyy) := by
    apply reachable_column_between
    intro i hi1 hi2
    have hb : inBounds grid (gx, i) = true := by
      rw [inBounds_iff]
      simp only
      rcases le_total gy gyy with h | h
      · rw [min_eq_left h] at hi1; rw [max_eq_right h] at hi2; omega
      · rw [min_eq_right h] at hi1; rw [max_eq_left h] at hi2; omega
    exact ⟨hb, (hfree _ hb).mpr (Or.inl hg)⟩
  exact Relation.ReflTransGen.trans h1 (Relation.ReflTransGen.trans h2 h3)

end AISystem

/-- C11. Pathfinding on a grid with a wall (the search is modelled from the
specification, for both neighbourhoods, any heuristic and any cost of the
moves). When no sequence of moves through traversable cells leads from the
start node to the end node, `astar_pathfinding` reports no path; when there is
one (and the moves have positive cost), it produces a path that begins at the
start cell, ends at the goal cell, and whose nodes are all traversable, each a
neighbour of the one before. In particular, a column of blocked nodes between
the start and the end gives no path, and the same wall with a one-cell gap, in
a grid without other obstacles, gives such a path. -/
theorem AISystem.astar_pathfinding_wall :
    (∀ (eight : Bool) (heuristic stepCost : Cell → Cell → Nat) (grid : GridMap)
      (startNode endNode : Cell),
      ¬ AISystem.Reachable eight grid startNode endNode →
      AISystem.astar_pathfinding eight heuristic stepCost grid startNode endNode = none) ∧
    (∀ (eight : Bool) (heuristic stepCost : Cell → Cell → Nat) (grid : GridMap)
      (startNode endNode : Cell),
      (∀ a b, 0 < stepCost a b) →
      AISystem.inBounds grid startNode = true → (grid.nodes startNode).traversable = true →
      AISystem.inBounds grid endNode = true → (grid.nodes endNode).traversable = true →
      AISystem.Reachable eight grid startNode endNode →
      ∃ path, AISystem.astar_pathfinding eight heuristic stepCost grid startNode endNode =
          some path ∧
        path.head? = some startNode ∧ path.getLast? = some endNode ∧
        (∀ c ∈ path, AISystem.inBounds grid c = true ∧ (grid.nodes c).traversable = true) ∧
        path.Chain' (fun a b => b ∈ AISystem.neighbours eight a)) ∧
    (∀ (eight : Bool) (heuristic stepCost : Cell → Cell → Nat) (grid : GridMap)
      (startNode endNode : Cell) (k : Int),
      ((startNode.1 < k ∧ k < endNode.1) ∨ (endNode.1 < k ∧ k < startNode.1)) →
      (∀ c, AISystem.inBounds grid c = true → c.1 = k → (grid.nodes c).traversable = false) →
      AISystem.astar_pathfinding eight heuristic stepCost grid startNode endNode = none) ∧
    (∀ (eight : Bool) (heuristic stepCost : Cell → Cell → Nat) (grid : GridMap)
      (startNode endNode : Cell) (k gy : Int),
      (∀ a b, 0 < stepCost a b) →
      AISystem.inBounds grid startNode = true → AISystem.inBounds grid endNode = true →
      ((startNode.1 < k ∧ k < endNode.1) ∨ (endNode.1 < k ∧ k < startNode.1)) →
      0 ≤ gy → gy < grid.height →
      (∀ c, AISystem.inBounds grid c = true →
        ((grid.nodes c).traversable = true ↔ (c.1 ≠ k ∨ c.2 = gy))) →
      ∃ path, AISystem.astar_pathfinding eight heuristic stepCost grid startNode endNode =
          some path ∧
        path.head? = some startNode ∧ path.getLast? = some endNode ∧
        (∀ c ∈ path, AISystem.inBounds grid c = true ∧ (grid.nodes c).traversable = true) ∧
        path.Chain' (fun a b => b ∈ AISystem.neighbours eight a)) := by
  have hnone : ∀ (eight : Bool) (heuristic stepCost : Cell → Cell → Nat) (grid : GridMap)
      (startNode endNode : Cell),
      ¬ AISystem.Reachable eight grid startNode endNode →
      AISystem.astar_pathfinding eight heuristic stepCost grid startNode endNode = none := by
    intro eight heuristic sc grid s e hn
    cases h : AISystem.astar_pathfinding eight heuristic sc grid s e with
    | none => rfl
    | some path =>
      exfalso
      obtain ⟨v1, v2, v3, v4⟩ := AISystem.astar_sound eight heuristic sc grid s e path h
      exact hn (AISystem.validPath_reachable eight grid path s e v1 v2 v3 v4)
  have hsome : ∀ (eight : Bool) (heuristic stepCost : Cell → Cell → Nat) (grid : GridMap)
      (startNode endNode : Cell),
      (∀ a b, 0 < stepCost a b) →
      AISystem.inBounds grid startNode = true → (grid.nodes startNode).traversable = true →
      AISystem.inBounds grid endNode = true → (grid.nodes endNode).traversable = true →
      AISystem.Reachable eight grid startNode endNode →
      ∃ path, AISystem.astar_pathfinding eight heuristic stepCost grid startNode endNode =
          some path ∧
        path.head? = some startNode ∧ path.getLast? = some endNode ∧
        (∀ c ∈ path, AISystem.inBounds grid c = true ∧ (grid.nodes c).traversable = true) ∧
        path.Chain' (fun a b => b ∈ AISystem.neighbours eight a) := by
    intro eight heuristic sc grid s e hpos hbs hts hbe hte hr
    obtain ⟨path, hp⟩ := AISystem.astar_complete eight heuristic sc grid s e hpos hbs hts hbe hte hr
    exact ⟨path, hp, AISystem.astar_sound eight heuristic sc grid s e path hp⟩
  refine ⟨hnone, hsome, ?_, ?_⟩
  · intro eight heuristic sc grid s e k hbetween hwall
    exact hnone eight heuristic sc grid s e
      (AISystem.not_reachable_of_wall eight grid s e k hwall hbetween)
  · intro eight heuristic sc grid s e k gy hpos hbs hbe hbetween hgy0 hgy1 hfree
    have hsk : s.1 ≠ k := by rcases hbetween with h | h <;> omega
    have hek : e.1 ≠ k := by rcases hbetween with h | h <;> omega
    exact hsome eight heuristic sc grid s e hpos hbs ((hfree s hbs).mpr (Or.inl hsk))
      hbe ((hfree e hbe).mpr (Or.inl hek))
      (AISystem.reachable_through_gap eight grid s e k gy hbs hbe hgy0 hgy1 hsk hek hfree)

/-- Witness of C11: on a grid of 5 by 3 cells with a wall in column 2, from
(0,1) to (4,1) with 4-connected moves of cost 1 and the Manhattan distance, no
path is reported; with a gap in row 0 a path from (0,1) to (4,1) through
traversable cells is produced, the one around the wall through the gap. -/
theorem AISystem.astar_pathfinding_wall_witness :
    AISystem.astar_pathfinding false AISystem.manhattan (fun _ _ => 1)
        (AISystem.wallGrid 5 3 2 none) (0, 1) (4, 1) = none ∧
      ∃ path, AISystem.astar_pathfinding false AISystem.manhattan (fun _ _ => 1)
          (AISystem.wallGrid 5 3 2 (some 0)) (0, 1) (4, 1) = some path ∧
        path = [(0, 1), (1, 1), (1, 0), (2, 0), (3, 0), (3, 1), (4, 1)] ∧
        path.head? = some (0, 1) ∧ path.getLast? = some (4, 1) ∧
        ∀ c ∈ path, ((AISystem.wallGrid 5 3 2 (some 0)).nodes c).traversable = true := by
  constructor
  · exact AISystem.astar_pathfinding_wall.2.2.1 false AISystem.manhattan (fun _ _ => 1)
      (AISystem.wallGrid 5 3 2 none) (0, 1) (4, 1) 2 (Or.inl (by decide))
      (by
        intro c _ hc
        simp [AISystem.wallGrid, hc])
  · obtain ⟨path, h1, h2, h3, h4, -⟩ :=
      AISystem.astar_pathfinding_wall.2.2.2 false AISystem.manhattan (fun _ _ => 1)
        (AISystem.wallGrid 5 3 2 (some 0)) (0, 1) (4, 1) 2 0 (fun _ _ => Nat.one_pos)
        (by decide) (by decide) (Or.inl (by decide)) (by decide) (by decide)
        (by
          intro c _
          simp only [AISystem.wallGrid, Bool.or_eq_true, decide_eq_true_eq, Option.some.injEq]
          constructor
          · rintro (h | h)
            · exact Or.inl h
            · exact Or.inr h.symm
          · rintro (h | h)
            · exact Or.inl h
            · exact Or.inr h.symm)
    have hpath : AISystem.astar_pathfinding false AISystem.manhattan (fun _ _ => 1)
        (AISystem.wallGrid 5 3 2 (some 0)) (0, 1) (4, 1) =
        some [(0, 1), (1, 1), (1, 0), (2, 0), (3, 0), (3, 1), (4, 1)] := by decide
    exact ⟨path, h1, Option.some.inj (h1.symm.trans hpath), h2, h3, fun c hc => (h4 c hc).2⟩

/-! ## The camera -/

namespace RenderSystem

/-- The position on screen of a world position, for a player at `m.position`,
the framebuffer and the window both of size `(w, h)` with non-zero halves. -/
theorem calculatePosInCamera_eq (w h : Int) (registry : Registry) (player : Entity)
    (m : Motion) (hplayer : registry.players.entities[0]? = some player)
    (hm : registry.motions.get player = some m)
    (hw : ((Int.tdiv w 2 : Int) : ℚ) ≠ 0) (hh : ((Int.tdiv h 2 : Int) : ℚ) ≠ 0)
    (p : vec2) :
    calculatePosInCamera w h w h registry p =
      some ⟨(w : ℚ) * ((p.x - m.position.x) / ((Int.tdiv w 2 : Int) : ℚ) + 1) / 2,
        (h : ℚ) - (h : ℚ) * ((m.position.y - p.y) / ((Int.tdiv h 2 : Int) : ℚ) + 1) / 2⟩ := by
  simp only [calculatePosInCamera, createCameraMatrix, hplayer, hm, mat3.mulVec,
    Option.some.injEq, vec2.mk.injEq]
  have e1 : ∀ c a : ℚ, c + a - (c - a) = 2 * a := fun _ _ => by ring
  have e2 : ∀ c a : ℚ, c - a - (c + a) = -(2 * a) := fun _ _ => by ring
  simp only [e1, e2]
  constructor
  · generalize ((Int.tdiv w 2 : Int) : ℚ) = a at hw
    field_simp
    ring
  · generalize ((Int.tdiv h 2 : Int) : ℚ) = b at hh
    field_simp
    ring

theorem cast_tdiv_two_ne_zero (w : Int) (hw : 2 ≤ w) : ((Int.tdiv w 2 : Int) : ℚ) ≠ 0 := by
  rw [Int.tdiv_eq_ediv (by omega) (by norm_num)]
  have : (0 : Int) < w / 2 := by omega
  exact_mod_cast this.ne'

theorem cast_tdiv_two_of_even (w : Int) (hw : 2 ≤ w) (heven : w % 2 = 0) :
    ((Int.tdiv w 2 : Int) : ℚ) = (w : ℚ) / 2 := by
  rw [Int.tdiv_eq_ediv (by omega) (by norm_num)]
  have h2 : w = 2 * (w / 2) := by omega
  have : (w : ℚ) = 2 * ((w / 2 : Int) : ℚ) := by exact_mod_cast h2
  rw [this]
  ring

end RenderSystem

/-- C21. The camera centres the player. The framebuffer and the window both
having the size `(w, h)` with `w >= 2` and `h >= 2`, `calculatePosInCamera` on
the position of the player (entity `registry.players.entities[0]`, with its
Motion in `registry.motions`) returns the window centre `(w/2, h/2)`; and when
`w` and `h` are even, it returns `p - playerPosition + (w/2, h/2)` for every
world position `p` (exact rational arithmetic, `w/2` and `h/2` of
`createCameraMatrix` being integer divisions). -/
theorem RenderSystem.calculatePosInCamera_centres_player (w h : Int) (registry : Registry)
    (player : Entity) (m : Motion)
    (hplayer : registry.players.entities[0]? = some player)
    (hm : registry.motions.get player = some m)
    (hw : 2 ≤ w) (hh : 2 ≤ h) :
    RenderSystem.calculatePosInCamera w h w h registry m.position =
        some ⟨(w : ℚ) / 2, (h : ℚ) / 2⟩ ∧
      (w % 2 = 0 → h % 2 = 0 → ∀ p : vec2,
        RenderSystem.calculatePosInCamera w h w h registry p =
          some ⟨p.x - m.position.x + (w : ℚ) / 2, p.y - m.position.y + (h : ℚ) / 2⟩) := by
  have hw0 := RenderSystem.cast_tdiv_two_ne_zero w hw
  have hh0 := RenderSystem.cast_tdiv_two_ne_zero h hh
  constructor
  · rw [RenderSystem.calculatePosInCamera_eq w h registry player m hplayer hm hw0 hh0]
    simp only [sub_self, zero_div, zero_add, mul_one, Option.some.injEq, vec2.mk.injEq]
    constructor
    · trivial
    · ring
  · intro hwe hhe p
    rw [RenderSystem.calculatePosInCamera_eq w h registry player m hplayer hm hw0 hh0,
      RenderSystem.cast_tdiv_two_of_even w hw hwe, RenderSystem.cast_tdiv_two_of_even h hh hhe]
    have hwq : (w : ℚ) ≠ 0 := by
      have : w ≠ 0 := by omega
      exact_mod_cast this
    have hhq : (h : ℚ) ≠ 0 := by
      have : h ≠ 0 := by omega
      exact_mod_cast this
    simp only [Option.some.injEq, vec2.mk.injEq]
    constructor
    · field_simp
    · field_simp
      ring

/-- Witness of C21: in `cameraScene`, with a window and a framebuffer of 800
by 600, the player at (120, -40) is shown at (400, 300) and the world position
(20, 60) at (300, 400). -/
theorem RenderSystem.calculatePosInCamera_centres_player_witness :
    RenderSystem.calculatePosInCamera 800 600 800 600 RenderSystem.cameraScene ⟨120, -40⟩ =
        some ⟨400, 300⟩ ∧
      RenderSystem.calculatePosInCamera 800 600 800 600 RenderSystem.cameraScene ⟨20, 60⟩ =
        some ⟨300, 400⟩ := by
  obtain ⟨h1, h2⟩ := RenderSystem.calculatePosInCamera_centres_player 800 600
    RenderSystem.cameraScene 1 ⟨⟨120, -40⟩, 0, ⟨0, 0⟩, ⟨50, 50⟩⟩ rfl
    (by simp [RenderSystem.cameraScene, ComponentContainer.get]) (by decide) (by decide)
  constructor
  · rw [h1]; norm_num
  · rw [h2 (by decide) (by decide) ⟨20, 60⟩]; norm_num

/-! ## Additivity of the integration -/

theorem PhysicsSystem.move_move (a b : ℚ) (m : Motion) :
    PhysicsSystem.move (b / 1000) (PhysicsSystem.move (a / 1000) m) =
      PhysicsSystem.move ((a + b) / 1000) m := by
  rcases m with ⟨⟨px, py⟩, ang, ⟨vx, vy⟩, sc⟩
  simp only [PhysicsSystem.move, vec2.add, vec2.smul, Motion.mk.injEq, vec2.mk.injEq,
    and_true, true_and]
  constructor <;> ring

theorem PhysicsSystem.move_zero (m : Motion) : PhysicsSystem.move (0 / 1000) m = m := by
  rcases m with ⟨⟨px, py⟩, ang, ⟨vx, vy⟩, sc⟩
  simp [PhysicsSystem.move, vec2.add, vec2.smul]

/-- C22. Integration is additive in the elapsed time: the motion container,
hence every Motion position, is the same after `step(a)` followed by `step(b)`
as after a single `step(a + b)` from the same state (exact arithmetic), and
`step(0)` leaves the motion container, hence every position, unchanged. -/
theorem PhysicsSystem.step_additive (a b : ℚ) (registry : Registry) :
    (PhysicsSystem.step b (PhysicsSystem.step a registry)).motions =
        (PhysicsSystem.step (a + b) registry).motions ∧
      (PhysicsSystem.step b (PhysicsSystem.step a registry)).motions.slots.map
          (fun s => (s.1, s.2.position)) =
        (PhysicsSystem.step (a + b) registry).motions.slots.map
          (fun s => (s.1, s.2.position)) ∧
      (PhysicsSystem.step 0 registry).motions = registry.motions ∧
      (PhysicsSystem.step 0 registry).motions.slots.map (fun s => (s.1, s.2.position)) =
        registry.motions.slots.map (fun s => (s.1, s.2.position)) := by
  have h1 : (PhysicsSystem.step b (PhysicsSystem.step a registry)).motions =
      (PhysicsSystem.step (a + b) registry).motions := by
    have hs : (PhysicsSystem.step b (PhysicsSystem.step a registry)).motions.slots =
        (PhysicsSystem.step (a + b) registry).motions.slots := by
      rw [PhysicsSystem.step_motions_slots, PhysicsSystem.step_motions_slots,
        PhysicsSystem.step_motions_slots, List.map_map]
      apply List.map_congr_left
      intro s _
      simp only [Function.comp_apply, PhysicsSystem.move_move]
    cases hx : (PhysicsSystem.step b (PhysicsSystem.step a registry)).motions
    cases hy : (PhysicsSystem.step (a + b) registry).motions
    rw [hx, hy] at hs
    simpa using hs
  have h2 : (PhysicsSystem.step 0 registry).motions = registry.motions := by
    have hs : (PhysicsSystem.step 0 registry).motions.slots = registry.motions.slots := by
      rw [PhysicsSystem.step_motions_slots]
      conv_rhs => rw [← List.map_id registry.motions.slots]
      apply List.map_congr_left
      intro s _
      simp only [PhysicsSystem.move_zero, id]
    cases hx : (PhysicsSystem.step 0 registry).motions
    cases hy : registry.motions
    rw [hx, hy] at hs
    simpa using hs
  exact ⟨h1, by rw [h1], h2, by rw [h2]⟩

/-! ## The overlap predicate in binary32 -/

theorem roundHalfEven_of_floor (r : ℚ) (f : Int) (h1 : (f : ℚ) ≤ r) (h2 : r < (f : ℚ) + 1) :
    roundHalfEven r =
      if r - f < 1 / 2 then f
      else if 1 / 2 < r - f then f + 1
      else if f % 2 = 0 then f else f + 1 := by
  have hf : ⌊r⌋ = f := Int.floor_eq_iff.mpr ⟨h1, h2⟩
  simp only [roundHalfEven, hf]

/-- The rounding of a rational of binade `e` (not below the least normal one)
whose quotient by the unit in the last place rounds to `n`. -/
theorem fl32_eq (q : ℚ) (e n : Int) (he1 : (2 : ℚ) ^ e ≤ |q|) (he2 : |q| < (2 : ℚ) ^ (e + 1))
    (he3 : -126 ≤ e) (hn : roundHalfEven (q / (2 : ℚ) ^ (e - 23)) = n) :
    fl32 q = (n : ℚ) * (2 : ℚ) ^ (e - 23) := by
  have hpos : (0 : ℚ) < |q| := lt_of_lt_of_le (by positivity) he1
  have hq : q ≠ 0 := abs_pos.mp hpos
  have hlog : Int.log 2 |q| = e := by
    apply le_antisymm
    · have := (Int.lt_zpow_iff_log_lt (R := ℚ) (b := 2) (by norm_num) hpos).mp
        (by exact_mod_cast he2)
      omega
    · exact (Int.zpow_le_iff_le_log (R := ℚ) (b := 2) (by norm_num) hpos).mp
        (by exact_mod_cast he1)
  simp only [fl32, hq, if_false, hlog, max_eq_left he3, hn]

theorem fl32_five : fl32 (10 / 2) = 5 := by
  rw [fl32_eq (10 / 2) 2 10485760 (by norm_num) (by norm_num [abs_lt]) (by norm_num)
    (by
      rw [roundHalfEven_of_floor _ 10485760 (by norm_num) (by norm_num)]
      norm_num)]
  norm_num

theorem fl32_right_edge : fl32 (1020 + 1 / 16384 + 5) = 1025 := by
  rw [fl32_eq (1020 + 1 / 16384 + 5) 10 8396800 (by norm_num [le_abs])
    (by norm_num [abs_lt]) (by norm_num)
    (by
      rw [roundHalfEven_of_floor _ 8396800 (by norm_num) (by norm_num)]
      norm_num)]
  norm_num

theorem fl32_left_edge : fl32 (1030 - 5) = 1025 := by
  rw [fl32_eq (1030 - 5) 10 8396800 (by norm_num [le_abs]) (by norm_num [abs_lt])
    (by norm_num)
    (by
      rw [roundHalfEven_of_floor _ 8396800 (by norm_num) (by norm_num)]
      norm_num)]
  norm_num

theorem fl32_coordinates :
    fl32 (1020 + 1 / 16384) = 1020 + 1 / 16384 ∧ fl32 1030 = 1030 ∧ fl32 10 = 10 ∧
      fl32 0 = 0 := by
  refine ⟨?_, ?_, ?_, by simp [fl32]⟩
  · rw [fl32_eq (1020 + 1 / 16384) 9 16711681 (by norm_num [le_abs]) (by norm_num [abs_lt])
      (by norm_num)
      (by
        rw [roundHalfEven_of_floor _ 16711681 (by norm_num) (by norm_num)]
        norm_num)]
    norm_num
  · rw [fl32_eq 1030 10 8437760 (by norm_num [le_abs]) (by norm_num [abs_lt]) (by norm_num)
      (by
        rw [roundHalfEven_of_floor _ 8437760 (by norm_num) (by norm_num)]
        norm_num)]
    norm_num
  · rw [fl32_eq 10 3 10485760 (by norm_num [le_abs]) (by norm_num [abs_lt]) (by norm_num)
      (by
        rw [roundHalfEven_of_floor _ 10485760 (by norm_num) (by norm_num)]
        norm_num)]
    norm_num

/-- C16, refuted as stated. In binary32 the boxes `A` at `(1020 + 2^-14, 0)` and
`B` at `(1030, 0)`, both of scale (10,10), have coordinates that are floats
and positive scales, satisfy `|x1 - x2| < (scale.x1 + scale.x2)/2` and
`|y1 - y2| < (scale.y1 + scale.y2)/2`, and their open x-intervals and open
y-intervals intersect, but `collides(A, B)` is false: the right edge of `A` is
rounded to 1025, the left edge of `B`. -/
theorem collides32_differs_from_standard_AABB :
    (fl32 (1020 + 1 / 16384) = 1020 + 1 / 16384 ∧ fl32 1030 = 1030 ∧ fl32 10 = 10 ∧
      fl32 0 = 0) ∧
    collides32 ⟨⟨1020 + 1 / 16384, 0⟩, 0, ⟨0, 0⟩, ⟨10, 10⟩⟩
      ⟨⟨1030, 0⟩, 0, ⟨0, 0⟩, ⟨10, 10⟩⟩ = false ∧
    |(1020 + 1 / 16384 : ℚ) - 1030| < ((10 : ℚ) + 10) / 2 ∧
    |(0 : ℚ) - 0| < ((10 : ℚ) + 10) / 2 ∧
    (∃ x : ℚ, 1020 + 1 / 16384 - 10 / 2 < x ∧ x < 1020 + 1 / 16384 + 10 / 2 ∧
      1030 - 10 / 2 < x ∧ x < 1030 + 10 / 2) ∧
    (∃ y : ℚ, 0 - 10 / 2 < y ∧ y < 0 + 10 / 2 ∧ 0 - 10 / 2 < y ∧ y < 0 + 10 / 2) := by
  refine ⟨fl32_coordinates, ?_, by norm_num [abs_lt], by norm_num,
    ⟨1025 + 1 / 32768, by norm_num, by norm_num, by norm_num, by norm_num⟩,
    ⟨0, by norm_num, by norm_num, by norm_num, by norm_num⟩⟩
  simp only [collides32, fl32_five, fl32_right_edge, fl32_left_edge]
  simp
